import Mathlib

/-!
Verification of the seehuhn.de/go/icc colour-profile library.

This file gives a shallow embedding of the library's profile codec, curve
codec and evaluator, LUT size guard, and transform helpers, and proves the
specification claims about them.

Modelling conventions:
* Byte buffers are plain lists of naturals (each entry a byte value; the
  byte range is either maintained by the writing primitives, which reduce
  modulo 256 exactly as the Go byte conversions do, or assumed as an
  explicit wellformedness hypothesis on input buffers).
* Go float64 values are modelled as rationals.  The only transcendental
  operation used by the library, math.Pow, is passed in as an explicit
  function parameter, so every theorem about curve evaluation holds for
  every possible model of the power function.
* crypto/md5 is external to the repository; the digest function is passed
  in as an explicit parameter.  Theorems that depend on properties of the
  real MD5 (digest length 16, a digest that is not all zero bytes) state
  those properties as hypotheses.
* Stateful code is modelled by explicit state passing: the decoder, which
  writes into the caller's buffer, returns the final buffer state next to
  its result.
* time.Time is modelled as the canonical calendar tuple produced by
  time.Date (year, month, day, hour, minute, second, always UTC in this
  library); normalisation of out-of-range fields follows the civil
  calendar exactly as in the Go standard library.
-/

namespace ICC

/-- Byte buffers, as in the Go code, are flat byte slices. -/
abbrev Bytes := List Nat

/-- Go float-to-integer conversion: truncation toward zero. -/
def ratTrunc (q : ℚ) : Int := q.num.tdiv (q.den : Int)

/-- clamp from the curve code: restrict a value to the range lo..hi. -/
def clamp (v lo hi : ℚ) : ℚ := if v < lo then lo else if v > hi then hi else v

/-- getUint16 reads a big-endian 16-bit value (read.go). -/
def getUint16 (data : Bytes) (offset : Nat) : Nat :=
  data.getD offset 0 * 2 ^ 8 + data.getD (offset + 1) 0

/-- getUint32 reads a big-endian 32-bit value (read.go). -/
def getUint32 (data : Bytes) (offset : Nat) : Nat :=
  data.getD offset 0 * 2 ^ 24 + data.getD (offset + 1) 0 * 2 ^ 16 +
    data.getD (offset + 2) 0 * 2 ^ 8 + data.getD (offset + 3) 0

/-- getUint64 reads a big-endian 64-bit value (read.go). -/
def getUint64 (data : Bytes) (offset : Nat) : Nat :=
  getUint32 data offset * 2 ^ 32 + getUint32 data (offset + 4)

/-- putUint16 writes a big-endian 16-bit value (unnamed curve file). -/
def putUint16 (data : Bytes) (offset v : Nat) : Bytes :=
  (data.set offset (v / 2 ^ 8 % 256)).set (offset + 1) (v % 256)

/-- putUint32 writes a big-endian 32-bit value (write.go). -/
def putUint32 (data : Bytes) (offset v : Nat) : Bytes :=
  (((data.set offset (v / 2 ^ 24 % 256)).set (offset + 1) (v / 2 ^ 16 % 256)).set
      (offset + 2) (v / 2 ^ 8 % 256)).set (offset + 3) (v % 256)

/-- putUint64 writes a big-endian 64-bit value (write.go). -/
def putUint64 (data : Bytes) (offset v : Nat) : Bytes :=
  putUint32 (putUint32 data offset (v / 2 ^ 32 % 2 ^ 32)) (offset + 4) (v % 2 ^ 32)

/-- Interpretation of a 32-bit word as a signed int32 value. -/
def asInt32 (v : Nat) : Int := if v < 2 ^ 31 then (v : Int) else (v : Int) - 2 ^ 32

/-- Go int32 conversion of a (truncated) real value, wrapping modulo 2^32. -/
def toUint32OfInt (z : Int) : Nat := (z % 2 ^ 32).toNat

/-- getS15Fixed16 reads a signed 15.16 fixed-point value (unnamed curve file). -/
def getS15Fixed16 (data : Bytes) (offset : Nat) : ℚ :=
  (asInt32 (getUint32 data offset) : ℚ) / 65536

/-- putS15Fixed16 writes a signed 15.16 fixed-point value (unnamed curve file). -/
def putS15Fixed16 (data : Bytes) (offset : Nat) (value : ℚ) : Bytes :=
  putUint32 data offset (toUint32OfInt (ratTrunc (value * 65536)))

/-- isZero from read.go: all bytes of the run are zero. -/
def isZero (b : Bytes) : Bool := b.all (· = 0)

/-- The slice data a..b of a buffer (Go data state slicing data and taking b-a). -/
def extract (data : Bytes) (a b : Nat) : Bytes := (data.drop a).take (b - a)

/-- Go copy into a slice suffix: write the source bytes one after another
starting at the given offset (writes past the end of the buffer are dropped,
as Go copy stops at the shorter slice). -/
def writeBytes : Bytes → Nat → Bytes → Bytes
  | b, _, [] => b
  | b, off, v :: vs => writeBytes (b.set off v) (off + 1) vs

/-- A loop writing consecutive big-endian 16-bit values, as in the table
loop of Curve.encodeCurveType and the LUT table writers. -/
def putU16Seq : Bytes → Nat → List Nat → Bytes
  | b, _, [] => b
  | b, off, v :: vs => putU16Seq (putUint16 b off v) (off + 2) vs

/-- A loop writing consecutive s15Fixed16 values, as in the parameter loop
of Curve.encodeParametric. -/
def putS15Seq : Bytes → Nat → List ℚ → Bytes
  | b, _, [] => b
  | b, off, v :: vs => putS15Seq (putS15Fixed16 b off v) (off + 4) vs

/-- Go uint16 conversion of a (truncated) real value, wrapping modulo 2^16. -/
def toUint16OfInt (z : Int) : Nat := (z % 2 ^ 16).toNat

/-! ## Curve model (Curve struct of the curve source file)

The cached inverse table field of the Go struct is derived state, explicitly
excluded from structural equality by the specification; it is therefore not
part of the model and inversion of sampled curves rebuilds it functionally. -/

/-- Curve represents a 1D transfer function.  Gamma, FuncType, Params and
Table mirror the Go struct fields; nil slices are modelled as none. -/
structure Curve where
  Gamma : ℚ
  FuncType : Int
  Params : Option (List ℚ)
  Table : Option (List Nat)
  deriving DecidableEq

/-- The zero value of the Curve struct. -/
def zeroCurve : Curve := ⟨0, 0, none, none⟩

/-- evaluateParametric from the curve source file.  powf models math.Pow. -/
def Curve.evaluateParametric (powf : ℚ → ℚ → ℚ) (c : Curve) (x : ℚ) : ℚ :=
  let ps := c.Params.getD []
  let g := ps.getD 0 0
  if c.FuncType = 0 then
    if x ≤ 0 then 0 else powf x g
  else if c.FuncType = 1 then
    let a := ps.getD 1 0
    let b := ps.getD 2 0
    let threshold := -b / a
    if x ≥ threshold then
      let v := a * x + b
      if v ≤ 0 then 0 else powf v g
    else 0
  else if c.FuncType = 2 then
    let a := ps.getD 1 0
    let b := ps.getD 2 0
    let cc := ps.getD 3 0
    let threshold := -b / a
    if x ≥ threshold then
      let v := a * x + b
      if v ≤ 0 then cc else powf v g + cc
    else cc
  else if c.FuncType = 3 then
    let a := ps.getD 1 0
    let b := ps.getD 2 0
    let cc := ps.getD 3 0
    let d := ps.getD 4 0
    if x ≥ d then
      let v := a * x + b
      if v ≤ 0 then 0 else powf v g
    else cc * x
  else if c.FuncType = 4 then
    let a := ps.getD 1 0
    let b := ps.getD 2 0
    let cc := ps.getD 3 0
    let d := ps.getD 4 0
    let e := ps.getD 5 0
    let f := ps.getD 6 0
    if x ≥ d then
      let v := a * x + b
      if v ≤ 0 then e else powf v g + e
    else cc * x + f
  else x

/-- evaluateSampled from the curve source file: linear interpolation in the
sampled table. -/
def Curve.evaluateSampled (c : Curve) (x : ℚ) : ℚ :=
  let tbl := c.Table.getD []
  let n := tbl.length
  if n = 0 then x
  else if n = 1 then (tbl.getD 0 0 : ℚ) / 65535
  else
    let pos := x * ((n - 1 : ℕ) : ℚ)
    let idx : Int := ratTrunc pos
    if idx < 0 then (tbl.getD 0 0 : ℚ) / 65535
    else if (n : Int) - 1 ≤ idx then (tbl.getD (n - 1) 0 : ℚ) / 65535
    else
      let i := idx.toNat
      let frac := pos - (idx : ℚ)
      let v0 := (tbl.getD i 0 : ℚ) / 65535
      let v1 := (tbl.getD (i + 1) 0 : ℚ) / 65535
      v0 + frac * (v1 - v0)

/-- Curve.Evaluate from the curve source file: clamp, choose the branch by
the nil-ness of the representation fields, clamp the result. -/
def Curve.Evaluate (powf : ℚ → ℚ → ℚ) (c : Curve) (x0 : ℚ) : ℚ :=
  let x := clamp x0 0 1
  let y :=
    if c.Gamma ≠ 0 ∧ c.Params = none ∧ c.Table = none then
      if x ≤ 0 then 0 else powf x c.Gamma
    else if c.Params ≠ none then c.evaluateParametric powf x
    else if c.Table ≠ none then c.evaluateSampled x
    else x
  clamp y 0 1

/-- sort.Search from the Go standard library: binary search for the least
index in 0..n at which pred holds, assuming pred monotone. -/
def sortSearch (pred : Nat → Bool) (i j : Nat) : Nat :=
  if h : i < j then
    let m := (i + j) / 2
    if pred m then sortSearch pred i m else sortSearch pred (m + 1) j
  else i
termination_by j - i
decreasing_by
  · omega
  · omega

/-- buildInverseTable from the curve source file: the 4096-entry inverse
lookup table for a sampled curve. -/
def Curve.buildInverseTable (c : Curve) : List ℚ :=
  let tbl := c.Table.getD []
  let n := tbl.length
  if n = 0 then
    (List.range 4096).map fun i => (i : ℚ) / 4095
  else
    (List.range 4096).map fun i =>
      let target := (ratTrunc ((i : ℚ) / 4095 * 65535)).toNat % 2 ^ 16
      let idx := sortSearch (fun j => target ≤ tbl.getD j 0) 0 n
      if idx = 0 then 0
      else if n ≤ idx then 1
      else
        let v0 : ℚ := tbl.getD (idx - 1) 0
        let v1 : ℚ := tbl.getD idx 0
        if v1 = v0 then (idx : ℚ) / ((n - 1 : ℕ) : ℚ)
        else ((idx - 1 : ℕ) : ℚ) / ((n - 1 : ℕ) : ℚ) +
          ((target : ℚ) - v0) / (v1 - v0) / ((n - 1 : ℕ) : ℚ)

/-- invertSampled from the curve source file, with the lazily cached table
computed on demand (the cache itself is unobservable derived state). -/
def Curve.invertSampled (c : Curve) (y : ℚ) : ℚ :=
  let inv := c.buildInverseTable
  let n := inv.length
  if n = 0 then y
  else
    let pos := y * ((n - 1 : ℕ) : ℚ)
    let idx : Int := ratTrunc pos
    if idx < 0 then inv.getD 0 0
    else if (n : Int) - 1 ≤ idx then inv.getD (n - 1) 0
    else
      let i := idx.toNat
      let frac := pos - (idx : ℚ)
      inv.getD i 0 + frac * (inv.getD (i + 1) 0 - inv.getD i 0)

/-- invertParametric from the curve source file. -/
def Curve.invertParametric (powf : ℚ → ℚ → ℚ) (c : Curve) (y : ℚ) : ℚ :=
  let ps := c.Params.getD []
  let g := ps.getD 0 0
  if g = 0 then 0
  else
    let invG := 1 / g
    if c.FuncType = 0 then
      if y ≤ 0 then 0 else powf y invG
    else if c.FuncType = 1 then
      let a := ps.getD 1 0
      let b := ps.getD 2 0
      if a = 0 then 0
      else if y ≤ 0 then -b / a
      else (powf y invG - b) / a
    else if c.FuncType = 2 then
      let a := ps.getD 1 0
      let b := ps.getD 2 0
      let cc := ps.getD 3 0
      if a = 0 then 0
      else
        let yc := y - cc
        if yc ≤ 0 then -b / a
        else (powf yc invG - b) / a
    else if c.FuncType = 3 then
      let a := ps.getD 1 0
      let b := ps.getD 2 0
      let cc := ps.getD 3 0
      let d := ps.getD 4 0
      let yThreshold := cc * d
      if y < yThreshold then
        if cc = 0 then 0 else y / cc
      else if a = 0 then d
      else if y ≤ 0 then d
      else (powf y invG - b) / a
    else if c.FuncType = 4 then
      let a := ps.getD 1 0
      let b := ps.getD 2 0
      let cc := ps.getD 3 0
      let d := ps.getD 4 0
      let e := ps.getD 5 0
      let f := ps.getD 6 0
      let yThreshold := cc * d + f
      if y < yThreshold then
        if cc = 0 then 0 else (y - f) / cc
      else if a = 0 then d
      else
        let ye := y - e
        if ye ≤ 0 then d
        else (powf ye invG - b) / a
    else y

/-- Curve.Invert from the curve source file. -/
def Curve.Invert (powf : ℚ → ℚ → ℚ) (c : Curve) (y0 : ℚ) : ℚ :=
  let y := clamp y0 0 1
  if c.Gamma ≠ 0 ∧ c.Params = none ∧ c.Table = none then
    if y ≤ 0 then 0 else powf y (1 / c.Gamma)
  else if c.Params ≠ none then c.invertParametric powf y
  else if c.Table ≠ none then c.invertSampled y
  else y

/-! ## Curve codec (DecodeCurve and Curve.Encode of the curve source file) -/

/-- Error values of the tag-element codecs (errInvalidTagData and
errUnexpectedType in the Go source). -/
inductive TagErr where
  | invalidTagData
  | unexpectedType
  deriving DecidableEq

/-- The four bytes of the string curv. -/
def curvSig : Bytes := [99, 117, 114, 118]

/-- The four bytes of the string para. -/
def paraSig : Bytes := [112, 97, 114, 97]

/-- decodeCurveType from the curve source file. -/
def decodeCurveType (data : Bytes) : Except TagErr Curve :=
  if data.length < 12 then .error .invalidTagData
  else
    let n := getUint32 data 8
    if n = 0 then .ok ⟨1, 0, none, none⟩
    else if n = 1 then
      if data.length < 14 then .error .invalidTagData
      else .ok ⟨(getUint16 data 12 : ℚ) / 256, 0, none, none⟩
    else
      if data.length < 12 + 2 * n then .error .invalidTagData
      else .ok ⟨0, 0, none, some ((List.range n).map fun i => getUint16 data (12 + i * 2))⟩

/-- decodeParametricCurve from the curve source file. -/
def decodeParametricCurve (data : Bytes) : Except TagErr Curve :=
  if data.length < 12 then .error .invalidTagData
  else
    let funcType := getUint16 data 8
    let numParams : Option Nat :=
      if funcType = 0 then some 1
      else if funcType = 1 then some 3
      else if funcType = 2 then some 4
      else if funcType = 3 then some 5
      else if funcType = 4 then some 7
      else none
    match numParams with
    | none => .error .invalidTagData
    | some k =>
      if data.length < 12 + k * 4 then .error .invalidTagData
      else .ok ⟨0, (funcType : Int),
        some ((List.range k).map fun i => getS15Fixed16 data (12 + i * 4)), none⟩

/-- DecodeCurve from the curve source file: dispatch on the leading type
signature. -/
def DecodeCurve (data : Bytes) : Except TagErr Curve :=
  if data.length < 8 then .error .invalidTagData
  else if extract data 0 4 = curvSig then decodeCurveType data
  else if extract data 0 4 = paraSig then decodeParametricCurve data
  else .error .unexpectedType

/-- Curve.encodeCurveType from the curve source file. -/
def Curve.encodeCurveType (c : Curve) : Bytes :=
  match c.Table with
  | some tbl =>
    let n := tbl.length
    putU16Seq (putUint32 (writeBytes (List.replicate (12 + n * 2) 0) 0 curvSig) 8 n) 12 tbl
  | none =>
    if c.Gamma = 1 then writeBytes (List.replicate 12 0) 0 curvSig
    else
      let gamma := toUint16OfInt (ratTrunc (c.Gamma * 256))
      putUint16 (putUint32 (writeBytes (List.replicate 14 0) 0 curvSig) 8 1) 12 gamma

/-- Curve.encodeParametric from the curve source file. -/
def Curve.encodeParametric (c : Curve) : Bytes :=
  let ps := c.Params.getD []
  let numParams :=
    if c.FuncType = 0 then 1
    else if c.FuncType = 1 then 3
    else if c.FuncType = 2 then 4
    else if c.FuncType = 3 then 5
    else if c.FuncType = 4 then 7
    else ps.length
  putS15Seq
    (putUint16 (writeBytes (List.replicate (12 + numParams * 4) 0) 0 paraSig) 8
      (toUint16OfInt c.FuncType))
    12 (ps.take numParams)

/-- Curve.Encode from the curve source file. -/
def Curve.Encode (c : Curve) : Bytes :=
  if c.Params ≠ none then c.encodeParametric else c.encodeCurveType

/-- The 32-bit wire word written by putS15Fixed16. -/
def s15wire (v : ℚ) : Nat := toUint32OfInt (ratTrunc (v * 65536))

/-! ## The curve round-trip (C7)

The wire format stores gamma as an unsigned 8.8 fixed-point word, parameters
as signed 15.16 fixed-point words, and table entries as 16-bit words, so the
round trip can only be lossless for values representable in those formats
and for curves in the canonical form produced by the decoder (exactly one
representation set, FuncType zero unless parametric). -/

/-- A gamma (or identity) curve whose gamma value is exactly representable
as an u8Fixed8 word. -/
def GammaRepresentable (c : Curve) : Prop :=
  c.FuncType = 0 ∧ c.Params = none ∧ c.Table = none ∧
    ∃ m : Nat, m < 2 ^ 16 ∧ c.Gamma = (m : ℚ) / 256

/-- A sampled curve in canonical form: at least two 16-bit entries. -/
def TableRepresentable (c : Curve) : Prop :=
  c.Gamma = 0 ∧ c.FuncType = 0 ∧ c.Params = none ∧
    ∃ tbl, c.Table = some tbl ∧ 2 ≤ tbl.length ∧ tbl.length < 2 ^ 32 ∧
      ∀ v ∈ tbl, v < 2 ^ 16

/-- A parametric curve in canonical form: a function type in 0..4 with the
matching number of parameters, each exactly representable as s15Fixed16. -/
def ParamsRepresentable (c : Curve) : Prop :=
  c.Gamma = 0 ∧ c.Table = none ∧
    ∃ ps, c.Params = some ps ∧
      ((c.FuncType = 0 ∧ ps.length = 1) ∨ (c.FuncType = 1 ∧ ps.length = 3) ∨
        (c.FuncType = 2 ∧ ps.length = 4) ∨ (c.FuncType = 3 ∧ ps.length = 5) ∨
        (c.FuncType = 4 ∧ ps.length = 7)) ∧
      ∀ p ∈ ps, ∃ k : Int, -(2 ^ 31) ≤ k ∧ k < 2 ^ 31 ∧ p = (k : ℚ) / 65536

/-- A curve on which both a sampled table and a parametric representation
are set: this is the witness configuration for the evaluation-precedence
claim.  With function type 3 and d = 2, the parametric value at every
x in the unit interval is c·x = x, while the sampled table is constantly 0. -/
def tableAndParamsCurve : Curve := ⟨0, 3, some [1, 0, 0, 1, 2], some [0, 0]⟩

/-! ## Calendar model (time.Time of the Go standard library)

The library reads and writes times through time.Date and the six accessors
Year..Second, always in UTC, so a time value is modelled by its canonical
calendar tuple.  time.Date normalises out-of-range fields through the
proleptic Gregorian calendar; the month is always in 1..12 here because
getDateTime validates it before calling time.Date. -/

/-- Gregorian leap-year rule. -/
def isLeap (y : Nat) : Bool := y % 4 = 0 && (y % 100 ≠ 0 || y % 400 = 0)

/-- Days in a month of the proleptic Gregorian calendar (month in 1..12). -/
def daysInMonth (y m : Nat) : Nat :=
  if m = 2 then (if isLeap y then 29 else 28)
  else if m = 4 ∨ m = 6 ∨ m = 9 ∨ m = 11 then 30
  else 31

/-- Days in a Gregorian year. -/
def daysInYear (y : Nat) : Nat := if isLeap y then 366 else 365

/-- Total days in the years 1..n. -/
def daysBeforeYear : Nat → Nat
  | 0 => 0
  | n + 1 => daysBeforeYear n + daysInYear (n + 1)

/-- Days before month m in year y (m in 1..12). -/
def daysBeforeMonth (y : Nat) : Nat → Nat
  | 0 => 0
  | 1 => 0
  | m + 1 => daysBeforeMonth y m + daysInMonth y m

/-- Resolve a day count into (year, remaining days), searching upward from
the given year.  The fuel argument only serves structural recursion; every
call site supplies at least n+1 units, which cannot run out because each
step consumes at least 365 days. -/
def findYear : Nat → Nat → Nat → Nat × Nat
  | 0, y, n => (y, n)
  | fuel + 1, y, n =>
    if n < daysInYear y then (y, n) else findYear fuel (y + 1) (n - daysInYear y)

/-- Resolve a day count within year y into (month, remaining days). -/
def findMonth (y : Nat) : Nat → Nat → Nat → Nat × Nat
  | 0, m, n => (m, n)
  | fuel + 1, m, n =>
    if n < daysInMonth y m then (m, n) else findMonth y fuel (m + 1) (n - daysInMonth y m)

/-- Convert a day number (day 0 = January 1 of year 1) to a calendar date. -/
def civilFromDays (n : Nat) : Nat × Nat × Nat :=
  let yr := findYear (n + 1) 1 n
  let md := findMonth yr.1 12 1 yr.2
  (yr.1, md.1, md.2 + 1)

/-- The calendar tuple underlying a time.Time value (always UTC here). -/
structure GoTime where
  year : Nat
  month : Nat
  day : Nat
  hour : Nat
  minute : Nat
  second : Nat
  deriving DecidableEq

/-- The zero time.Time value: January 1, year 1, 00:00:00 UTC. -/
def zeroTime : GoTime := ⟨1, 1, 1, 0, 0, 0⟩

/-- time.Date for the argument ranges getDateTime admits (month 1..12):
normalise the clock part into extra days, move through the day number and
back to a canonical calendar date. -/
def timeDate (y mo d h mi s : Nat) : GoTime :=
  let total := h * 3600 + mi * 60 + s
  let extra := total / 86400
  let rest := total % 86400
  let days := daysBeforeYear (y - 1) + daysBeforeMonth y mo + (d - 1) + extra
  let c := civilFromDays days
  ⟨c.1, c.2.1, c.2.2, rest / 3600, rest % 3600 / 60, rest % 60⟩

/-- getDateTime from read.go: six big-endian 16-bit fields, validated, then
normalised by time.Date; validation failure yields the zero time. -/
def getDateTime (data : Bytes) (offset : Nat) : GoTime :=
  let year := getUint16 data offset
  let month := getUint16 data (offset + 2)
  let day := getUint16 data (offset + 4)
  let hour := getUint16 data (offset + 6)
  let minute := getUint16 data (offset + 8)
  let second := getUint16 data (offset + 10)
  if year < 1970 ∨ 3000 < year ∨ month < 1 ∨ 12 < month ∨ day < 1 ∨ 31 < day ∨
      23 < hour ∨ 59 < minute ∨ 61 < second then
    zeroTime
  else
    timeDate year month day hour minute second

/-- putDateTime from write.go: the six fields as big-endian 16-bit values
(the high byte of every field but the year is written as zero). -/
def putDateTime (data : Bytes) (offset : Nat) (t : GoTime) : Bytes :=
  ((((((((((((data.set offset (t.year / 2 ^ 8 % 256)).set (offset + 1) (t.year % 256)).set
    (offset + 2) 0).set (offset + 3) (t.month % 256)).set
    (offset + 4) 0).set (offset + 5) (t.day % 256)).set
    (offset + 6) 0).set (offset + 7) (t.hour % 256)).set
    (offset + 8) 0).set (offset + 9) (t.minute % 256)).set
    (offset + 10) 0).set (offset + 11) (t.second % 256))

/-! ## Profile model (icc.go) -/

/-- The CheckSum tri-state of the Profile ID field. -/
inductive CheckSum where
  | Missing
  | Valid
  | Invalid
  deriving DecidableEq

/-- Profile from icc.go.  The TagData map is modelled as an association
list with distinct keys (one enumeration of the Go map); FourCC-typed
fields are plain 32-bit words. -/
structure Profile where
  PreferredCMMType : Nat
  Version : Nat
  Class : Nat
  ColorSpace : Nat
  PCS : Nat
  CreationDate : GoTime
  PrimaryPlatform : Nat
  Flags : Nat
  DeviceManufacturer : Nat
  DeviceModel : Nat
  DeviceAttributes : Nat
  RenderingIntent : Nat
  Creator : Nat
  CheckSum : CheckSum
  TagData : List (Nat × Bytes)
  deriving DecidableEq

/-- Go map assignment m[k] = v on the association list: replace the
existing binding or append a new one. -/
def setTag : List (Nat × Bytes) → Nat → Bytes → List (Nat × Bytes)
  | [], k, v => [(k, v)]
  | (k1, v1) :: rest, k, v =>
    if k1 = k then (k, v) :: rest else (k1, v1) :: setTag rest k v

/-- Go map lookup on the association list. -/
def lookupTag (m : List (Nat × Bytes)) (k : Nat) : Option Bytes :=
  match m with
  | [] => none
  | (k1, v1) :: rest => if k1 = k then some v1 else lookupTag rest k

/-! ## Tag signatures (tag-type source file) -/

def RedMatrixColumn : Nat := 0x7258595A
def GreenMatrixColumn : Nat := 0x6758595A
def BlueMatrixColumn : Nat := 0x6258595A
def RedTRC : Nat := 0x72545243
def GreenTRC : Nat := 0x67545243
def BlueTRC : Nat := 0x62545243
def GrayTRC : Nat := 0x6B545243
def MediaWhitePoint : Nat := 0x77747074
def AToB0 : Nat := 0x41324230
def AToB1 : Nat := 0x41324231
def AToB2 : Nat := 0x41324232
def BToA0 : Nat := 0x42324130
def BToA1 : Nat := 0x42324131
def BToA2 : Nat := 0x42324132

/-! ## Transform (transform source file)

The matrix/TRC fields and the decoded LUT of the Go Transform struct are
not read by the operations embedded here (gray-TRC application and the
LUT tag selection), so the model carries only the fields those operations
use. -/

/-- Direction of a colour transformation. -/
inductive Direction where
  | DeviceToPCS
  | PCSToDevice
  deriving DecidableEq

/-- The detected profile type. -/
inductive ProfileType where
  | unknown
  | matrixTRC
  | grayTRC
  | lut
  deriving DecidableEq

/-- The Transform fields used by the embedded operations.  whitePoint is
the [3]float64 media white point. -/
structure Transform where
  profile : Profile
  direction : Direction
  intent : Nat
  profileType : ProfileType
  grayTRC : Curve
  grayTRCInv : Curve
  whitePoint : List ℚ

/-- Error values of transform initialisation. -/
inductive TransformErr where
  | unsupportedProfileType
  | missingLUTTag
  | singularMatrix
  deriving DecidableEq

/-- detectProfileType from the transform source file. -/
def detectProfileType (p : Profile) : ProfileType :=
  if (lookupTag p.TagData AToB0).isSome then .lut
  else if (lookupTag p.TagData AToB1).isSome then .lut
  else if (lookupTag p.TagData AToB2).isSome then .lut
  else if (lookupTag p.TagData BToA0).isSome then .lut
  else if (lookupTag p.TagData BToA1).isSome then .lut
  else if (lookupTag p.TagData BToA2).isSome then .lut
  else if (lookupTag p.TagData RedMatrixColumn).isSome ∧
      (lookupTag p.TagData GreenMatrixColumn).isSome ∧
      (lookupTag p.TagData BlueMatrixColumn).isSome ∧
      (lookupTag p.TagData RedTRC).isSome ∧
      (lookupTag p.TagData GreenTRC).isSome ∧
      (lookupTag p.TagData BlueTRC).isSome then .matrixTRC
  else if (lookupTag p.TagData GrayTRC).isSome then .grayTRC
  else .unknown

/-- Transform.applyGrayTRC from the transform source file. -/
def Transform.applyGrayTRC (powf : ℚ → ℚ → ℚ) (t : Transform) (input : List ℚ) : List ℚ :=
  if input.length ≠ 1 then List.replicate 1 0
  else if t.direction = .DeviceToPCS then
    let y := t.grayTRC.Evaluate powf (input.getD 0 0)
    [t.whitePoint.getD 0 0 * y, t.whitePoint.getD 1 0 * y, t.whitePoint.getD 2 0 * y]
  else
    let y0 := input.getD 0 0
    let y1 := if 2 ≤ input.length then input.getD 1 0 else y0
    let y2 := if t.whitePoint.getD 1 0 ≠ 0 then y1 / t.whitePoint.getD 1 0 else y1
    [t.grayTRCInv.Invert powf (clamp y2 0 1)]

/-- The tag-selection and presence-check part of Transform.initLut, up to
and including its missing-LUT-tag error.  (Decoding the selected tag data
with DecodeLut is a downstream step with its own error values.) -/
def initLutTag (p : Profile) (dir : Direction) (intent : Nat) : Except TransformErr Nat :=
  let sel : Nat :=
    if dir = .DeviceToPCS then
      let t1 := if intent = 0 then AToB0
        else if intent = 1 ∨ intent = 3 then AToB1
        else if intent = 2 then AToB2
        else 0
      if (lookupTag p.TagData t1).isNone then AToB0 else t1
    else
      let t1 := if intent = 0 then BToA0
        else if intent = 1 ∨ intent = 3 then BToA1
        else if intent = 2 then BToA2
        else 0
      if (lookupTag p.TagData t1).isNone then BToA0 else t1
  match lookupTag p.TagData sel with
  | none => .error .missingLUTTag
  | some _ => .ok sel

/-- The LUT tag named by the claim for a direction and intent: A2Bn or
B2An with n = 0 for Perceptual, 1 for Relative and Absolute Colorimetric,
2 for Saturation. -/
def selectedLutTag (dir : Direction) (intent : Nat) : Nat :=
  let n := if intent = 0 then 0 else if intent = 2 then 2 else 1
  if dir = .DeviceToPCS then
    if n = 0 then AToB0 else if n = 1 then AToB1 else AToB2
  else
    if n = 0 then BToA0 else if n = 1 then BToA1 else BToA2

/-- The fallback LUT tag for a direction. -/
def fallbackLutTag (dir : Direction) : Nat :=
  if dir = .DeviceToPCS then AToB0 else BToA0

/-! ## CLUT size guard (lut.go) -/

/-- The multiplication loop of computeCLUTSize: 64-bit arithmetic with the
2^30 cap checked after every multiplication; none models the early
return 0. -/
def clutSizeLoop : Nat → List Nat → Option Nat
  | size, [] => some size
  | size, g :: rest =>
    let s2 := size * g % 2 ^ 64
    if 2 ^ 30 < s2 then none else clutSizeLoop s2 rest

/-- computeCLUTSize from lut.go. -/
def computeCLUTSize (gridPoints : List Nat) (outputChannels : Nat) : Nat :=
  match clutSizeLoop 1 gridPoints with
  | none => 0
  | some s =>
    let s2 := s * outputChannels % 2 ^ 64
    if 2 ^ 30 < s2 then 0 else s2

/-- decodeCLUT from lut.go: grid sizes (a zero byte counts as one),
precision byte, size guard, then the unpacked sample list. -/
def decodeCLUT (data : Bytes) (offset inputChannels outputChannels : Nat) :
    Except TagErr (List Nat × List ℚ × Nat) :=
  if data.length < offset + 20 then .error .invalidTagData
  else
    let gridPoints := (List.range inputChannels).map fun i =>
      let g := data.getD (offset + i) 0
      if g = 0 then 1 else g
    let precision := data.getD (offset + 16) 0
    let size := computeCLUTSize gridPoints outputChannels
    if size = 0 then .error .invalidTagData
    else
      let clutDataStart := offset + 20
      if precision = 1 then
        if data.length < clutDataStart + size then .error .invalidTagData
        else .ok (gridPoints,
          (List.range size).map fun i => (data.getD (clutDataStart + i) 0 : ℚ) / 255, 1)
      else if precision = 2 then
        if data.length < clutDataStart + size * 2 then .error .invalidTagData
        else .ok (gridPoints,
          (List.range size).map fun i => (getUint16 data (clutDataStart + i * 2) : ℚ) / 65535, 2)
      else .error .invalidTagData

/-! ## Profile container decoder (read.go)

The Go decoder writes into the caller's byte slice (it documents that it
takes over ownership of the data), so the model returns the final buffer
state next to the decoding result.  The InvalidProfileError value carries
a byte offset and a reason string; the model keeps the offset. -/

/-- InvalidProfileError from read.go, identified by its byte offset. -/
inductive ProfileErr where
  | invalidProfile (offset : Nat)
  deriving DecidableEq

/-- EncodeErr: ErrInvalidVersion from write.go. -/
inductive EncodeErr where
  | invalidVersion
  deriving DecidableEq

/-- The four bytes of the string acsp. -/
def acspSig : Bytes := [97, 99, 115, 112]

/-- currentVersion = Version4_4_0 (icc.go). -/
def currentVersion : Nat := 0x04400000

/-- Version4_0_0 (icc.go). -/
def Version4_0_0 : Nat := 0x04000000

/-- The tag-table loop of Decode.  The first argument counts the entries
still to process (structural recursion); the second is the running entry
index. -/
def readTags (data1 : Bytes) (minTagOffset : Nat) :
    Nat → Nat → List (Nat × Bytes) → Except ProfileErr (List (Nat × Bytes))
  | 0, _, acc => .ok acc
  | remaining + 1, i, acc =>
    let offset := 128 + 4 + i * 12
    let tagType := getUint32 data1 offset
    let tagOffset := getUint32 data1 (offset + 4)
    let tagSize := getUint32 data1 (offset + 8)
    if tagSize < 4 then .error (.invalidProfile (offset + 8))
    else if 0xFFFFFFFC < tagSize then .error (.invalidProfile (offset + 8))
    else if tagOffset < minTagOffset ∨ data1.length < tagOffset + tagSize then
      .error (.invalidProfile offset)
    else
      readTags data1 minTagOffset remaining (i + 1)
        (setTag acc tagType (extract data1 tagOffset (tagOffset + tagSize)))

/-- Decode from read.go, with the final state of the caller's buffer as
the second component.  The header fields are read before the Profile ID
verification mutates the buffer, exactly as in the source, and the tag
data slices are taken from the buffer in its mutated state. -/
def DecodeSt (md5 : Bytes → Bytes) (data : Bytes) : Except ProfileErr Profile × Bytes :=
  if data.length < 128 + 4 then (.error (.invalidProfile 0), data)
  else if extract data 36 40 ≠ acspSig then (.error (.invalidProfile 36), data)
  else
    let numTags := getUint32 data 128
    let maxNumTags := (data.length - 128 - 4) / 12
    if maxNumTags < numTags then (.error (.invalidProfile 128), data)
    else
      let p0 : Profile :=
        { PreferredCMMType := getUint32 data 4
          Version := getUint32 data 8
          Class := getUint32 data 12
          ColorSpace := getUint32 data 16
          PCS := getUint32 data 20
          CreationDate := getDateTime data 24
          PrimaryPlatform := getUint32 data 40
          Flags := getUint32 data 44
          DeviceManufacturer := getUint32 data 48
          DeviceModel := getUint32 data 52
          DeviceAttributes := getUint64 data 56
          RenderingIntent := getUint32 data 64
          Creator := getUint32 data 80
          CheckSum := .Missing
          TagData := [] }
      let st :=
        if isZero (extract data 84 100) then (p0, data)
        else
          let givenHash := extract data 84 100
          let data1 := writeBytes (putUint32 (putUint32 data 44 0) 64 0) 84
            (List.replicate 16 0)
          let computedHash := md5 data1
          let cs := if computedHash = givenHash then CheckSum.Valid else CheckSum.Invalid
          ({ p0 with CheckSum := cs }, data1)
      let minTagOffset := 128 + 4 + numTags * 12
      let res : Except ProfileErr Profile :=
        match readTags st.2 minTagOffset numTags 0 [] with
        | .error e => .error e
        | .ok tags =>
          if st.1.Version = 0 then
            .ok { st.1 with TagData := tags, Version := currentVersion }
          else .ok { st.1 with TagData := tags }
      (res, st.2)

/-- Decode from read.go (the result component). -/
def Decode (md5 : Bytes → Bytes) (data : Bytes) : Except ProfileErr Profile :=
  (DecodeSt md5 data).1

/-- The buffer state the Profile ID verification leaves behind: flags,
rendering intent and the 16 ID bytes zeroed in place. -/
def zeroIDFields (data : Bytes) : Bytes :=
  writeBytes (putUint32 (putUint32 data 44 0) 64 0) 84 (List.replicate 16 0)

/-- A degenerate digest model (constant all-zero digest) used to
instantiate the md5 parameter in concrete counterexamples and witnesses. -/
def constDigest : Bytes → Bytes := fun _ => List.replicate 16 0

/-- A concrete 132-byte profile with the acsp signature, no tags, flags
byte 9 and a non-zero Profile ID byte. -/
def mutationInput : Bytes :=
  ((writeBytes (List.replicate 132 0) 36 acspSig).set 44 9).set 84 1

/-! ## Profile container encoder (write.go)

Encode collects the TagData entries, sorts them by data bytes with the
tag signature as tie break, lays the data out with 4-byte alignment
merging consecutive duplicates, and writes the header, the tag table,
the optional MD5 profile ID and, last of all, the flags and
rendering-intent words.  The source sorts with sort.Slice, whose output
order is unspecified beyond being sorted; the model uses insertion sort
with the reflexive closure of the source's less function.  That closure
is a total, transitive and antisymmetric order, and a sorted permutation
of a list is unique for such an order, so every correct sorting
algorithm (the library's included) produces exactly the modelled list. -/

/-- The tagInfo record local to Profile.Encode. -/
structure TagEntry where
  tagType : Nat
  data : Bytes
  start : Nat
  duplicate : Bool
  deriving DecidableEq

/-- (n + 3) &^ 3: round n up to a multiple of four. -/
def align4 (n : Nat) : Nat := (n + 3) - (n + 3) % 4

/-- bytes.Compare: lexicographic byte comparison yielding -1, 0 or 1. -/
def bytesCompare : Bytes → Bytes → Int
  | [], [] => 0
  | [], _ :: _ => -1
  | _ :: _, [] => 1
  | x :: xs, y :: ys =>
    if x < y then -1 else if y < x then 1 else bytesCompare xs ys

/-- The sort order of Profile.Encode, as the reflexive closure of its
less function: by data bytes, then by tag signature. -/
def tagLe (x y : Nat × Bytes) : Prop :=
  bytesCompare x.2 y.2 < 0 ∨ (bytesCompare x.2 y.2 = 0 ∧ x.1 ≤ y.1)

instance : DecidableRel tagLe := fun x y => by
  unfold tagLe; infer_instance

/-- The sorted tag list of Profile.Encode. -/
def sortTags (m : List (Nat × Bytes)) : List (Nat × Bytes) :=
  List.insertionSort tagLe m

/-- The start-assignment and duplicate-merging loop of Profile.Encode:
pos is the running allocation offset and the option argument carries the
previous entry's data and assigned start.  A start offset is truncated
to uint32 exactly as in the source (tags[i].start = uint32(pos)); the
final pos is returned as the second component. -/
def assignTags : List (Nat × Bytes) → Nat → Option (Bytes × Nat) →
    List TagEntry × Nat
  | [], pos, _ => ([], pos)
  | (t, d) :: rest, pos, prev =>
    match prev with
    | some (pd, ps) =>
      if d = pd then
        let r := assignTags rest pos (some (pd, ps))
        (⟨t, d, ps, true⟩ :: r.1, r.2)
      else
        let s := pos % 2 ^ 32
        let r := assignTags rest (pos + align4 d.length) (some (d, s))
        (⟨t, d, s, false⟩ :: r.1, r.2)
    | none =>
      let s := pos % 2 ^ 32
      let r := assignTags rest (pos + align4 d.length) (some (d, s))
      (⟨t, d, s, false⟩ :: r.1, r.2)

/-- The tag-table and tag-data writing loop of Profile.Encode; i is the
running entry index.  copy(buf[tag.start:], tag.data) stops at the end
of the buffer, as writeBytes does. -/
def writeTagTable : Bytes → Nat → List TagEntry → Bytes
  | buf, _, [] => buf
  | buf, i, e :: rest =>
    let b1 := putUint32 buf (132 + i * 12) e.tagType
    let b2 := putUint32 b1 (132 + i * 12 + 4) e.start
    let b3 := putUint32 b2 (132 + i * 12 + 8) e.data.length
    let b4 := if e.duplicate then b3 else writeBytes b3 e.start e.data
    writeTagTable b4 (i + 1) rest

/-- d50WhitePoint from icc.go: the D50 white point in XYZ coordinates.
The float64 literals 0.9642 and 0.8249 are modelled by the decimal
rationals; the double rounding error (below 2^-53 relatively) is far
too small to move the truncations in s15Fixed16 encoding, whose inputs
here are 63196.3648, 65536 and 54060.6464 in units of 1/65536. -/
def d50WhitePoint : List ℚ := [9642 / 10000, 1, 8249 / 10000]

/-- The header writes of Profile.Encode, in source order (innermost
first), on the all-zero buffer of length L; n is the number of sorted
tag entries, written at offset 128. -/
def headerBytes (p : Profile) (L n : Nat) : Bytes :=
  putUint32 (putUint32 (putS15Fixed16 (putS15Fixed16 (putS15Fixed16 (putUint64
    (putUint32 (putUint32 (putUint32 (putUint32 (putDateTime (putUint32 (putUint32
    (putUint32 (putUint32 (putUint32 (putUint32 (List.replicate L 0) 0 L) 4
    p.PreferredCMMType) 8 p.Version) 12 p.Class) 16 p.ColorSpace) 20 p.PCS) 24
    p.CreationDate) 36 0x61637370) 40 p.PrimaryPlatform) 48 p.DeviceManufacturer)
    52 p.DeviceModel) 56 p.DeviceAttributes) 68 (d50WhitePoint.getD 0 0)) 72
    (d50WhitePoint.getD 1 0)) 76 (d50WhitePoint.getD 2 0)) 80 p.Creator) 128 n

/-- The part of Profile.Encode before the optional profile ID digest:
layout computation, header fields and the tag table with its data.  The
flags word (offset 44), the rendering-intent word (offset 64) and the
profile ID field (84..100) are still zero in this buffer; the source
computes the MD5 digest over exactly this state. -/
def encodeHeaderTags (p : Profile) : Bytes :=
  let sorted := sortTags p.TagData
  let r := assignTags sorted (128 + 4 + sorted.length * 12) none
  writeTagTable (headerBytes p r.2 sorted.length) 0 r.1

/-- Profile.Encode from write.go.  For versions from 4.0.0 on, the MD5
digest of the header-and-tags buffer is copied to 84..100; the flags and
rendering-intent words are written after that, exactly as in the
source. -/
def Encode (md5 : Bytes → Bytes) (p : Profile) : Except EncodeErr Bytes :=
  if p.Version = 0 then .error .invalidVersion
  else
    let b := encodeHeaderTags p
    let b2 := if Version4_0_0 ≤ p.Version then writeBytes b 84 (md5 b) else b
    .ok (putUint32 (putUint32 b2 44 p.Flags) 64 p.RenderingIntent)

/-- The length of the buffer Profile.Encode allocates: header, tag table
and aligned tag data. -/
def encodedSize (p : Profile) : Nat :=
  let sorted := sortTags p.TagData
  (assignTags sorted (128 + 4 + sorted.length * 12) none).2

/-- A calendar tuple in canonical form: the form every value produced by
the normalisation in time.Date has. -/
def CanonTime (t : GoTime) : Prop :=
  1 ≤ t.month ∧ t.month ≤ 12 ∧ 1 ≤ t.day ∧ t.day ≤ daysInMonth t.year t.month ∧
  t.hour ≤ 23 ∧ t.minute ≤ 59 ∧ t.second ≤ 59

instance : DecidablePred CanonTime := fun t => by
  unfold CanonTime; infer_instance

/-- The shape of every CreationDate value Decode can produce: the zero
time (when a header field is out of range), or a canonical date between
1970 and 3001 (the year 3001 is reachable only by normalisation rolling
over from the last moments of year 3000). -/
def DateOK (t : GoTime) : Prop :=
  t = zeroTime ∨ (CanonTime t ∧ 1970 ≤ t.year ∧ t.year ≤ 3001)

instance : DecidablePred DateOK := fun t => by
  unfold DateOK; infer_instance

/-- The well-formedness facts available for every profile Decode
produces: numeric fields fit their Go integer types, the creation date
has the decoder's shape, the tag keys are distinct, and every tag datum
has the wire-representable length range the decoder enforces. -/
def ProfileWF (p : Profile) : Prop :=
  p.Version ≠ 0 ∧ p.Version < 2 ^ 32 ∧
  p.PreferredCMMType < 2 ^ 32 ∧ p.Class < 2 ^ 32 ∧ p.ColorSpace < 2 ^ 32 ∧
  p.PCS < 2 ^ 32 ∧ p.PrimaryPlatform < 2 ^ 32 ∧ p.Flags < 2 ^ 32 ∧
  p.DeviceManufacturer < 2 ^ 32 ∧ p.DeviceModel < 2 ^ 32 ∧
  p.DeviceAttributes < 2 ^ 64 ∧ p.RenderingIntent < 2 ^ 32 ∧
  p.Creator < 2 ^ 32 ∧ DateOK p.CreationDate ∧
  (p.TagData.map Prod.fst).Nodup ∧
  ∀ e ∈ p.TagData, e.1 < 2 ^ 32 ∧ 4 ≤ e.2.length ∧ e.2.length ≤ 0xFFFFFFFC

instance : DecidablePred ProfileWF := fun p => by
  unfold ProfileWF; infer_instance

/-- The facts the decoder needs about one encoded tag-table entry: the
three table words read back, the start lies between the end of the tag
table and the end of the buffer, and the data bytes read back. -/
def entrySpec (B : Bytes) (slot tableEnd hi : Nat) (e : TagEntry) : Prop :=
  getUint32 B slot = e.tagType % 2 ^ 32 ∧
  getUint32 B (slot + 4) = e.start ∧
  getUint32 B (slot + 8) = e.data.length % 2 ^ 32 ∧
  tableEnd ≤ e.start ∧
  e.start + e.data.length ≤ hi ∧
  extract B e.start (e.start + e.data.length) = e.data

/-- A constant digest model whose digest is not all-zero, standing in
for MD5 (no MD5 digest of the buffers at hand is all-zero). -/
def oneDigest : Bytes → Bytes := fun _ => 1 :: List.replicate 15 0

/-- A 132-byte profile whose creation date is the last leap second of
the year 3000 (3000-12-31 23:59:60): valid for the decoder, but
time.Date normalises it to 3001-01-01 00:00:00, one year past the range
the date validation accepts. -/
def c1Input : Bytes :=
  writeBytes (writeBytes (writeBytes (List.replicate 132 0) 8 [2, 16])
    24 [11, 184, 0, 12, 0, 31, 0, 23, 0, 59, 0, 60]) 36 acspSig

/-- The profile Decode yields on c1Input: the leap-second date has been
normalised into the year 3001. -/
def c1RolledProfile : Profile :=
  ⟨0, 0x02100000, 0, 0, 0, ⟨3001, 1, 1, 0, 0, 0⟩, 0, 0, 0, 0, 0, 0, 0,
    .Missing, []⟩

/-- A version 4.4 profile holding one tag whose data is only two bytes
long: Encode accepts it, but the decoder rejects tags shorter than four
bytes. -/
def c2BadProfile : Profile :=
  ⟨0, 0x04400000, 0, 0, 0, zeroTime, 0, 0, 0, 0, 0, 0, 0, .Missing, [(1, [7, 7])]⟩

/-- The profile Decode yields on the 132-byte buffer mutationInput. -/
def c1DecodedProfile : Profile :=
  ⟨0, currentVersion, 0, 0, 0, zeroTime, 0, 9 * 2 ^ 24, 0, 0, 0, 0, 0, .Invalid, []⟩

/-- A version 4.4 profile used to witness the profile ID round trip. -/
def c2GoodProfile : Profile :=
  ⟨0, 0x04400000, 0, 0, 0, zeroTime, 0, 0, 0, 0, 0, 0, 0, .Missing,
    [(1, [7, 7, 7, 7])]⟩

/-! ## Byte-buffer lemmas -/

theorem getD_set_self {d : Bytes} {i : Nat} (h : i < d.length) (v : Nat) :
    (d.set i v).getD i 0 = v := by
  simp [List.getD_eq_getElem?_getD, List.getElem?_set_self h]

theorem getD_set_ne {d : Bytes} {i j : Nat} (h : i ≠ j) (v : Nat) :
    (d.set i v).getD j 0 = d.getD j 0 := by
  simp [List.getD_eq_getElem?_getD, List.getElem?_set_ne h]

@[simp] theorem length_writeBytes (s : Bytes) (b : Bytes) (off : Nat) :
    (writeBytes b off s).length = b.length := by
  induction s generalizing b off with
  | nil => rfl
  | cons v vs ih => simp [writeBytes, ih]

@[simp] theorem length_putUint16 (b : Bytes) (off v : Nat) :
    (putUint16 b off v).length = b.length := by
  simp [putUint16]

@[simp] theorem length_putUint32 (b : Bytes) (off v : Nat) :
    (putUint32 b off v).length = b.length := by
  simp [putUint32]

@[simp] theorem length_putUint64 (b : Bytes) (off v : Nat) :
    (putUint64 b off v).length = b.length := by
  simp [putUint64]

@[simp] theorem length_putS15Fixed16 (b : Bytes) (off : Nat) (v : ℚ) :
    (putS15Fixed16 b off v).length = b.length := by
  simp [putS15Fixed16]

@[simp] theorem length_putU16Seq (vs : List Nat) (b : Bytes) (off : Nat) :
    (putU16Seq b off vs).length = b.length := by
  induction vs generalizing b off with
  | nil => rfl
  | cons v t ih => simp [putU16Seq, ih]

@[simp] theorem length_putS15Seq (vs : List ℚ) (b : Bytes) (off : Nat) :
    (putS15Seq b off vs).length = b.length := by
  induction vs generalizing b off with
  | nil => rfl
  | cons v t ih => simp [putS15Seq, ih]

theorem getD_putUint16_frame {b : Bytes} {off j : Nat} (h : j < off ∨ off + 2 ≤ j) (v : Nat) :
    (putUint16 b off v).getD j 0 = b.getD j 0 := by
  unfold putUint16
  rw [getD_set_ne (by omega), getD_set_ne (by omega)]

theorem getD_putUint32_frame {b : Bytes} {off j : Nat} (h : j < off ∨ off + 4 ≤ j) (v : Nat) :
    (putUint32 b off v).getD j 0 = b.getD j 0 := by
  unfold putUint32
  rw [getD_set_ne (by omega), getD_set_ne (by omega), getD_set_ne (by omega),
    getD_set_ne (by omega)]

theorem getD_putUint64_frame {b : Bytes} {off j : Nat} (h : j < off ∨ off + 8 ≤ j) (v : Nat) :
    (putUint64 b off v).getD j 0 = b.getD j 0 := by
  unfold putUint64
  rw [getD_putUint32_frame (by omega), getD_putUint32_frame (by omega)]

theorem getD_putS15Fixed16_frame {b : Bytes} {off j : Nat} (h : j < off ∨ off + 4 ≤ j)
    (v : ℚ) : (putS15Fixed16 b off v).getD j 0 = b.getD j 0 := by
  unfold putS15Fixed16
  exact getD_putUint32_frame h _

theorem getD_writeBytes_frame {s : Bytes} {b : Bytes} {off j : Nat}
    (h : j < off ∨ off + s.length ≤ j) :
    (writeBytes b off s).getD j 0 = b.getD j 0 := by
  induction s generalizing b off with
  | nil => rfl
  | cons v vs ih =>
    simp only [writeBytes]
    rw [ih (by simp at h ⊢; omega), getD_set_ne (by simp at h; omega)]

theorem getD_putU16Seq_frame {vs : List Nat} {b : Bytes} {off j : Nat}
    (h : j < off ∨ off + 2 * vs.length ≤ j) :
    (putU16Seq b off vs).getD j 0 = b.getD j 0 := by
  induction vs generalizing b off with
  | nil => rfl
  | cons v t ih =>
    simp only [putU16Seq]
    rw [ih (by simp at h ⊢; omega), getD_putUint16_frame (by simp at h; omega)]

theorem getD_putS15Seq_frame {vs : List ℚ} {b : Bytes} {off j : Nat}
    (h : j < off ∨ off + 4 * vs.length ≤ j) :
    (putS15Seq b off vs).getD j 0 = b.getD j 0 := by
  induction vs generalizing b off with
  | nil => rfl
  | cons v t ih =>
    simp only [putS15Seq]
    rw [ih (by simp at h ⊢; omega), getD_putS15Fixed16_frame (by simp at h; omega)]

theorem getUint16_putUint16 {b : Bytes} {off : Nat} (h : off + 2 ≤ b.length) (v : Nat) :
    getUint16 (putUint16 b off v) off = v % 2 ^ 16 := by
  unfold getUint16 putUint16
  rw [show ((b.set off (v / 2 ^ 8 % 256)).set (off + 1) (v % 256)).getD off 0 =
      (b.set off (v / 2 ^ 8 % 256)).getD off 0 from getD_set_ne (by omega) _,
    getD_set_self (by first | omega | (simp only [List.length_set]; omega)), getD_set_self (by first | omega | (simp only [List.length_set]; omega))]
  omega

theorem getUint32_putUint32 {b : Bytes} {off : Nat} (h : off + 4 ≤ b.length) (v : Nat) :
    getUint32 (putUint32 b off v) off = v % 2 ^ 32 := by
  unfold getUint32 putUint32
  rw [getD_set_ne (by omega), getD_set_ne (by omega), getD_set_ne (by omega),
    getD_set_self (by first | omega | (simp only [List.length_set]; omega)),
    getD_set_ne (by omega), getD_set_ne (by omega),
    getD_set_self (by first | omega | (simp only [List.length_set]; omega)),
    getD_set_ne (by omega),
    getD_set_self (by first | omega | (simp only [List.length_set]; omega)),
    getD_set_self (by first | omega | (simp only [List.length_set]; omega))]
  omega

theorem extract_eq_map {d : Bytes} {a b : Nat} (h : b ≤ d.length) :
    extract d a b = (List.range (b - a)).map fun i => d.getD (a + i) 0 := by
  unfold extract
  apply List.ext_getElem
  · simp; omega
  · intro i h1 h2
    have hia : a + i < d.length := by simp at h1; omega
    simp [List.getElem_take, List.getElem_drop, List.getD_eq_getElem?_getD,
      List.getElem?_eq_getElem hia]

theorem getD_writeBytes_in {s : Bytes} {b : Bytes} {off j : Nat} (hj : j < s.length)
    (hb : off + s.length ≤ b.length) :
    (writeBytes b off s).getD (off + j) 0 = s.getD j 0 := by
  induction s generalizing b off j with
  | nil => simp at hj
  | cons v vs ih =>
    simp only [List.length_cons] at hj hb
    simp only [writeBytes]
    match j with
    | 0 =>
      rw [getD_writeBytes_frame (by omega)]
      simpa using getD_set_self (by omega) v
    | j' + 1 =>
      rw [show off + (j' + 1) = (off + 1) + j' by omega]
      rw [ih (by omega) (by simp; omega)]
      simp

theorem getUint16_frame_putU16Seq {t : List Nat} {b : Bytes} {off j : Nat}
    (h : j + 2 ≤ off) : getUint16 (putU16Seq b off t) j = getUint16 b j := by
  unfold getUint16
  rw [getD_putU16Seq_frame (by omega), getD_putU16Seq_frame (by omega)]

theorem getUint16_putU16Seq {vs : List Nat} {b : Bytes} {off i : Nat}
    (hlen : off + 2 * vs.length ≤ b.length) (hi : i < vs.length) :
    getUint16 (putU16Seq b off vs) (off + i * 2) = vs.getD i 0 % 2 ^ 16 := by
  induction vs generalizing b off i with
  | nil => simp at hi
  | cons v t ih =>
    simp only [List.length_cons] at hlen hi
    simp only [putU16Seq]
    match i with
    | 0 =>
      simp only [Nat.zero_mul, Nat.add_zero, List.getD]
      rw [getUint16_frame_putU16Seq (by omega)]
      exact getUint16_putUint16 (by omega) v
    | i' + 1 =>
      rw [show off + (i' + 1) * 2 = (off + 2) + i' * 2 by omega]
      rw [ih (by simp; omega) (by omega)]
      simp

theorem s15wire_lt (v : ℚ) : s15wire v < 2 ^ 32 := by
  unfold s15wire toUint32OfInt
  omega

theorem getUint32_putS15Fixed16 {b : Bytes} {off : Nat} (h : off + 4 ≤ b.length) (v : ℚ) :
    getUint32 (putS15Fixed16 b off v) off = s15wire v := by
  unfold putS15Fixed16
  rw [getUint32_putUint32 h]
  exact Nat.mod_eq_of_lt (s15wire_lt v)

theorem ratTrunc_intCast (k : Int) : ratTrunc (k : ℚ) = k := by
  simp [ratTrunc]

/-- Writing an s15Fixed16 value of the form k/65536 with k in the int32
range and reading it back is lossless. -/
theorem s15_roundtrip {k : Int} (h1 : -(2 ^ 31) ≤ k) (h2 : k < 2 ^ 31) :
    (asInt32 (s15wire ((k : ℚ) / 65536)) : ℚ) / 65536 = (k : ℚ) / 65536 := by
  have hw : s15wire ((k : ℚ) / 65536) = (k % 2 ^ 32).toNat := by
    unfold s15wire
    rw [show ((k : ℚ) / 65536) * 65536 = (k : ℚ) by field_simp, ratTrunc_intCast]
    rfl
  rw [hw]
  have : asInt32 (k % 2 ^ 32).toNat = k := by
    unfold asInt32
    split <;> rename_i hsp
    · omega
    · omega
  rw [this]

theorem getS15_frame_putS15Seq {t : List ℚ} {b : Bytes} {off j : Nat}
    (h : j + 4 ≤ off) : getS15Fixed16 (putS15Seq b off t) j = getS15Fixed16 b j := by
  unfold getS15Fixed16 getUint32
  rw [getD_putS15Seq_frame (by omega), getD_putS15Seq_frame (by omega),
    getD_putS15Seq_frame (by omega), getD_putS15Seq_frame (by omega)]

theorem getS15_putS15Seq {vs : List ℚ} {b : Bytes} {off i : Nat}
    (hlen : off + 4 * vs.length ≤ b.length) (hi : i < vs.length) :
    getS15Fixed16 (putS15Seq b off vs) (off + i * 4) =
      (asInt32 (s15wire (vs.getD i 0)) : ℚ) / 65536 := by
  induction vs generalizing b off i with
  | nil => simp at hi
  | cons v t ih =>
    simp only [List.length_cons] at hlen hi
    simp only [putS15Seq]
    match i with
    | 0 =>
      simp only [Nat.zero_mul, Nat.add_zero, List.getD]
      rw [getS15_frame_putS15Seq (by omega)]
      unfold getS15Fixed16
      rw [getUint32_putS15Fixed16 (by omega)]
      simp
    | i' + 1 =>
      rw [show off + (i' + 1) * 4 = (off + 4) + i' * 4 by omega]
      rw [ih (by simp; omega) (by omega)]
      simp

theorem getUint32_frame_putU16Seq {t : List Nat} {b : Bytes} {off j : Nat}
    (h : j + 4 ≤ off) : getUint32 (putU16Seq b off t) j = getUint32 b j := by
  unfold getUint32
  rw [getD_putU16Seq_frame (by omega), getD_putU16Seq_frame (by omega),
    getD_putU16Seq_frame (by omega), getD_putU16Seq_frame (by omega)]

theorem getUint16_frame_putS15Seq {t : List ℚ} {b : Bytes} {off j : Nat}
    (h : j + 2 ≤ off) : getUint16 (putS15Seq b off t) j = getUint16 b j := by
  unfold getUint16
  rw [getD_putS15Seq_frame (by omega), getD_putS15Seq_frame (by omega)]

theorem ratTrunc_natCast (m : Nat) : ratTrunc (m : ℚ) = m := by
  simp [ratTrunc]

theorem decode_encode_gamma (c : Curve) (h : GammaRepresentable c) :
    DecodeCurve c.Encode = .ok c := by
  obtain ⟨hf, hp, ht, m, hm, hg⟩ := h
  obtain ⟨cg, cf, cp, ct⟩ := c
  simp only at hf hp ht hg
  subst hf hp ht hg
  rw [Curve.Encode]
  simp only [ne_eq, not_true_eq_false, if_false, reduceIte]
  rw [Curve.encodeCurveType]
  dsimp only
  by_cases hone : (m : ℚ) / 256 = 1
  · rw [if_pos hone]
    have hm256 : m = 256 := by
      have : (m : ℚ) = 256 := by field_simp at hone; exact_mod_cast hone
      exact_mod_cast this
    rw [show DecodeCurve (writeBytes (List.replicate 12 0) 0 curvSig) =
        .ok ⟨1, 0, none, none⟩ from rfl]
    subst hm256
    norm_num
  · rw [if_neg hone]
    have htr : ratTrunc ((m : ℚ) / 256 * 256) = m := by
      rw [show ((m : ℚ) / 256 * 256) = (m : ℚ) by field_simp]
      exact ratTrunc_natCast m
    have hg16 : toUint16OfInt (ratTrunc ((m : ℚ) / 256 * 256)) = m := by
      rw [htr]; unfold toUint16OfInt; omega
    rw [hg16]
    have hbase : putUint32 (writeBytes (List.replicate 14 0) 0 curvSig) 8 1 =
        [99, 117, 114, 118, 0, 0, 0, 0, 0, 0, 0, 1, 0, 0] := rfl
    rw [hbase]
    have hbuf : putUint16 [99, 117, 114, 118, 0, 0, 0, 0, 0, 0, 0, 1, 0, 0] 12 m =
        [99, 117, 114, 118, 0, 0, 0, 0, 0, 0, 0, 1, m / 2 ^ 8 % 256, m % 256] := rfl
    rw [hbuf]
    set L : Bytes := [99, 117, 114, 118, 0, 0, 0, 0, 0, 0, 0, 1,
      m / 2 ^ 8 % 256, m % 256] with hL
    have hLlen : L.length = 14 := by simp [hL]
    have hsigL : extract L 0 4 = curvSig := by
      rw [hL]
      rfl
    have hn1 : getUint32 L 8 = 1 := by
      rw [hL]
      simp [getUint32]
    rw [DecodeCurve, if_neg (by omega), if_pos hsigL]
    rw [decodeCurveType, if_neg (by omega)]
    rw [hn1]
    rw [if_neg (by omega), if_pos rfl, if_neg (by omega)]
    have h16 : getUint16 L 12 = m := by
      show m / 2 ^ 8 % 256 * 2 ^ 8 + m % 256 = m
      omega
    rw [h16]

theorem decode_encode_table (c : Curve) (h : TableRepresentable c) :
    DecodeCurve c.Encode = .ok c := by
  obtain ⟨hg, hf, hp, tbl, ht, h2, h32, hbd⟩ := h
  obtain ⟨cg, cf, cp, ct⟩ := c
  simp only at hg hf hp ht
  subst hg hf hp ht
  rw [Curve.Encode]
  simp only [ne_eq, not_true_eq_false, if_false, reduceIte]
  rw [Curve.encodeCurveType]
  dsimp only
  set n := tbl.length with hn
  set W : Bytes := writeBytes (List.replicate (12 + n * 2) 0) 0 curvSig with hW
  have hWlen : W.length = 12 + n * 2 := by simp [hW]
  set B : Bytes := putUint32 W 8 n with hB
  have hBlen : B.length = 12 + n * 2 := by simp [hB, hWlen]
  set buf : Bytes := putU16Seq B 12 tbl with hbuf
  have hbuflen : buf.length = 12 + n * 2 := by simp [hbuf, hBlen]
  have hhead : ∀ j, j < 4 → buf.getD j 0 = curvSig.getD j 0 := by
    intro j hj
    rw [hbuf, getD_putU16Seq_frame (by omega), hB, getD_putUint32_frame (by omega), hW]
    have := @getD_writeBytes_in curvSig (List.replicate (12 + n * 2) 0)
      0 j (by simp [curvSig]; omega) (by simp [curvSig]; omega)
    simpa using this
  have hsig : extract buf 0 4 = curvSig := by
    rw [extract_eq_map (by omega)]
    rw [show List.range (4 - 0) = [0, 1, 2, 3] from rfl]
    simp only [List.map_cons, List.map_nil, Nat.zero_add]
    rw [hhead 0 (by omega), hhead 1 (by omega), hhead 2 (by omega), hhead 3 (by omega)]
    rfl
  have hcount : getUint32 buf 8 = n := by
    rw [hbuf, getUint32_frame_putU16Seq (by omega), hB, getUint32_putUint32 (by omega)]
    exact Nat.mod_eq_of_lt h32
  have hentry : ∀ i, i < n → getUint16 buf (12 + i * 2) = tbl.getD i 0 := by
    intro i hi
    rw [hbuf, getUint16_putU16Seq (by omega) hi]
    have hmem : tbl.getD i 0 ∈ tbl := by
      rw [List.getD_eq_getElem _ _ hi]
      exact List.getElem_mem hi
    exact Nat.mod_eq_of_lt (hbd _ hmem)
  rw [DecodeCurve, if_neg (by omega), if_pos hsig, decodeCurveType, if_neg (by omega)]
  rw [hcount]
  rw [if_neg (by omega), if_neg (by omega), if_neg (by omega)]
  have htbl : ((List.range n).map fun i => getUint16 buf (12 + i * 2)) = tbl := by
    apply List.ext_getElem
    · simp [hn]
    · intro i hi1 hi2
      have hi : i < n := by simpa using hi1
      simp only [List.getElem_map, List.getElem_range]
      rw [hentry i hi, List.getD_eq_getElem _ _ hi]
  rw [htbl]

theorem decode_encode_params_aux (ps : List ℚ)
    (hrep : ∀ p ∈ ps, ∃ k : Int, -(2 ^ 31) ≤ k ∧ k < 2 ^ 31 ∧ p = (k : ℚ) / 65536)
    (kft np : Nat) (hk16 : kft < 2 ^ 16) (hnp1 : 1 ≤ np) (hl : ps.length = np)
    (henc : (if (kft : Int) = 0 then 1 else if (kft : Int) = 1 then 3
      else if (kft : Int) = 2 then 4 else if (kft : Int) = 3 then 5
      else if (kft : Int) = 4 then 7 else ps.length) = np)
    (hdec : (if kft = 0 then some 1 else if kft = 1 then some 3
      else if kft = 2 then some 4 else if kft = 3 then some 5
      else if kft = 4 then some 7 else none) = some np) :
    DecodeCurve (Curve.Encode ⟨0, (kft : Int), some ps, none⟩) =
      .ok ⟨0, (kft : Int), some ps, none⟩ := by
  rw [Curve.Encode]
  simp only [ne_eq, reduceCtorEq, not_false_eq_true, if_true, reduceIte]
  rw [Curve.encodeParametric]
  dsimp only [Option.getD_some]
  rw [henc]
  have htake : ps.take np = ps := by
    rw [← hl]
    exact List.take_length ps
  rw [htake]
  have hft16 : toUint16OfInt (kft : Int) = kft := by
    unfold toUint16OfInt
    omega
  rw [hft16]
  set W : Bytes := writeBytes (List.replicate (12 + np * 4) 0) 0 paraSig with hW
  have hWlen : W.length = 12 + np * 4 := by simp [hW]
  set B : Bytes := putUint16 W 8 kft with hB
  have hBlen : B.length = 12 + np * 4 := by simp [hB, hWlen]
  set buf : Bytes := putS15Seq B 12 ps with hbuf
  have hbuflen : buf.length = 12 + np * 4 := by simp [hbuf, hBlen]
  have hhead : ∀ j, j < 4 → buf.getD j 0 = paraSig.getD j 0 := by
    intro j hj
    rw [hbuf, getD_putS15Seq_frame (by omega), hB, getD_putUint16_frame (by omega), hW]
    have := @getD_writeBytes_in paraSig (List.replicate (12 + np * 4) 0)
      0 j (by simp [paraSig]; omega) (by simp [paraSig]; omega)
    simpa using this
  have hsig : extract buf 0 4 = paraSig := by
    rw [extract_eq_map (by omega)]
    rw [show List.range (4 - 0) = [0, 1, 2, 3] from rfl]
    simp only [List.map_cons, List.map_nil, Nat.zero_add]
    rw [hhead 0 (by omega), hhead 1 (by omega), hhead 2 (by omega), hhead 3 (by omega)]
    rfl
  have hsig2 : ¬(extract buf 0 4 = curvSig) := by
    rw [hsig]
    decide
  have hftread : getUint16 buf 8 = kft := by
    rw [hbuf, getUint16_frame_putS15Seq (by omega), hB, getUint16_putUint16 (by omega)]
    omega
  have hentry : ∀ i, i < np → getS15Fixed16 buf (12 + i * 4) = ps.getD i 0 := by
    intro i hi
    rw [hbuf, getS15_putS15Seq (by omega) (by omega)]
    have hmem : ps.getD i 0 ∈ ps := by
      rw [List.getD_eq_getElem _ _ (by omega)]
      exact List.getElem_mem (by omega)
    obtain ⟨z, hz1, hz2, hz3⟩ := hrep _ hmem
    rw [hz3, s15_roundtrip hz1 hz2]
  rw [DecodeCurve, if_neg (by omega), if_neg hsig2, if_pos hsig]
  rw [decodeParametricCurve, if_neg (by omega)]
  simp only [hftread]
  rw [hdec]
  simp only
  rw [if_neg (by omega)]
  have hps : ((List.range np).map fun i => getS15Fixed16 buf (12 + i * 4)) = ps := by
    apply List.ext_getElem
    · simp [hl]
    · intro i hi1 hi2
      have hi : i < np := by simpa using hi1
      simp only [List.getElem_map, List.getElem_range]
      rw [hentry i hi, List.getD_eq_getElem _ _ (by omega)]
  rw [hps]

theorem decode_encode_params (c : Curve) (h : ParamsRepresentable c) :
    DecodeCurve c.Encode = .ok c := by
  obtain ⟨hg, ht, ps, hp, hft, hrep⟩ := h
  obtain ⟨cg, cf, cp, ct⟩ := c
  simp only at hg ht hp hft
  subst hg ht hp
  rcases hft with ⟨h0, hl⟩ | ⟨h0, hl⟩ | ⟨h0, hl⟩ | ⟨h0, hl⟩ | ⟨h0, hl⟩ <;> subst h0
  · exact decode_encode_params_aux ps hrep 0 1 (by omega) (by omega) hl
      (by norm_num) (by norm_num)
  · exact decode_encode_params_aux ps hrep 1 3 (by omega) (by omega) hl
      (by norm_num) (by norm_num)
  · exact decode_encode_params_aux ps hrep 2 4 (by omega) (by omega) hl
      (by norm_num) (by norm_num)
  · exact decode_encode_params_aux ps hrep 3 5 (by omega) (by omega) hl
      (by norm_num) (by norm_num)
  · exact decode_encode_params_aux ps hrep 4 7 (by omega) (by omega) hl
      (by norm_num) (by norm_num)

/-- C7 (amended): decoding an encoded curve recovers the curve exactly for
every curve in canonical form whose numeric content is exactly representable
on the wire: identity or gamma curves with gamma a multiple of 1/256 below
256, sampled curves with at least two 16-bit entries, and parametric curves
of function types 0..4 with the matching parameter count and parameters that
are multiples of 1/65536 in the int32 range.  (The unamended claim, for
every curve, fails because the wire formats quantise: see the
counterexample.) -/
theorem curve_encode_decode_roundtrip (c : Curve)
    (h : GammaRepresentable c ∨ TableRepresentable c ∨ ParamsRepresentable c) :
    DecodeCurve c.Encode = .ok c := by
  rcases h with h | h | h
  · exact decode_encode_gamma c h
  · exact decode_encode_table c h
  · exact decode_encode_params c h

/-- Witness that the round-trip theorem applies to a concrete curve: a
two-entry sampled table. -/
theorem curve_encode_decode_roundtrip_witness :
    (GammaRepresentable ⟨0, 0, none, some [7, 65535]⟩ ∨
      TableRepresentable ⟨0, 0, none, some [7, 65535]⟩ ∨
      ParamsRepresentable ⟨0, 0, none, some [7, 65535]⟩) ∧
    DecodeCurve (Curve.Encode ⟨0, 0, none, some [7, 65535]⟩) =
      .ok ⟨0, 0, none, some [7, 65535]⟩ := by
  have h : TableRepresentable ⟨0, 0, none, some [7, 65535]⟩ :=
    ⟨rfl, rfl, rfl, [7, 65535], rfl, by norm_num, by norm_num, by decide⟩
  exact ⟨Or.inr (Or.inl h), curve_encode_decode_roundtrip _ (Or.inr (Or.inl h))⟩

/-- C7 counterexample: the gamma value 513/512 = 1.001953125 (exactly
representable as a Go float64) is truncated by the u8Fixed8 wire encoding
to the word 256, so the re-decoded curve has gamma 1: decode(encode(c))
differs from c in the Gamma field. -/
theorem curve_encode_decode_not_exact :
    DecodeCurve (Curve.Encode ⟨513 / 512, 0, none, none⟩) = .ok ⟨1, 0, none, none⟩ ∧
    Curve.mk (513 / 512) 0 none none ≠ ⟨1, 0, none, none⟩ := by
  constructor
  · have henc : Curve.Encode ⟨513 / 512, 0, none, none⟩ =
        [99, 117, 114, 118, 0, 0, 0, 0, 0, 0, 0, 1, 1, 0] := by
      rw [Curve.Encode]
      dsimp only [ne_eq, reduceCtorEq]
      rw [if_neg (by simp)]
      rw [Curve.encodeCurveType]
      dsimp only
      rw [if_neg (by norm_num)]
      have ht : ratTrunc ((513 : ℚ) / 512 * 256) = 256 := by
        have h : ((513 : ℚ) / 512 * 256) = 513 / 2 := by norm_num
        rw [h]
        norm_num [ratTrunc]
        decide
      rw [ht]
      rfl
    rw [henc]
    rw [DecodeCurve, if_neg (by norm_num), if_pos (by rfl)]
    rw [decodeCurveType, if_neg (by norm_num)]
    rw [show getUint32 [99, 117, 114, 118, 0, 0, 0, 0, 0, 0, 0, 1, 1, 0] 8 = 1 by
      simp [getUint32]]
    rw [if_neg (by omega), if_pos rfl, if_neg (by norm_num)]
    rw [show getUint16 [99, 117, 114, 118, 0, 0, 0, 0, 0, 0, 0, 1, 1, 0] 12 = 256 by
      simp [getUint16]]
    norm_num
  · simp only [ne_eq, Curve.mk.injEq]
    intro h
    norm_num at h

theorem clamp_clamp (v lo hi : ℚ) (h : lo ≤ hi) :
    clamp (clamp v lo hi) lo hi = clamp v lo hi := by
  unfold clamp
  split_ifs <;> linarith

/-- C3: the claim says a sampled table takes precedence over a parametric
parameter vector in Curve.Evaluate (as does the doc comment on the Curve
struct), but the code tests Params before Table: on a curve carrying both a
constant-zero table and the parametric identity, Evaluate returns the
parametric value 1/2 at x = 1/2, not the table value 0.  (The other half of
the claimed precedence order, parametric over gamma, does hold, since the
gamma branch requires Params and Table to both be nil.) -/
theorem evaluate_uses_params_over_table (powf : ℚ → ℚ → ℚ) :
    Curve.Evaluate powf tableAndParamsCurve (1 / 2) = 1 / 2 ∧
    Curve.Evaluate powf tableAndParamsCurve (1 / 2) =
      clamp (Curve.evaluateParametric powf tableAndParamsCurve (clamp (1 / 2) 0 1)) 0 1 ∧
    clamp (Curve.evaluateSampled tableAndParamsCurve (clamp (1 / 2) 0 1)) 0 1 = 0 := by
  refine ⟨?_, ?_, ?_⟩
  · simp [Curve.Evaluate, Curve.evaluateParametric, tableAndParamsCurve, clamp]
    norm_num
  · simp [Curve.Evaluate, Curve.evaluateParametric, tableAndParamsCurve, clamp]
  · have htd : Int.tdiv 1 2 = 0 := by decide
    simp [Curve.evaluateSampled, tableAndParamsCurve, clamp, ratTrunc]
    norm_num [htd]

/-- C10: the zero value of the Curve struct (gamma 0, no table, no
parameters) evaluates and inverts as the identity on the unit interval:
both Evaluate and Invert reduce to clamping the argument to the unit
interval. -/
theorem zero_curve_behaves_as_identity (powf : ℚ → ℚ → ℚ) (x y : ℚ) :
    Curve.Evaluate powf zeroCurve x = clamp x 0 1 ∧
    Curve.Invert powf zeroCurve y = clamp y 0 1 := by
  constructor
  · show clamp _ 0 1 = _
    simp only [Curve.Evaluate, zeroCurve]
    norm_num
    exact clamp_clamp x 0 1 (by norm_num)
  · simp [Curve.Invert, zeroCurve]

/-- Helper: the presence-check-and-fallback pattern of initLut, for a
selected tag t1 and fallback fb, equals its first-present-wins
characterisation. -/
theorem lutSelectChar (m : List (Nat × Bytes)) (t1 fb : Nat) :
    (match lookupTag m (if (lookupTag m t1).isNone then fb else t1) with
      | none => (.error .missingLUTTag : Except TransformErr Nat)
      | some _ => .ok (if (lookupTag m t1).isNone then fb else t1)) =
    (if (lookupTag m t1).isSome then .ok t1
      else if (lookupTag m fb).isSome then .ok fb
      else .error .missingLUTTag) := by
  cases h1 : lookupTag m t1 <;> simp [h1] <;> cases h2 : lookupTag m fb <;> simp [h2]

/-- C8: for a LUT-kind profile, every direction and every one of the four
standard rendering intents, the transform initialisation selects A2Bn
(device to PCS) or B2An (PCS to device) with n = 0 for Perceptual, 1 for
Relative and Absolute Colorimetric and 2 for Saturation, falls back to n=0
when the selected tag is absent, and fails with the missing-LUT-tag error
exactly when the fallback tag is absent as well. -/
theorem initLut_tag_selection (p : Profile) (dir : Direction) (intent : Nat)
    (hintent : intent < 4) (hkind : detectProfileType p = .lut) :
    initLutTag p dir intent =
      (if (lookupTag p.TagData (selectedLutTag dir intent)).isSome then
        .ok (selectedLutTag dir intent)
      else if (lookupTag p.TagData (fallbackLutTag dir)).isSome then
        .ok (fallbackLutTag dir)
      else .error .missingLUTTag) ∧
    (initLutTag p dir intent = .error TransformErr.missingLUTTag ↔
      lookupTag p.TagData (selectedLutTag dir intent) = none ∧
      lookupTag p.TagData (fallbackLutTag dir) = none) := by
  have hmain : initLutTag p dir intent =
      (if (lookupTag p.TagData (selectedLutTag dir intent)).isSome then
        .ok (selectedLutTag dir intent)
      else if (lookupTag p.TagData (fallbackLutTag dir)).isSome then
        .ok (fallbackLutTag dir)
      else .error .missingLUTTag) := by
    cases dir with
    | DeviceToPCS =>
      interval_cases intent
      · simpa [initLutTag, selectedLutTag, fallbackLutTag] using
          lutSelectChar p.TagData AToB0 AToB0
      · simpa [initLutTag, selectedLutTag, fallbackLutTag] using
          lutSelectChar p.TagData AToB1 AToB0
      · simpa [initLutTag, selectedLutTag, fallbackLutTag] using
          lutSelectChar p.TagData AToB2 AToB0
      · simpa [initLutTag, selectedLutTag, fallbackLutTag] using
          lutSelectChar p.TagData AToB1 AToB0
    | PCSToDevice =>
      interval_cases intent
      · simpa [initLutTag, selectedLutTag, fallbackLutTag] using
          lutSelectChar p.TagData BToA0 BToA0
      · simpa [initLutTag, selectedLutTag, fallbackLutTag] using
          lutSelectChar p.TagData BToA1 BToA0
      · simpa [initLutTag, selectedLutTag, fallbackLutTag] using
          lutSelectChar p.TagData BToA2 BToA0
      · simpa [initLutTag, selectedLutTag, fallbackLutTag] using
          lutSelectChar p.TagData BToA1 BToA0
  refine ⟨hmain, ?_⟩
  rw [hmain]
  cases h1 : lookupTag p.TagData (selectedLutTag dir intent) <;>
    cases h2 : lookupTag p.TagData (fallbackLutTag dir) <;> simp [h1, h2]

/-- Witness for the LUT tag selection theorem on a concrete profile that
carries only a B2A0 tag, asked for PCS-to-device with Saturation intent:
the selected B2A2 is absent, so the fallback B2A0 is chosen. -/
theorem initLut_tag_selection_witness :
    (2 : Nat) < 4 ∧
    detectProfileType ⟨0, 0, 0, 0, 0, zeroTime, 0, 0, 0, 0, 0, 0, 0, .Missing,
      [(BToA0, [0, 0, 0, 0])]⟩ = .lut ∧
    initLutTag ⟨0, 0, 0, 0, 0, zeroTime, 0, 0, 0, 0, 0, 0, 0, .Missing,
      [(BToA0, [0, 0, 0, 0])]⟩ Direction.PCSToDevice 2 = .ok BToA0 := by
  refine ⟨by norm_num, by decide, ?_⟩
  have h := (initLut_tag_selection ⟨0, 0, 0, 0, 0, zeroTime, 0, 0, 0, 0, 0, 0, 0, .Missing,
    [(BToA0, [0, 0, 0, 0])]⟩ Direction.PCSToDevice 2 (by norm_num) (by decide)).1
  rw [h]
  rfl

/-- C4 (code bug): Transform.applyGrayTRC guards on an input length of
exactly one and returns the single-element zero slice otherwise, so for a
three-component PCS vector in the PCS-to-device direction it returns [0]
for every transform; the branch that would read the Y component at index 1
(visible in the source as the dead test len(input) >= 2) is unreachable.
The second conjunct evaluates the behaviour the claim (and the spec)
describe: with an identity inverse curve and the D50 white point, an input
with Y = 1/2 would have to produce 1/2, not 0. -/
theorem applyGrayTRC_zero_for_three_components (powf : ℚ → ℚ → ℚ) (t : Transform)
    (x y z : ℚ) :
    t.applyGrayTRC powf [x, y, z] = [0] ∧
    Curve.Invert powf zeroCurve (clamp ((1 : ℚ) / 2 / 1) 0 1) = 1 / 2 := by
  constructor
  · simp [Transform.applyGrayTRC]
  · show clamp _ 0 1 = _
    norm_num [clamp]

/-- The lower bound step for the CLUT size loop: the product of a list of
positive factors is positive. -/
theorem one_le_list_prod {l : List Nat} (h : ∀ g ∈ l, 1 ≤ g) : 1 ≤ l.prod := by
  induction l with
  | nil => simp
  | cons g rest ih =>
    rw [List.prod_cons]
    have h1 := h g (by simp)
    have h2 : 1 ≤ rest.prod := ih fun g hg => h g (by simp [hg])
    calc 1 = 1 * 1 := by omega
    _ ≤ g * rest.prod := Nat.mul_le_mul h1 h2

/-- The multiplication loop of computeCLUTSize either stops with none,
in which case the full product exceeds the 2^30 cap, or returns the exact
product, which is within the cap; the running 64-bit product never wraps
because a multiplication is only performed on a value within the cap and
a factor of at most 255. -/
theorem clutSizeLoop_spec (l : List Nat) (size : Nat) (hs1 : 1 ≤ size)
    (hs30 : size ≤ 2 ^ 30) (hb : ∀ g ∈ l, 1 ≤ g ∧ g ≤ 255) :
    (2 ^ 30 < size * l.prod ∧ clutSizeLoop size l = none) ∨
    (size * l.prod ≤ 2 ^ 30 ∧ clutSizeLoop size l = some (size * l.prod)) := by
  induction l generalizing size with
  | nil =>
    right
    simp only [List.prod_nil, Nat.mul_one]
    exact ⟨hs30, rfl⟩
  | cons g rest ih =>
    obtain ⟨hg1, hg255⟩ := hb g (by simp)
    have hrest : ∀ g2 ∈ rest, 1 ≤ g2 ∧ g2 ≤ 255 := fun g2 hg2 => hb g2 (by simp [hg2])
    have hnw : size * g % 2 ^ 64 = size * g := by
      have : size * g ≤ 2 ^ 30 * 255 := Nat.mul_le_mul hs30 hg255
      omega
    rw [clutSizeLoop]
    simp only [hnw]
    by_cases hcap : 2 ^ 30 < size * g
    · left
      rw [if_pos hcap]
      have hprodpos : 1 ≤ rest.prod := one_le_list_prod fun g2 hg2 => (hrest g2 hg2).1
      refine ⟨?_, rfl⟩
      rw [List.prod_cons, ← Nat.mul_assoc]
      calc 2 ^ 30 < size * g := hcap
      _ = size * g * 1 := by omega
      _ ≤ size * g * rest.prod := Nat.mul_le_mul_left _ hprodpos
    · rw [if_neg hcap]
      push_neg at hcap
      have := ih (size * g) (Nat.mul_pos hs1 hg1) hcap hrest
      rw [List.prod_cons, ← Nat.mul_assoc]
      exact this

/-- computeCLUTSize returns 0 whenever the true product of the grid sizes
and the output channel count exceeds 2^30 (grid sizes are bytes coerced to
at least 1, output channels at most 15, so no 64-bit wrap occurs). -/
theorem computeCLUTSize_overflow (gridPoints : List Nat) (oc : Nat)
    (hb : ∀ g ∈ gridPoints, 1 ≤ g ∧ g ≤ 255) (hoc : oc ≤ 15)
    (hbig : 2 ^ 30 < gridPoints.prod * oc) :
    computeCLUTSize gridPoints oc = 0 := by
  rcases clutSizeLoop_spec gridPoints 1 (by omega) (by norm_num) hb with
    ⟨hlt, hnone⟩ | ⟨hle, hsome⟩
  · rw [computeCLUTSize, hnone]
  · rw [computeCLUTSize, hsome]
    simp only [Nat.one_mul] at hle hsome ⊢
    have hnw : gridPoints.prod * oc % 2 ^ 64 = gridPoints.prod * oc := by
      have : gridPoints.prod * oc ≤ 2 ^ 30 * 15 := Nat.mul_le_mul hle hoc
      omega
    simp only [hnw]
    rw [if_pos hbig]

/-- A declared grid size (a zero byte coerced to one) is between 1 and 255
on a wellformed byte buffer. -/
theorem grid_byte_bounds (data : Bytes) (hwf : ∀ b ∈ data, b < 256) (j : Nat) :
    1 ≤ (if data.getD j 0 = 0 then 1 else data.getD j 0) ∧
    (if data.getD j 0 = 0 then 1 else data.getD j 0) ≤ 255 := by
  by_cases hz : data.getD j 0 = 0
  · rw [if_pos hz]
    norm_num
  · rw [if_neg hz]
    by_cases hlen : j < data.length
    · have hmem : data.getD j 0 ∈ data := by
        rw [List.getD_eq_getElem _ _ hlen]
        exact List.getElem_mem hlen
      have := hwf _ hmem
      omega
    · rw [List.getD_eq_default _ _ (by omega)] at hz
      omega

/-- C6: a CLUT header whose declared grid sizes (zero bytes counting as
one) and output channel count multiply out beyond 2^30 makes
computeCLUTSize return 0 — the 64-bit running product is capped after
every multiplication, so it never wraps — and decodeCLUT then fails with
the invalid-tag-data error before building any sample list. -/
theorem clut_overflow_rejected (data : Bytes) (offset ic oc : Nat)
    (hwf : ∀ b ∈ data, b < 256) (hoc : oc ≤ 15)
    (hbig : 2 ^ 30 <
      ((List.range ic).map fun i =>
        if data.getD (offset + i) 0 = 0 then 1 else data.getD (offset + i) 0).prod * oc) :
    computeCLUTSize
      ((List.range ic).map fun i =>
        if data.getD (offset + i) 0 = 0 then 1 else data.getD (offset + i) 0) oc = 0 ∧
    decodeCLUT data offset ic oc = .error .invalidTagData := by
  have hb : ∀ g ∈ (List.range ic).map fun i =>
      if data.getD (offset + i) 0 = 0 then 1 else data.getD (offset + i) 0,
      1 ≤ g ∧ g ≤ 255 := by
    intro g hg
    obtain ⟨i, _, rfl⟩ := List.mem_map.mp hg
    exact grid_byte_bounds data hwf (offset + i)
  have hsz := computeCLUTSize_overflow _ _ hb hoc hbig
  refine ⟨hsz, ?_⟩
  rw [decodeCLUT]
  split
  · rfl
  · dsimp only
    rw [hsz]
    simp

/-- Witness: the grid sizes 255,255,255,255 with three output channels
(255^4 · 3 > 2^30) are rejected as invalid tag data. -/
theorem clut_overflow_rejected_witness :
    2 ^ 30 < ((List.range 4).map fun i =>
      if (List.replicate 20 255 : Bytes).getD (0 + i) 0 = 0 then 1
      else (List.replicate 20 255 : Bytes).getD (0 + i) 0).prod * 3 ∧
    decodeCLUT (List.replicate 20 255) 0 4 3 = .error .invalidTagData := by
  refine ⟨by decide, ?_⟩
  exact (clut_overflow_rejected (List.replicate 20 255) 0 4 3 (by decide) (by decide)
    (by decide)).2

/-- C5 (amended): Decode does not use a scratch copy; it verifies the
Profile ID against the caller's buffer mutated in place.  The final state
of the buffer is: unchanged when decoding stops before the verification
(short buffer, missing acsp signature, oversized tag count) or when the
ID field is all zero; otherwise the flags word at 44, the rendering-intent
word at 64 and the 16 ID bytes at 84..100 are zeroed in place (also when
a later tag-table error makes Decode return an error), and every other
byte keeps its value. -/
theorem decode_final_buffer (md5 : Bytes → Bytes) (data : Bytes) :
    (DecodeSt md5 data).2 =
      if data.length < 128 + 4 ∨ extract data 36 40 ≠ acspSig ∨
          (data.length - 128 - 4) / 12 < getUint32 data 128 ∨
          isZero (extract data 84 100) then data
      else zeroIDFields data := by
  rw [DecodeSt]
  by_cases h1 : data.length < 128 + 4
  · simp [h1]
  · rw [if_neg h1]
    by_cases h2 : extract data 36 40 = acspSig
    · rw [if_neg (by simpa using h2)]
      by_cases h3 : (data.length - 128 - 4) / 12 < getUint32 data 128
      · simp [h3, h1, h2]
      · rw [if_neg h3]
        by_cases h4 : isZero (extract data 84 100)
        · have hcond : data.length < 128 + 4 ∨ extract data 36 40 ≠ acspSig ∨
              (data.length - 128 - 4) / 12 < getUint32 data 128 ∨
              isZero (extract data 84 100) = true := Or.inr (Or.inr (Or.inr h4))
          rw [if_pos hcond]
          simp [h4]
        · have hcond : ¬(data.length < 128 + 4 ∨ extract data 36 40 ≠ acspSig ∨
              (data.length - 128 - 4) / 12 < getUint32 data 128 ∨
              isZero (extract data 84 100) = true) := by
            simp [h1, h2, h3, h4]
          rw [if_neg hcond]
          simp [h4, zeroIDFields]
    · rw [if_pos (by simpa using h2)]
      simp [h1, h2]

set_option maxRecDepth 40000 in
/-- C5 counterexample: on a valid 132-byte profile with a non-zero
Profile ID byte and flags byte 9 at offset 44, Decode succeeds but the
caller's buffer comes back changed: byte 44 is zeroed in place.  The
claim that every byte of the input buffer is left unchanged is false. -/
theorem decode_zeroes_caller_buffer :
    isZero (extract mutationInput 84 100) = false ∧
    mutationInput.getD 44 0 = 9 ∧
    (DecodeSt constDigest mutationInput).2.getD 44 0 = 0 ∧
    (DecodeSt constDigest mutationInput).2 ≠ mutationInput ∧
    (DecodeSt constDigest mutationInput).1.toOption =
      some ⟨0, currentVersion, 0, 0, 0, zeroTime, 0, 9 * 2 ^ 24, 0, 0, 0, 0, 0,
        .Invalid, []⟩ := by
  refine ⟨by decide, by decide, by decide, by decide, by decide⟩

/-! ## The sort order of Profile.Encode is total, transitive and
antisymmetric, so the sorted tag list is independent of the enumeration
order of the TagData map. -/

theorem bytesCompare_eq_zero_iff : ∀ (a b : Bytes), bytesCompare a b = 0 ↔ a = b
  | [], [] => by simp [bytesCompare]
  | [], _ :: _ => by simp [bytesCompare]
  | _ :: _, [] => by simp [bytesCompare]
  | x :: xs, y :: ys => by
    rw [bytesCompare]
    rcases Nat.lt_trichotomy x y with h | h | h
    · rw [if_pos h]
      simp [Nat.ne_of_lt h]
    · subst h
      rw [if_neg (lt_irrefl x), if_neg (lt_irrefl x)]
      simp [bytesCompare_eq_zero_iff xs ys]
    · rw [if_neg (by omega), if_pos h]
      simp [(Nat.ne_of_lt h).symm]

theorem bytesCompare_swap : ∀ (a b : Bytes), bytesCompare b a = -bytesCompare a b
  | [], [] => by simp [bytesCompare]
  | [], _ :: _ => by simp [bytesCompare]
  | _ :: _, [] => by simp [bytesCompare]
  | x :: xs, y :: ys => by
    rw [bytesCompare, bytesCompare]
    split_ifs <;> first
      | omega
      | exact bytesCompare_swap xs ys

theorem bytesCompare_lt_trans :
    ∀ (a b c : Bytes), bytesCompare a b < 0 → bytesCompare b c < 0 →
      bytesCompare a c < 0
  | [], [], _, h1, _ => by simp [bytesCompare] at h1
  | [], _ :: _, [], _, h2 => by simp [bytesCompare] at h2
  | [], _ :: _, _ :: _, _, _ => by simp [bytesCompare]
  | _ :: _, [], _, h1, _ => by simp [bytesCompare] at h1
  | _ :: _, _ :: _, [], _, h2 => by simp [bytesCompare] at h2
  | x :: xs, y :: ys, z :: zs, h1, h2 => by
    rw [bytesCompare] at h1 h2 ⊢
    rcases Nat.lt_trichotomy x y with hxy | hxy | hxy
    · rcases Nat.lt_trichotomy y z with hyz | hyz | hyz
      · rw [if_pos (hxy.trans hyz)]
        decide
      · subst hyz
        rw [if_pos hxy]
        decide
      · rw [if_neg (by omega), if_pos hyz] at h2
        exact absurd h2 (by decide)
    · subst hxy
      rw [if_neg (lt_irrefl x), if_neg (lt_irrefl x)] at h1
      rcases Nat.lt_trichotomy x z with hyz | hyz | hyz
      · rw [if_pos hyz]
        decide
      · subst hyz
        rw [if_neg (lt_irrefl x), if_neg (lt_irrefl x)] at h2 ⊢
        exact bytesCompare_lt_trans xs ys zs h1 h2
      · rw [if_neg (by omega), if_pos hyz] at h2
        exact absurd h2 (by decide)
    · rw [if_neg (by omega), if_pos hxy] at h1
      exact absurd h1 (by decide)

theorem tagLe_total (x y : Nat × Bytes) : tagLe x y ∨ tagLe y x := by
  rcases Int.lt_trichotomy (bytesCompare x.2 y.2) 0 with h | h | h
  · exact Or.inl (Or.inl h)
  · have h2 : bytesCompare y.2 x.2 = 0 := by rw [bytesCompare_swap, h]; rfl
    rcases Nat.le_total x.1 y.1 with hle | hle
    · exact Or.inl (Or.inr ⟨h, hle⟩)
    · exact Or.inr (Or.inr ⟨h2, hle⟩)
  · have h2 : bytesCompare y.2 x.2 < 0 := by
      rw [bytesCompare_swap]; omega
    exact Or.inr (Or.inl h2)

theorem tagLe_trans (x y z : Nat × Bytes) :
    tagLe x y → tagLe y z → tagLe x z := by
  intro h1 h2
  rcases h1 with h1 | ⟨h1, h1n⟩
  · rcases h2 with h2 | ⟨h2, _⟩
    · exact Or.inl (bytesCompare_lt_trans _ _ _ h1 h2)
    · have := (bytesCompare_eq_zero_iff _ _).mp h2
      exact Or.inl (by rw [← this]; exact h1)
  · have hxy := (bytesCompare_eq_zero_iff _ _).mp h1
    rcases h2 with h2 | ⟨h2, h2n⟩
    · exact Or.inl (by rw [hxy]; exact h2)
    · exact Or.inr ⟨by rw [hxy]; exact h2, Nat.le_trans h1n h2n⟩

theorem tagLe_antisymm (x y : Nat × Bytes) :
    tagLe x y → tagLe y x → x = y := by
  intro h1 h2
  obtain ⟨x1, x2⟩ := x
  obtain ⟨y1, y2⟩ := y
  rcases h1 with h1 | ⟨h1, h1n⟩
  · rcases h2 with h2 | ⟨h2, h2n⟩
    · rw [bytesCompare_swap] at h2
      omega
    · rw [bytesCompare_swap] at h2
      omega
  · rcases h2 with h2 | ⟨h2, h2n⟩
    · rw [bytesCompare_swap] at h2
      omega
    · have he : x2 = y2 := (bytesCompare_eq_zero_iff _ _).mp h1
      have : x1 = y1 := Nat.le_antisymm h1n h2n
      simp [this, he]

theorem sortTags_eq_of_perm {l1 l2 : List (Nat × Bytes)} (h : l1.Perm l2) :
    sortTags l1 = sortTags l2 := by
  haveI : IsTotal (Nat × Bytes) tagLe := ⟨tagLe_total⟩
  haveI : IsTrans (Nat × Bytes) tagLe := ⟨tagLe_trans⟩
  haveI : IsAntisymm (Nat × Bytes) tagLe := ⟨tagLe_antisymm⟩
  exact List.eq_of_perm_of_sorted
    ((List.perm_insertionSort tagLe l1).trans
      (h.trans (List.perm_insertionSort tagLe l2).symm))
    (List.sorted_insertionSort tagLe l1)
    (List.sorted_insertionSort tagLe l2)

/-! ## Byte-buffer machinery for the encoder proofs -/

theorem bytes_ext {b1 b2 : Bytes} (hlen : b1.length = b2.length)
    (h : ∀ j, j < b1.length → b1.getD j 0 = b2.getD j 0) : b1 = b2 := by
  apply List.ext_getElem hlen
  intro i h1 h2
  have h3 := h i h1
  rw [List.getD_eq_getElem?_getD, List.getD_eq_getElem?_getD,
    List.getElem?_eq_getElem h1, List.getElem?_eq_getElem h2] at h3
  exact h3

theorem getUint32_congr {b1 b2 : Bytes} {off : Nat}
    (h : ∀ j, off ≤ j → j < off + 4 → b1.getD j 0 = b2.getD j 0) :
    getUint32 b1 off = getUint32 b2 off := by
  unfold getUint32
  rw [h off (by omega) (by omega), h (off + 1) (by omega) (by omega),
    h (off + 2) (by omega) (by omega), h (off + 3) (by omega) (by omega)]

theorem getUint16_congr {b1 b2 : Bytes} {off : Nat}
    (h : ∀ j, off ≤ j → j < off + 2 → b1.getD j 0 = b2.getD j 0) :
    getUint16 b1 off = getUint16 b2 off := by
  unfold getUint16
  rw [h off (by omega) (by omega), h (off + 1) (by omega) (by omega)]

theorem extract_congr {b1 b2 : Bytes} {lo hi : Nat} (h1 : hi ≤ b1.length)
    (h2 : hi ≤ b2.length)
    (h : ∀ j, lo ≤ j → j < hi → b1.getD j 0 = b2.getD j 0) :
    extract b1 lo hi = extract b2 lo hi := by
  rw [extract_eq_map h1, extract_eq_map h2]
  apply List.map_congr_left
  intro i hi2
  rw [List.mem_range] at hi2
  exact h (lo + i) (by omega) (by omega)

theorem getD_putUint32_bytes {b : Bytes} {off : Nat} (h : off + 4 ≤ b.length)
    (v : Nat) :
    (putUint32 b off v).getD off 0 = v / 2 ^ 24 % 256 ∧
    (putUint32 b off v).getD (off + 1) 0 = v / 2 ^ 16 % 256 ∧
    (putUint32 b off v).getD (off + 2) 0 = v / 2 ^ 8 % 256 ∧
    (putUint32 b off v).getD (off + 3) 0 = v % 256 := by
  unfold putUint32
  refine ⟨?_, ?_, ?_, ?_⟩
  · rw [getD_set_ne (by omega), getD_set_ne (by omega), getD_set_ne (by omega),
      getD_set_self (by omega)]
  · rw [getD_set_ne (by omega), getD_set_ne (by omega),
      getD_set_self (by simp only [List.length_set]; omega)]
  · rw [getD_set_ne (by omega),
      getD_set_self (by simp only [List.length_set]; omega)]
  · rw [getD_set_self (by simp only [List.length_set]; omega)]

theorem getUint32_putUint32_frame {b : Bytes} {off j : Nat}
    (h : j + 4 ≤ off ∨ off + 4 ≤ j) (v : Nat) :
    getUint32 (putUint32 b off v) j = getUint32 b j :=
  getUint32_congr fun _ h1 h2 => getD_putUint32_frame (by omega) v

theorem getUint32_putUint64_frame {b : Bytes} {off j : Nat}
    (h : j + 4 ≤ off ∨ off + 8 ≤ j) (v : Nat) :
    getUint32 (putUint64 b off v) j = getUint32 b j :=
  getUint32_congr fun _ h1 h2 => getD_putUint64_frame (by omega) v

theorem getUint32_putS15Fixed16_frame {b : Bytes} {off j : Nat}
    (h : j + 4 ≤ off ∨ off + 4 ≤ j) (v : ℚ) :
    getUint32 (putS15Fixed16 b off v) j = getUint32 b j :=
  getUint32_congr fun _ h1 h2 => getD_putS15Fixed16_frame (by omega) v

theorem getUint32_writeBytes_frame {s : Bytes} {b : Bytes} {off j : Nat}
    (h : j + 4 ≤ off ∨ off + s.length ≤ j) :
    getUint32 (writeBytes b off s) j = getUint32 b j :=
  getUint32_congr fun _ h1 h2 => getD_writeBytes_frame (by omega)

theorem getD_putDateTime_frame {b : Bytes} {off j : Nat}
    (h : j < off ∨ off + 12 ≤ j) (t : GoTime) :
    (putDateTime b off t).getD j 0 = b.getD j 0 := by
  unfold putDateTime
  rw [getD_set_ne (by omega), getD_set_ne (by omega), getD_set_ne (by omega),
    getD_set_ne (by omega), getD_set_ne (by omega), getD_set_ne (by omega),
    getD_set_ne (by omega), getD_set_ne (by omega), getD_set_ne (by omega),
    getD_set_ne (by omega), getD_set_ne (by omega), getD_set_ne (by omega)]

theorem getUint32_putDateTime_frame {b : Bytes} {off j : Nat}
    (h : j + 4 ≤ off ∨ off + 12 ≤ j) (t : GoTime) :
    getUint32 (putDateTime b off t) j = getUint32 b j :=
  getUint32_congr fun _ h1 h2 => getD_putDateTime_frame (by omega) t

theorem getUint16_putUint32_frame {b : Bytes} {off j : Nat}
    (h : j + 2 ≤ off ∨ off + 4 ≤ j) (v : Nat) :
    getUint16 (putUint32 b off v) j = getUint16 b j :=
  getUint16_congr fun _ h1 h2 => getD_putUint32_frame (by omega) v

theorem getUint16_writeBytes_frame {s : Bytes} {b : Bytes} {off j : Nat}
    (h : j + 2 ≤ off ∨ off + s.length ≤ j) :
    getUint16 (writeBytes b off s) j = getUint16 b j :=
  getUint16_congr fun _ h1 h2 => getD_writeBytes_frame (by omega)

@[simp] theorem length_putDateTime (b : Bytes) (off : Nat) (t : GoTime) :
    (putDateTime b off t).length = b.length := by
  simp [putDateTime]

theorem getUint64_putUint64 {b : Bytes} {off : Nat} (h : off + 8 ≤ b.length)
    (v : Nat) : getUint64 (putUint64 b off v) off = v % 2 ^ 64 := by
  unfold getUint64 putUint64
  have h1 : getUint32 (putUint32 (putUint32 b off (v / 2 ^ 32 % 2 ^ 32)) (off + 4)
      (v % 2 ^ 32)) off = getUint32 (putUint32 b off (v / 2 ^ 32 % 2 ^ 32)) off :=
    getUint32_putUint32_frame (by omega) _
  have h2 : getUint32 (putUint32 b off (v / 2 ^ 32 % 2 ^ 32)) off =
      v / 2 ^ 32 % 2 ^ 32 % 2 ^ 32 :=
    getUint32_putUint32 (by omega) _
  have h3 : getUint32 (putUint32 (putUint32 b off (v / 2 ^ 32 % 2 ^ 32)) (off + 4)
      (v % 2 ^ 32)) (off + 4) = v % 2 ^ 32 % 2 ^ 32 :=
    getUint32_putUint32 (by simp only [length_putUint32]; omega) _
  rw [h1, h2, h3]
  omega

theorem extract_writeBytes {b : Bytes} {off : Nat} {s : Bytes}
    (h : off + s.length ≤ b.length) :
    extract (writeBytes b off s) off (off + s.length) = s := by
  rw [extract_eq_map (by simp only [length_writeBytes]; omega)]
  apply List.ext_getElem (by simp)
  intro i h1 h2
  simp only [List.getElem_map, List.getElem_range, List.length_range] at h1 ⊢
  rw [getD_writeBytes_in (by omega) h, List.getD_eq_getElem?_getD,
    List.getElem?_eq_getElem h2]
  rfl

theorem le_align4 (n : Nat) : n ≤ align4 n := by
  unfold align4; omega

theorem align4_le (n : Nat) : align4 n ≤ n + 3 := by
  unfold align4; omega

@[simp] theorem length_writeTagTable (es : List TagEntry) (b : Bytes) (i : Nat) :
    (writeTagTable b i es).length = b.length := by
  induction es generalizing b i with
  | nil => rfl
  | cons e rest ih =>
    simp only [writeTagTable]
    rw [ih]
    by_cases hd : e.duplicate <;> simp [hd]

theorem getD_putUint32_byte0 {b : Bytes} {off : Nat} (h : off + 4 ≤ b.length)
    (v : Nat) : (putUint32 b off v).getD off 0 = v / 2 ^ 24 % 256 :=
  (getD_putUint32_bytes h v).1

theorem getD_putUint32_byte1 {b : Bytes} {off : Nat} (h : off + 4 ≤ b.length)
    (v : Nat) : (putUint32 b off v).getD (off + 1) 0 = v / 2 ^ 16 % 256 :=
  (getD_putUint32_bytes h v).2.1

theorem getD_putUint32_byte2 {b : Bytes} {off : Nat} (h : off + 4 ≤ b.length)
    (v : Nat) : (putUint32 b off v).getD (off + 2) 0 = v / 2 ^ 8 % 256 :=
  (getD_putUint32_bytes h v).2.2.1

theorem getD_putUint32_byte3 {b : Bytes} {off : Nat} (h : off + 4 ≤ b.length)
    (v : Nat) : (putUint32 b off v).getD (off + 3) 0 = v % 256 :=
  (getD_putUint32_bytes h v).2.2.2

theorem getD_replicate_zero {L j : Nat} : (List.replicate L 0).getD j 0 = 0 := by
  rcases Nat.lt_or_ge j L with h | h
  · rw [List.getD_eq_getElem?_getD, List.getElem?_replicate, if_pos h]
    rfl
  · rw [List.getD_eq_getElem?_getD, List.getElem?_eq_none (by simpa using h)]
    rfl

theorem getUint16_putS15Fixed16_frame {b : Bytes} {off j : Nat}
    (h : j + 2 ≤ off ∨ off + 4 ≤ j) (v : ℚ) :
    getUint16 (putS15Fixed16 b off v) j = getUint16 b j :=
  getUint16_congr fun _ h1 h2 => getD_putS15Fixed16_frame (by omega) v

theorem getUint16_putUint64_frame {b : Bytes} {off j : Nat}
    (h : j + 2 ≤ off ∨ off + 8 ≤ j) (v : Nat) :
    getUint16 (putUint64 b off v) j = getUint16 b j :=
  getUint16_congr fun _ h1 h2 => getD_putUint64_frame (by omega) v

theorem getUint16_putDateTime_frame {b : Bytes} {off j : Nat}
    (h : j + 2 ≤ off ∨ off + 12 ≤ j) (t : GoTime) :
    getUint16 (putDateTime b off t) j = getUint16 b j :=
  getUint16_congr fun _ h1 h2 => getD_putDateTime_frame (by omega) t

/-- Reading the six big-endian date fields back from putDateTime. -/
theorem getUint16_putDateTime {b : Bytes} {off : Nat} (h : off + 12 ≤ b.length)
    (t : GoTime) :
    getUint16 (putDateTime b off t) off = t.year % 2 ^ 16 ∧
    getUint16 (putDateTime b off t) (off + 2) = t.month % 2 ^ 8 ∧
    getUint16 (putDateTime b off t) (off + 4) = t.day % 2 ^ 8 ∧
    getUint16 (putDateTime b off t) (off + 6) = t.hour % 2 ^ 8 ∧
    getUint16 (putDateTime b off t) (off + 8) = t.minute % 2 ^ 8 ∧
    getUint16 (putDateTime b off t) (off + 10) = t.second % 2 ^ 8 := by
  unfold getUint16 putDateTime
  refine ⟨?_, ?_, ?_, ?_, ?_, ?_⟩ <;>
    · repeat rw [getD_set_ne (by omega)]
      rw [getD_set_self (by first | omega | (simp only [List.length_set]; omega))]
      repeat rw [getD_set_ne (by omega)]
      rw [getD_set_self (by first | omega | (simp only [List.length_set]; omega))]
      omega

/-! ## Layout facts of the encoder -/

theorem assignTags_length (ts : List (Nat × Bytes)) :
    ∀ (pos : Nat) (prev : Option (Bytes × Nat)),
      (assignTags ts pos prev).1.length = ts.length := by
  induction ts with
  | nil => intro pos prev; rfl
  | cons e rest ih =>
    obtain ⟨t, d⟩ := e
    intro pos prev
    cases prev with
    | none => simp [assignTags, ih]
    | some pr =>
      obtain ⟨pd, ps⟩ := pr
      by_cases hd : d = pd
      · simp [assignTags, hd, ih]
      · simp [assignTags, hd, ih]

theorem assignTags_map (ts : List (Nat × Bytes)) :
    ∀ (pos : Nat) (prev : Option (Bytes × Nat)),
      (assignTags ts pos prev).1.map (fun e => (e.tagType, e.data)) = ts := by
  induction ts with
  | nil => intro pos prev; rfl
  | cons e rest ih =>
    obtain ⟨t, d⟩ := e
    intro pos prev
    cases prev with
    | none => simp [assignTags, ih]
    | some pr =>
      obtain ⟨pd, ps⟩ := pr
      by_cases hd : d = pd
      · simp [assignTags, hd, ih]
      · simp [assignTags, hd, ih]

theorem assignTags_pos_le (ts : List (Nat × Bytes)) :
    ∀ (pos : Nat) (prev : Option (Bytes × Nat)),
      pos ≤ (assignTags ts pos prev).2 := by
  induction ts with
  | nil => intro pos prev; exact Nat.le_refl _
  | cons e rest ih =>
    obtain ⟨t, d⟩ := e
    intro pos prev
    cases prev with
    | none =>
      simp only [assignTags]
      exact Nat.le_trans (Nat.le_add_right _ _) (ih _ _)
    | some pr =>
      obtain ⟨pd, ps⟩ := pr
      by_cases hd : d = pd
      · simp only [assignTags, if_pos hd]
        exact ih _ _
      · simp only [assignTags, if_neg hd]
        exact Nat.le_trans (Nat.le_add_right _ _) (ih _ _)

theorem getD_writeTagTable_frame {es : List TagEntry} {b : Bytes} {i j : Nat}
    (hj : j < 132 + i * 12)
    (hst : ∀ e ∈ es, e.duplicate = false → j < e.start) :
    (writeTagTable b i es).getD j 0 = b.getD j 0 := by
  induction es generalizing b i with
  | nil => rfl
  | cons e rest ih =>
    simp only [writeTagTable]
    rw [ih (by omega) (fun x hx hd => hst x (List.mem_cons_of_mem _ hx) hd)]
    by_cases hd : e.duplicate
    · rw [if_pos hd, getD_putUint32_frame (by omega), getD_putUint32_frame (by omega),
        getD_putUint32_frame (by omega)]
    · rw [if_neg hd,
        getD_writeBytes_frame (Or.inl (hst e (List.mem_cons_self e rest)
          (by simpa using hd))),
        getD_putUint32_frame (by omega), getD_putUint32_frame (by omega),
        getD_putUint32_frame (by omega)]

theorem getUint64_putUint32_frame {b : Bytes} {off j : Nat}
    (h : j + 8 ≤ off ∨ off + 4 ≤ j) (v : Nat) :
    getUint64 (putUint32 b off v) j = getUint64 b j := by
  unfold getUint64
  rw [getUint32_putUint32_frame (by omega), getUint32_putUint32_frame (by omega)]

theorem getUint64_putS15Fixed16_frame {b : Bytes} {off j : Nat}
    (h : j + 8 ≤ off ∨ off + 4 ≤ j) (v : ℚ) :
    getUint64 (putS15Fixed16 b off v) j = getUint64 b j := by
  unfold getUint64
  rw [getUint32_putS15Fixed16_frame (by omega), getUint32_putS15Fixed16_frame (by omega)]

@[simp] theorem length_headerBytes (p : Profile) (L n : Nat) :
    (headerBytes p L n).length = L := by
  simp [headerBytes]

theorem headerBytes_fields (p : Profile) (L n : Nat) (hL : 132 ≤ L) :
    getUint32 (headerBytes p L n) 4 = p.PreferredCMMType % 2 ^ 32 ∧
    getUint32 (headerBytes p L n) 8 = p.Version % 2 ^ 32 ∧
    getUint32 (headerBytes p L n) 12 = p.Class % 2 ^ 32 ∧
    getUint32 (headerBytes p L n) 16 = p.ColorSpace % 2 ^ 32 ∧
    getUint32 (headerBytes p L n) 20 = p.PCS % 2 ^ 32 ∧
    getUint32 (headerBytes p L n) 40 = p.PrimaryPlatform % 2 ^ 32 ∧
    getUint32 (headerBytes p L n) 48 = p.DeviceManufacturer % 2 ^ 32 ∧
    getUint32 (headerBytes p L n) 52 = p.DeviceModel % 2 ^ 32 ∧
    getUint32 (headerBytes p L n) 80 = p.Creator % 2 ^ 32 ∧
    getUint32 (headerBytes p L n) 128 = n % 2 ^ 32 := by
  unfold headerBytes
  refine ⟨?_, ?_, ?_, ?_, ?_, ?_, ?_, ?_, ?_, ?_⟩ <;>
    · repeat first
        | rw [getUint32_putUint32_frame (by omega)]
        | rw [getUint32_putS15Fixed16_frame (by omega)]
        | rw [getUint32_putUint64_frame (by omega)]
        | rw [getUint32_putDateTime_frame (by omega)]
      exact getUint32_putUint32 (by
        simp only [length_putUint32, length_putDateTime, length_putS15Fixed16,
          length_putUint64, List.length_replicate]
        omega) _

theorem headerBytes_attrs (p : Profile) (L n : Nat) (hL : 132 ≤ L) :
    getUint64 (headerBytes p L n) 56 = p.DeviceAttributes % 2 ^ 64 := by
  unfold headerBytes
  repeat first
    | rw [getUint64_putUint32_frame (by omega)]
    | rw [getUint64_putS15Fixed16_frame (by omega)]
  exact getUint64_putUint64 (by
    simp only [length_putUint32, length_putDateTime, List.length_replicate]
    omega) _

theorem headerBytes_date (p : Profile) (L n : Nat) (hL : 132 ≤ L) :
    getUint16 (headerBytes p L n) 24 = p.CreationDate.year % 2 ^ 16 ∧
    getUint16 (headerBytes p L n) 26 = p.CreationDate.month % 2 ^ 8 ∧
    getUint16 (headerBytes p L n) 28 = p.CreationDate.day % 2 ^ 8 ∧
    getUint16 (headerBytes p L n) 30 = p.CreationDate.hour % 2 ^ 8 ∧
    getUint16 (headerBytes p L n) 32 = p.CreationDate.minute % 2 ^ 8 ∧
    getUint16 (headerBytes p L n) 34 = p.CreationDate.second % 2 ^ 8 := by
  have key : ∀ j, 24 ≤ j → j + 2 ≤ 36 →
      getUint16 (headerBytes p L n) j =
      getUint16 (putDateTime (putUint32 (putUint32 (putUint32 (putUint32 (putUint32
        (putUint32 (List.replicate L 0) 0 L) 4 p.PreferredCMMType) 8 p.Version)
        12 p.Class) 16 p.ColorSpace) 20 p.PCS) 24 p.CreationDate) j := by
    intro j h1 h2
    unfold headerBytes
    rw [getUint16_putUint32_frame (by omega), getUint16_putUint32_frame (by omega),
      getUint16_putS15Fixed16_frame (by omega), getUint16_putS15Fixed16_frame (by omega),
      getUint16_putS15Fixed16_frame (by omega), getUint16_putUint64_frame (by omega),
      getUint16_putUint32_frame (by omega), getUint16_putUint32_frame (by omega),
      getUint16_putUint32_frame (by omega), getUint16_putUint32_frame (by omega)]
  have hd := @getUint16_putDateTime (putUint32 (putUint32 (putUint32 (putUint32
      (putUint32 (putUint32 (List.replicate L 0) 0 L) 4 p.PreferredCMMType) 8 p.Version)
      12 p.Class) 16 p.ColorSpace) 20 p.PCS) 24
    (by simp only [length_putUint32, List.length_replicate]; omega) p.CreationDate
  exact ⟨by rw [key 24 (by omega) (by omega)]; exact hd.1,
    by rw [key 26 (by omega) (by omega)]; exact hd.2.1,
    by rw [key 28 (by omega) (by omega)]; exact hd.2.2.1,
    by rw [key 30 (by omega) (by omega)]; exact hd.2.2.2.1,
    by rw [key 32 (by omega) (by omega)]; exact hd.2.2.2.2.1,
    by rw [key 34 (by omega) (by omega)]; exact hd.2.2.2.2.2⟩

theorem headerBytes_acsp (p : Profile) (L n : Nat) (hL : 132 ≤ L) :
    extract (headerBytes p L n) 36 40 = acspSig := by
  have hby : ∀ k, k < 4 → (headerBytes p L n).getD (36 + k) 0 =
      acspSig.getD k 0 := by
    intro k hk
    unfold headerBytes
    repeat first
      | rw [getD_putUint32_frame (by omega)]
      | rw [getD_putS15Fixed16_frame (by omega)]
      | rw [getD_putUint64_frame (by omega)]
    interval_cases k
    · rw [show (36 : Nat) + 0 = 36 from rfl,
        getD_putUint32_byte0 (by
          simp only [length_putUint32, length_putDateTime, List.length_replicate]
          omega)]
      decide
    · rw [getD_putUint32_byte1 (by
        simp only [length_putUint32, length_putDateTime, List.length_replicate]
        omega)]
      decide
    · rw [getD_putUint32_byte2 (by
        simp only [length_putUint32, length_putDateTime, List.length_replicate]
        omega)]
      decide
    · rw [getD_putUint32_byte3 (by
        simp only [length_putUint32, length_putDateTime, List.length_replicate]
        omega)]
      decide
  rw [extract_eq_map (by simp only [length_headerBytes]; omega)]
  apply List.ext_getElem (by simp [acspSig])
  intro i h1 h2
  simp only [List.length_map, List.length_range] at h1
  simp only [List.getElem_map, List.getElem_range]
  rw [hby i (by omega), List.getD_eq_getElem?_getD, List.getElem?_eq_getElem h2]
  rfl

theorem headerBytes_zeroBytes (p : Profile) (L n : Nat) :
    ∀ j, (44 ≤ j ∧ j < 48) ∨ (64 ≤ j ∧ j < 68) ∨ (84 ≤ j ∧ j < 100) →
      (headerBytes p L n).getD j 0 = 0 := by
  intro j hj
  unfold headerBytes
  repeat first
    | rw [getD_putUint32_frame (by omega)]
    | rw [getD_putS15Fixed16_frame (by omega)]
    | rw [getD_putUint64_frame (by omega)]
    | rw [getD_putDateTime_frame (by omega)]
  exact getD_replicate_zero

theorem headerBytes_zeros (p : Profile) (L n : Nat) (hL : 132 ≤ L) :
    getUint32 (headerBytes p L n) 44 = 0 ∧ getUint32 (headerBytes p L n) 64 = 0 ∧
    extract (headerBytes p L n) 84 100 = List.replicate 16 0 := by
  have hz := headerBytes_zeroBytes p L n
  refine ⟨?_, ?_, ?_⟩
  · simp only [getUint32, hz 44 (by omega), hz (44 + 1) (by omega),
      hz (44 + 2) (by omega), hz (44 + 3) (by omega)]
    omega
  · simp only [getUint32, hz 64 (by omega), hz (64 + 1) (by omega),
      hz (64 + 2) (by omega), hz (64 + 3) (by omega)]
    omega
  · rw [extract_eq_map (by simp only [length_headerBytes]; omega)]
    apply List.ext_getElem (by simp)
    intro i h1 h2
    simp only [List.length_map, List.length_range] at h1
    simp only [List.getElem_map, List.getElem_range]
    rw [hz (84 + i) (by omega), List.getElem_replicate]

theorem writeTagTable_cons (b : Bytes) (i : Nat) (e : TagEntry)
    (rest : List TagEntry) :
    writeTagTable b i (e :: rest) =
      writeTagTable (if e.duplicate then
          putUint32 (putUint32 (putUint32 b (132 + i * 12) e.tagType)
            (132 + i * 12 + 4) e.start) (132 + i * 12 + 8) e.data.length
        else writeBytes (putUint32 (putUint32 (putUint32 b (132 + i * 12) e.tagType)
            (132 + i * 12 + 4) e.start) (132 + i * 12 + 8) e.data.length)
          e.start e.data)
        (i + 1) rest := rfl

/-- The central layout lemma: writing the tag table and tag data over
the entries assigned by assignTags leaves all bytes outside the written
slots and data regions unchanged, and every entry can be read back
(table words, region bounds and region content).  The option argument
carries the invariant for the previous entry, which duplicates refer
back to. -/
theorem writeTagTable_spec (ts : List (Nat × Bytes)) :
    ∀ (b : Bytes) (i pos : Nat) (prev : Option (Bytes × Nat)),
    132 + (i + ts.length) * 12 ≤ pos →
    (assignTags ts pos prev).2 ≤ b.length →
    b.length < 2 ^ 32 →
    (∀ pd ps, prev = some (pd, ps) →
      132 + (i + ts.length) * 12 ≤ ps ∧ ps + pd.length ≤ pos ∧
      extract b ps (ps + pd.length) = pd) →
    (∀ j, j < 132 + i * 12 ∨ (132 + (i + ts.length) * 12 ≤ j ∧ j < pos) →
      (writeTagTable b i (assignTags ts pos prev).1).getD j 0 = b.getD j 0) ∧
    (∀ k, k < ts.length →
      entrySpec (writeTagTable b i (assignTags ts pos prev).1)
        (132 + (i + k) * 12) (132 + (i + ts.length) * 12)
        (assignTags ts pos prev).2
        ((assignTags ts pos prev).1.getD k ⟨0, [], 0, false⟩)) := by
  induction ts with
  | nil =>
    intro b i pos prev hpos hfin hlen hprev
    exact ⟨fun j hj => rfl, fun k hk => absurd hk (by simp)⟩
  | cons e rest ih =>
    obtain ⟨t, d⟩ := e
    intro b i pos prev hpos hfin hlen hprev
    simp only [List.length_cons] at hpos ⊢
    have fresh :
        (assignTags rest (pos + align4 d.length) (some (d, pos % 2 ^ 32))).2 ≤
          b.length →
        (∀ j, j < 132 + i * 12 ∨ (132 + (i + (rest.length + 1)) * 12 ≤ j ∧ j < pos) →
          (writeTagTable b i (⟨t, d, pos % 2 ^ 32, false⟩ ::
            (assignTags rest (pos + align4 d.length)
              (some (d, pos % 2 ^ 32))).1)).getD j 0 = b.getD j 0) ∧
        (∀ k, k < rest.length + 1 →
          entrySpec (writeTagTable b i (⟨t, d, pos % 2 ^ 32, false⟩ ::
              (assignTags rest (pos + align4 d.length)
                (some (d, pos % 2 ^ 32))).1))
            (132 + (i + k) * 12) (132 + (i + (rest.length + 1)) * 12)
            (assignTags rest (pos + align4 d.length) (some (d, pos % 2 ^ 32))).2
            ((⟨t, d, pos % 2 ^ 32, false⟩ ::
              (assignTags rest (pos + align4 d.length)
                (some (d, pos % 2 ^ 32))).1).getD k ⟨0, [], 0, false⟩)) := by
      intro hfin2
      have hmod : pos % 2 ^ 32 = pos := Nat.mod_eq_of_lt (by
        have := assignTags_pos_le rest (pos + align4 d.length) (some (d, pos % 2 ^ 32))
        omega)
      rw [hmod] at hfin2 ⊢
      have hposle : pos + align4 d.length ≤
          (assignTags rest (pos + align4 d.length) (some (d, pos))).2 :=
        assignTags_pos_le _ _ _
      have halign := le_align4 d.length
      have halign2 := align4_le d.length
      have hIH := ih (writeBytes (putUint32 (putUint32 (putUint32 b (132 + i * 12) t)
            (132 + i * 12 + 4) pos) (132 + i * 12 + 8) d.length) pos d)
          (i + 1) (pos + align4 d.length) (some (d, pos))
          (by omega)
          (by simpa using hfin2)
          (by simpa using hlen)
          (by
            rintro pd2 ps2 h
            injection h with h
            injection h with h1 h2
            subst h1
            subst h2
            refine ⟨by omega, by omega, ?_⟩
            exact extract_writeBytes (by
              simp only [length_putUint32]
              omega))
      obtain ⟨IHframe, IHentries⟩ := hIH
      rw [writeTagTable_cons]
      rw [if_neg (Bool.false_ne_true)]
      constructor
      · intro j hj
        rw [IHframe j (by omega)]
        rw [getD_writeBytes_frame (by omega)]
        rw [getD_putUint32_frame (by omega), getD_putUint32_frame (by omega),
          getD_putUint32_frame (by omega)]
      · intro k hk
        match k with
        | 0 =>
          simp only [List.getD_cons_zero, Nat.add_zero, entrySpec]
          refine ⟨?_, ?_, ?_, by omega, by omega, ?_⟩
          · rw [getUint32_congr (fun jj h1 h2 => IHframe jj (Or.inl (by omega)))]
            rw [getUint32_writeBytes_frame (by omega)]
            rw [getUint32_putUint32_frame (by omega), getUint32_putUint32_frame (by omega)]
            exact getUint32_putUint32 (by omega) t
          · rw [getUint32_congr (fun jj h1 h2 => IHframe jj (Or.inl (by omega)))]
            rw [getUint32_writeBytes_frame (by omega)]
            rw [getUint32_putUint32_frame (by omega)]
            rw [getUint32_putUint32 (by simp only [length_putUint32]; omega) pos]
            omega
          · rw [getUint32_congr (fun jj h1 h2 => IHframe jj (Or.inl (by omega)))]
            rw [getUint32_writeBytes_frame (by omega)]
            exact getUint32_putUint32 (by simp only [length_putUint32]; omega) d.length
          · have hext : extract (writeTagTable (writeBytes (putUint32 (putUint32
                (putUint32 b (132 + i * 12) t) (132 + i * 12 + 4) pos)
                (132 + i * 12 + 8) d.length) pos d) (i + 1)
                (assignTags rest (pos + align4 d.length) (some (d, pos))).1)
                pos (pos + d.length) =
                extract (writeBytes (putUint32 (putUint32 (putUint32 b (132 + i * 12) t)
                  (132 + i * 12 + 4) pos) (132 + i * 12 + 8) d.length) pos d)
                pos (pos + d.length) :=
              extract_congr
                (by simp only [length_writeTagTable, length_writeBytes, length_putUint32]; omega)
                (by simp only [length_writeBytes, length_putUint32]; omega)
                (fun jj h1 h2 => IHframe jj (Or.inr ⟨by omega, by omega⟩))
            rw [hext]
            exact extract_writeBytes (by simp only [length_putUint32]; omega)
        | k' + 1 =>
          have hk' : k' < rest.length := by omega
          have hE := IHentries k' hk'
          have e1 : i + 1 + k' = i + (k' + 1) := by omega
          have e2 : i + 1 + rest.length = i + (rest.length + 1) := by omega
          rw [e1, e2] at hE
          simpa only [List.getD_cons_succ] using hE
    cases prev with
    | none =>
      simp only [assignTags]
      simp only [assignTags] at hfin
      exact fresh hfin
    | some pr =>
      obtain ⟨pd, ps⟩ := pr
      by_cases hd : d = pd
      · -- duplicate entry: reuse the previous entry's start
        obtain ⟨hps1, hps2, hps3⟩ := hprev pd ps rfl
        simp only [List.length_cons] at hps1
        simp only [assignTags, if_pos hd]
        simp only [assignTags, if_pos hd] at hfin
        subst hd
        have hposle : pos ≤ (assignTags rest pos (some (d, ps))).2 :=
          assignTags_pos_le _ _ _
        have hIH := ih (putUint32 (putUint32 (putUint32 b (132 + i * 12) t)
              (132 + i * 12 + 4) ps) (132 + i * 12 + 8) d.length)
            (i + 1) pos (some (d, ps))
            (by omega)
            (by simpa using hfin)
            (by simpa using hlen)
            (by
              rintro pd2 ps2 h
              injection h with h
              injection h with h1 h2
              subst h1
              subst h2
              refine ⟨by omega, by omega, ?_⟩
              have hex2 : extract (putUint32 (putUint32 (putUint32 b (132 + i * 12) t)
                  (132 + i * 12 + 4) ps) (132 + i * 12 + 8) d.length) ps
                  (ps + d.length) = extract b ps (ps + d.length) :=
                extract_congr (by simp only [length_putUint32]; omega) (by omega)
                  (fun jj h1 h2 => by
                    rw [getD_putUint32_frame (by omega), getD_putUint32_frame (by omega),
                      getD_putUint32_frame (by omega)])
              rw [hex2]
              exact hps3)
        obtain ⟨IHframe, IHentries⟩ := hIH
        rw [writeTagTable_cons]
        rw [if_pos (rfl)]
        constructor
        · intro j hj
          rw [IHframe j (by omega)]
          rw [getD_putUint32_frame (by omega), getD_putUint32_frame (by omega),
            getD_putUint32_frame (by omega)]
        · intro k hk
          match k with
          | 0 =>
            simp only [List.getD_cons_zero, Nat.add_zero, entrySpec]
            refine ⟨?_, ?_, ?_, by omega, by omega, ?_⟩
            · rw [getUint32_congr (fun jj h1 h2 => IHframe jj (Or.inl (by omega)))]
              rw [getUint32_putUint32_frame (by omega), getUint32_putUint32_frame (by omega)]
              exact getUint32_putUint32 (by omega) t
            · rw [getUint32_congr (fun jj h1 h2 => IHframe jj (Or.inl (by omega)))]
              rw [getUint32_putUint32_frame (by omega)]
              rw [getUint32_putUint32 (by simp only [length_putUint32]; omega) ps]
              omega
            · rw [getUint32_congr (fun jj h1 h2 => IHframe jj (Or.inl (by omega)))]
              exact getUint32_putUint32 (by simp only [length_putUint32]; omega) d.length
            · have hext : extract (writeTagTable (putUint32 (putUint32
                  (putUint32 b (132 + i * 12) t) (132 + i * 12 + 4) ps)
                  (132 + i * 12 + 8) d.length) (i + 1)
                  (assignTags rest pos (some (d, ps))).1)
                  ps (ps + d.length) =
                  extract (putUint32 (putUint32 (putUint32 b (132 + i * 12) t)
                    (132 + i * 12 + 4) ps) (132 + i * 12 + 8) d.length)
                  ps (ps + d.length) :=
                extract_congr
                  (by simp only [length_writeTagTable, length_putUint32]; omega)
                  (by simp only [length_putUint32]; omega)
                  (fun jj h1 h2 => IHframe jj (Or.inr ⟨by omega, by omega⟩))
              rw [hext]
              have hex2 : extract (putUint32 (putUint32 (putUint32 b (132 + i * 12) t)
                  (132 + i * 12 + 4) ps) (132 + i * 12 + 8) d.length) ps
                  (ps + d.length) = extract b ps (ps + d.length) :=
                extract_congr (by simp only [length_putUint32]; omega) (by omega)
                  (fun jj h1 h2 => by
                    rw [getD_putUint32_frame (by omega), getD_putUint32_frame (by omega),
                      getD_putUint32_frame (by omega)])
              rw [hex2]
              exact hps3
          | k' + 1 =>
            have hk' : k' < rest.length := by omega
            have hE := IHentries k' hk'
            have e1 : i + 1 + k' = i + (k' + 1) := by omega
            have e2 : i + 1 + rest.length = i + (rest.length + 1) := by omega
            rw [e1, e2] at hE
            simpa only [List.getD_cons_succ] using hE
      · simp only [assignTags, if_neg hd]
        simp only [assignTags, if_neg hd] at hfin
        exact fresh hfin

/-! ## Association-list facts for the tag map -/

theorem setTag_append {l : List (Nat × Bytes)} {k : Nat} (v : Bytes)
    (h : k ∉ l.map Prod.fst) : setTag l k v = l ++ [(k, v)] := by
  induction l with
  | nil => rfl
  | cons e rest ih =>
    obtain ⟨k1, v1⟩ := e
    simp only [List.map_cons, List.mem_cons] at h
    push_neg at h
    simp only [setTag, if_neg (Ne.symm h.1)]
    rw [ih h.2]
    rfl

theorem lookupTag_eq_none_iff {l : List (Nat × Bytes)} {k : Nat} :
    lookupTag l k = none ↔ k ∉ l.map Prod.fst := by
  induction l with
  | nil => simp [lookupTag]
  | cons e rest ih =>
    obtain ⟨k1, v1⟩ := e
    by_cases h : k1 = k
    · subst h
      simp [lookupTag]
    · simp only [lookupTag, if_neg h, List.map_cons, List.mem_cons, ih]
      constructor
      · intro h2
        push_neg
        exact ⟨fun he => h he.symm, h2⟩
      · intro h2
        push_neg at h2
        exact h2.2

theorem mem_of_lookupTag {l : List (Nat × Bytes)} {k : Nat} {v : Bytes}
    (h : lookupTag l k = some v) : (k, v) ∈ l := by
  induction l with
  | nil => simp [lookupTag] at h
  | cons e rest ih =>
    obtain ⟨k1, v1⟩ := e
    by_cases he : k1 = k
    · subst he
      rw [lookupTag, if_pos rfl] at h
      injection h with h
      subst h
      exact List.mem_cons_self _ _
    · rw [lookupTag, if_neg he] at h
      exact List.mem_cons_of_mem _ (ih h)

theorem lookupTag_mem {l : List (Nat × Bytes)} {k : Nat} {v : Bytes}
    (hnd : (l.map Prod.fst).Nodup) (h : (k, v) ∈ l) : lookupTag l k = some v := by
  induction l with
  | nil => simp at h
  | cons e rest ih =>
    obtain ⟨k1, v1⟩ := e
    simp only [List.map_cons, List.nodup_cons] at hnd
    rcases List.mem_cons.mp h with h1 | h1
    · injection h1 with h1a h1b
      subst h1a
      subst h1b
      rw [lookupTag, if_pos rfl]
    · have hne : k1 ≠ k := by
        intro he
        subst he
        exact hnd.1 (by
          have : (k1, v) ∈ rest := h1
          exact List.mem_map_of_mem Prod.fst this)
      rw [lookupTag, if_neg hne]
      exact ih hnd.2 h1

/-- Two enumerations of the same tag map (permutations with distinct
keys) are extensionally equal under lookup. -/
theorem lookupTag_perm {l1 l2 : List (Nat × Bytes)} (hp : l1.Perm l2)
    (hnd : (l1.map Prod.fst).Nodup) (k : Nat) :
    lookupTag l1 k = lookupTag l2 k := by
  cases hl : lookupTag l1 k with
  | some v =>
    exact (lookupTag_mem ((hp.map Prod.fst).nodup_iff.mp hnd)
      (hp.subset (mem_of_lookupTag hl))).symm
  | none =>
    refine (lookupTag_eq_none_iff.mpr ?_).symm
    intro hmem
    exact lookupTag_eq_none_iff.mp hl ((hp.map Prod.fst).symm.subset hmem)

theorem not_mem_take_of_nodup {α : Type} {l : List α} (hnd : l.Nodup) {i : Nat}
    (hi : i < l.length) : l[i] ∉ l.take i := by
  intro hmem
  obtain ⟨j, hj, hje⟩ := List.getElem_of_mem hmem
  rw [List.getElem_take] at hje
  have hj2 : j < l.length := by simp at hj; omega
  have : j = i := hnd.getElem_inj_iff.mp hje
  simp at hj
  omega

/-- The tag-reading loop succeeds and returns the table's pairs in table
order when every entry satisfies the decoder's checks and the keys are
distinct. -/
theorem readTags_ok (X : Bytes) (pairs : List (Nat × Bytes))
    (hkeys : (pairs.map Prod.fst).Nodup)
    (hfacts : ∀ k, k < pairs.length → ∃ st,
      getUint32 X (132 + k * 12) = (pairs.getD k (0, [])).1 ∧
      getUint32 X (132 + k * 12 + 4) = st ∧
      getUint32 X (132 + k * 12 + 8) = (pairs.getD k (0, [])).2.length ∧
      132 + pairs.length * 12 ≤ st ∧
      st + (pairs.getD k (0, [])).2.length ≤ X.length ∧
      extract X st (st + (pairs.getD k (0, [])).2.length) = (pairs.getD k (0, [])).2 ∧
      4 ≤ (pairs.getD k (0, [])).2.length ∧
      (pairs.getD k (0, [])).2.length ≤ 0xFFFFFFFC) :
    ∀ (rem i : Nat), i + rem = pairs.length →
      readTags X (132 + pairs.length * 12) rem i (pairs.take i) = .ok pairs := by
  intro rem
  induction rem with
  | zero =>
    intro i hi
    rw [readTags]
    rw [show i = pairs.length from by omega, List.take_length]
  | succ rem ih =>
    intro i hi
    have hilt : i < pairs.length := by omega
    obtain ⟨st, f1, f2, f3, f4, f5, f6, f7, f8⟩ := hfacts i hilt
    rw [readTags]
    rw [show (128 : Nat) + 4 = 132 from rfl]
    rw [f1, f2, f3]
    rw [if_neg (by omega), if_neg (by omega), if_neg (by
      push_neg
      exact ⟨by omega, by omega⟩)]
    rw [f6]
    have hgd : pairs.getD i (0, []) = pairs[i] := by
      rw [List.getD_eq_getElem?_getD, List.getElem?_eq_getElem hilt]
      rfl
    have hset : setTag (pairs.take i) (pairs.getD i (0, [])).1
        (pairs.getD i (0, [])).2 = pairs.take (i + 1) := by
      rw [hgd]
      have hnm : (pairs[i]).1 ∉ (pairs.take i).map Prod.fst := by
        have h1 := not_mem_take_of_nodup hkeys
          (show i < (pairs.map Prod.fst).length from by simpa using hilt)
        rw [List.getElem_map] at h1
        rw [← List.map_take] at h1
        exact h1
      rw [setTag_append _ hnm, List.take_succ, List.getElem?_eq_getElem hilt]
      rfl
    rw [hset]
    exact ih (i + 1) (by omega)

/-! ## Calendar facts: time.Date normalisation produces canonical dates,
and is the identity on canonical dates. -/

theorem daysInYear_ge (y : Nat) : 365 ≤ daysInYear y := by
  unfold daysInYear
  split <;> omega

theorem daysInMonth_le (y m : Nat) : daysInMonth y m ≤ 31 := by
  unfold daysInMonth
  split
  · split <;> omega
  · split <;> omega

theorem daysInMonth_pos (y m : Nat) : 1 ≤ daysInMonth y m := by
  unfold daysInMonth
  split
  · split <;> omega
  · split <;> omega

theorem daysBeforeYear_succ (y : Nat) (h : 1 ≤ y) :
    daysBeforeYear y = daysBeforeYear (y - 1) + daysInYear y := by
  obtain ⟨y2, rfl⟩ : ∃ y2, y = y2 + 1 := ⟨y - 1, by omega⟩
  simp [daysBeforeYear]

theorem daysBeforeYear_mono {a b : Nat} (h : a ≤ b) :
    daysBeforeYear a ≤ daysBeforeYear b := by
  induction b with
  | zero =>
    rw [show a = 0 from by omega]
  | succ b ih =>
    rcases Nat.lt_or_ge a (b + 1) with h2 | h2
    · have h3 := ih (by omega)
      rw [daysBeforeYear]
      omega
    · rw [show a = b + 1 from by omega]

theorem daysBeforeMonth_succ (y m : Nat) (h : 1 ≤ m) :
    daysBeforeMonth y (m + 1) = daysBeforeMonth y m + daysInMonth y m := by
  obtain ⟨m2, rfl⟩ : ∃ m2, m = m2 + 1 := ⟨m - 1, by omega⟩
  rfl

theorem daysBeforeMonth_mono (y : Nat) {a b : Nat} (ha : 1 ≤ a) (hab : a ≤ b) :
    daysBeforeMonth y a ≤ daysBeforeMonth y b := by
  induction b with
  | zero => omega
  | succ b ih =>
    rcases Nat.lt_or_ge a (b + 1) with h2 | h2
    · have h3 := ih (by omega)
      rw [daysBeforeMonth_succ y b (by omega)]
      omega
    · rw [show a = b + 1 from by omega]

theorem daysBeforeMonth_year (y : Nat) :
    daysBeforeMonth y 12 + daysInMonth y 12 = daysInYear y := by
  by_cases hL : isLeap y <;>
    simp [daysBeforeMonth, daysInMonth, daysInYear, hL]

theorem daysBeforeMonth_12_le (y : Nat) : daysBeforeMonth y 12 ≤ 335 := by
  have h1 := daysBeforeMonth_year y
  have h2 : daysInMonth y 12 = 31 := rfl
  have h3 : daysInYear y ≤ 366 := by unfold daysInYear; split <;> omega
  omega

theorem daysBeforeMonth_add_le (y m : Nat) (h1 : 1 ≤ m) (h2 : m ≤ 12) :
    daysBeforeMonth y m + daysInMonth y m ≤ daysInYear y := by
  rcases Nat.lt_or_ge m 12 with h | h
  · have hs := daysBeforeMonth_succ y m h1
    have hmono := daysBeforeMonth_mono y (show 1 ≤ m + 1 by omega)
      (show m + 1 ≤ 12 by omega)
    have hy := daysBeforeMonth_year y
    have hp := daysInMonth_pos y 12
    omega
  · rw [show m = 12 from by omega]
    have := daysBeforeMonth_year y
    omega

theorem findYear_spec : ∀ (fuel y n : Nat), 1 ≤ y → n < fuel → ∀ Y r,
    findYear fuel y n = (Y, r) →
    1 ≤ Y ∧ y ≤ Y ∧ r < daysInYear Y ∧
    daysBeforeYear (Y - 1) + r = daysBeforeYear (y - 1) + n
  | 0, y, n, hy, hf => absurd hf (by omega)
  | fuel + 1, y, n, hy, hf => by
    intro Y r heq
    rw [findYear] at heq
    by_cases h : n < daysInYear y
    · rw [if_pos h] at heq
      injection heq with h1 h2
      subst h1
      subst h2
      exact ⟨hy, le_refl _, h, rfl⟩
    · rw [if_neg h] at heq
      have h365 := daysInYear_ge y
      have hrec := findYear_spec fuel (y + 1) (n - daysInYear y) (by omega)
        (by omega) Y r heq
      obtain ⟨r1, r2, r3, r4⟩ := hrec
      simp only [Nat.add_sub_cancel] at r4
      have hs := daysBeforeYear_succ y hy
      exact ⟨r1, by omega, r3, by omega⟩

theorem findMonth_spec : ∀ (fuel m n y : Nat), 1 ≤ m → m ≤ 12 → 12 ≤ m + fuel →
    daysBeforeMonth y m + n < daysInYear y → ∀ M r,
    findMonth y fuel m n = (M, r) →
    1 ≤ M ∧ M ≤ 12 ∧ r < daysInMonth y M ∧
    daysBeforeMonth y M + r = daysBeforeMonth y m + n
  | 0, m, n, y, h1, h2, h3, h4 => by
    intro M r heq
    rw [findMonth] at heq
    injection heq with he1 he2
    subst he1
    subst he2
    have hm : m = 12 := by omega
    subst hm
    have := daysBeforeMonth_year y
    exact ⟨by omega, by omega, by omega, rfl⟩
  | fuel + 1, m, n, y, h1, h2, h3, h4 => by
    intro M r heq
    rw [findMonth] at heq
    by_cases h : n < daysInMonth y m
    · rw [if_pos h] at heq
      injection heq with he1 he2
      subst he1
      subst he2
      exact ⟨h1, h2, h, rfl⟩
    · rw [if_neg h] at heq
      have hm12 : m ≠ 12 := by
        intro he
        subst he
        have := daysBeforeMonth_year y
        omega
      have hsucc := daysBeforeMonth_succ y m h1
      have hrec := findMonth_spec fuel (m + 1) (n - daysInMonth y m) y (by omega)
        (by omega) (by omega) (by omega) M r heq
      obtain ⟨r1, r2, r3, r4⟩ := hrec
      exact ⟨r1, r2, r3, by omega⟩

theorem civilFromDays_spec (n : Nat) : ∀ y m d, civilFromDays n = (y, m, d) →
    1 ≤ y ∧ 1 ≤ m ∧ m ≤ 12 ∧ 1 ≤ d ∧ d ≤ daysInMonth y m ∧
    daysBeforeYear (y - 1) + daysBeforeMonth y m + (d - 1) = n := by
  intro y m d heq
  unfold civilFromDays at heq
  rcases hY : findYear (n + 1) 1 n with ⟨cY, r2⟩
  rw [hY] at heq
  dsimp only at heq
  have hys := findYear_spec (n + 1) 1 n (by omega) (by omega) cY r2 hY
  obtain ⟨y1, y2, y3, y4⟩ := hys
  rcases hM : findMonth cY 12 1 r2 with ⟨cM, r3⟩
  rw [hM] at heq
  dsimp only at heq
  have hbm1 : daysBeforeMonth cY 1 = 0 := rfl
  have hms := findMonth_spec 12 1 r2 cY (by omega) (by omega) (by omega)
    (by omega) cM r3 hM
  obtain ⟨m1, m2, m3, m4⟩ := hms
  injection heq with he1 he2
  injection he2 with he2 he3
  subst he1
  subst he2
  subst he3
  have h0 : daysBeforeYear (1 - 1) = 0 := rfl
  refine ⟨y1, m1, m2, by omega, by omega, by omega⟩

theorem year_unique {y1 r1 y2 r2 : Nat} (h1 : 1 ≤ y1) (h2 : 1 ≤ y2)
    (hr1 : r1 < daysInYear y1) (hr2 : r2 < daysInYear y2)
    (he : daysBeforeYear (y1 - 1) + r1 = daysBeforeYear (y2 - 1) + r2) :
    y1 = y2 ∧ r1 = r2 := by
  rcases Nat.lt_trichotomy y1 y2 with h | h | h
  · exfalso
    have hs := daysBeforeYear_succ y1 h1
    have hmono := daysBeforeYear_mono (show y1 ≤ y2 - 1 from by omega)
    omega
  · subst h
    omega
  · exfalso
    have hs := daysBeforeYear_succ y2 h2
    have hmono := daysBeforeYear_mono (show y2 ≤ y1 - 1 from by omega)
    omega

theorem month_unique (y : Nat) {m1 d1 m2 d2 : Nat}
    (hm1 : 1 ≤ m1) (hm12 : m1 ≤ 12) (hd1 : d1 < daysInMonth y m1)
    (hm2 : 1 ≤ m2) (hm22 : m2 ≤ 12) (hd2 : d2 < daysInMonth y m2)
    (he : daysBeforeMonth y m1 + d1 = daysBeforeMonth y m2 + d2) :
    m1 = m2 ∧ d1 = d2 := by
  rcases Nat.lt_trichotomy m1 m2 with h | h | h
  · exfalso
    have hs := daysBeforeMonth_succ y m1 hm1
    have hmono := daysBeforeMonth_mono y (show 1 ≤ m1 + 1 from by omega)
      (show m1 + 1 ≤ m2 from by omega)
    omega
  · subst h
    omega
  · exfalso
    have hs := daysBeforeMonth_succ y m2 hm2
    have hmono := daysBeforeMonth_mono y (show 1 ≤ m2 + 1 from by omega)
      (show m2 + 1 ≤ m1 from by omega)
    omega

/-- time.Date is the identity on canonical calendar tuples. -/
theorem timeDate_fixed (y mo d h mi s : Nat) (hy : 1 ≤ y) (hmo1 : 1 ≤ mo)
    (hmo2 : mo ≤ 12) (hd1 : 1 ≤ d) (hd2 : d ≤ daysInMonth y mo) (hh : h ≤ 23)
    (hmi : mi ≤ 59) (hs : s ≤ 59) :
    timeDate y mo d h mi s = ⟨y, mo, d, h, mi, s⟩ := by
  have hex : (h * 3600 + mi * 60 + s) / 86400 = 0 := Nat.div_eq_of_lt (by omega)
  have hre : (h * 3600 + mi * 60 + s) % 86400 = h * 3600 + mi * 60 + s :=
    Nat.mod_eq_of_lt (by omega)
  simp only [timeDate, hex, hre, Nat.add_zero]
  rcases hcq : civilFromDays (daysBeforeYear (y - 1) + daysBeforeMonth y mo + (d - 1))
    with ⟨cY, cM, cD⟩
  obtain ⟨s1, s2, s3, s4, s5, s6⟩ :=
    civilFromDays_spec (daysBeforeYear (y - 1) + daysBeforeMonth y mo + (d - 1))
      cY cM cD hcq
  have haddc := daysBeforeMonth_add_le cY cM s2 s3
  have haddy := daysBeforeMonth_add_le y mo hmo1 hmo2
  have hyu := year_unique s1 hy
    (show daysBeforeMonth cY cM + (cD - 1) < daysInYear cY from by omega)
    (show daysBeforeMonth y mo + (d - 1) < daysInYear y from by omega)
    (by omega)
  obtain ⟨hYe, hre2⟩ := hyu
  subst hYe
  have hmu := month_unique cY s2 s3 (show cD - 1 < daysInMonth cY cM from by omega)
    hmo1 hmo2 (show d - 1 < daysInMonth cY mo from by omega) (by omega)
  obtain ⟨hMe, hDe⟩ := hmu
  subst hMe
  have hcd : cD = d := by omega
  subst hcd
  have c1 : (h * 3600 + mi * 60 + s) / 3600 = h := by omega
  have c2 : (h * 3600 + mi * 60 + s) % 3600 = mi * 60 + s := by omega
  have c3 : (mi * 60 + s) / 60 = mi := by omega
  have c4 : (h * 3600 + mi * 60 + s) % 60 = s := by omega
  rw [c1, c2, c3, c4] <;> rfl

/-- time.Date output is canonical, and normalisation moves the year
forward by at most one. -/
theorem timeDate_canon (y mo d h mi s : Nat) (hy : 1 ≤ y) (hmo1 : 1 ≤ mo)
    (hmo2 : mo ≤ 12) (hd1 : 1 ≤ d) (hd2 : d ≤ 31) (hh : h ≤ 23) (hmi : mi ≤ 59)
    (hs : s ≤ 61) :
    CanonTime (timeDate y mo d h mi s) ∧ y ≤ (timeDate y mo d h mi s).year ∧
    (timeDate y mo d h mi s).year ≤ y + 1 := by
  simp only [timeDate]
  rcases hcq : civilFromDays (daysBeforeYear (y - 1) + daysBeforeMonth y mo + (d - 1) +
      (h * 3600 + mi * 60 + s) / 86400) with ⟨cY, cM, cD⟩
  obtain ⟨s1, s2, s3, s4, s5, s6⟩ :=
    civilFromDays_spec (daysBeforeYear (y - 1) + daysBeforeMonth y mo + (d - 1) +
      (h * 3600 + mi * 60 + s) / 86400) cY cM cD hcq
  have haddc := daysBeforeMonth_add_le cY cM s2 s3
  have hex : (h * 3600 + mi * 60 + s) / 86400 ≤ 1 := by omega
  have hyle : y ≤ cY := by
    by_contra hcon
    push_neg at hcon
    have hsy := daysBeforeYear_succ cY s1
    have hmono := daysBeforeYear_mono (show cY ≤ y - 1 from by omega)
    omega
  have hyge : cY ≤ y + 1 := by
    by_contra hcon
    push_neg at hcon
    have hs1 := daysBeforeYear_succ (y + 1) (by omega)
    simp only [Nat.add_sub_cancel] at hs1
    have hs2 := daysBeforeYear_succ y hy
    have hmono := daysBeforeYear_mono (show y + 1 ≤ cY - 1 from by omega)
    have hdg1 := daysInYear_ge y
    have hdg2 := daysInYear_ge (y + 1)
    have hbm := daysBeforeMonth_mono y hmo1 hmo2
    have hbm12 := daysBeforeMonth_12_le y
    omega
  refine ⟨⟨s2, s3, s4, s5, ?_, ?_, ?_⟩, hyle, hyge⟩
  · show (h * 3600 + mi * 60 + s) % 86400 / 3600 ≤ 23
    omega
  · show (h * 3600 + mi * 60 + s) % 86400 % 3600 / 60 ≤ 59
    omega
  · show (h * 3600 + mi * 60 + s) % 86400 % 60 ≤ 59
    omega

/-- The shape of every getDateTime result. -/
theorem getDateTime_DateOK (data : Bytes) (off : Nat) :
    DateOK (getDateTime data off) := by
  simp only [getDateTime]
  split
  · exact Or.inl rfl
  · rename_i hcond
    push_neg at hcond
    obtain ⟨c1, c2, c3, c4, c5, c6, c7, c8, c9⟩ := hcond
    have hc := timeDate_canon (getUint16 data off) (getUint16 data (off + 2))
      (getUint16 data (off + 4)) (getUint16 data (off + 6)) (getUint16 data (off + 8))
      (getUint16 data (off + 10)) (by omega) (by omega) (by omega) (by omega)
      (by omega) (by omega) (by omega) (by omega)
    exact Or.inr ⟨hc.1, by omega, by omega⟩

/-- Reading a stored canonical date back: the decoder validation turns a
year past 3000 (only 3001 is reachable) into the zero time and is the
identity otherwise. -/
theorem getDateTime_of_fields {W : Bytes} {off : Nat} {t : GoTime}
    (hy : getUint16 W off = t.year % 2 ^ 16)
    (hmo : getUint16 W (off + 2) = t.month % 2 ^ 8)
    (hd : getUint16 W (off + 4) = t.day % 2 ^ 8)
    (hh : getUint16 W (off + 6) = t.hour % 2 ^ 8)
    (hmi : getUint16 W (off + 8) = t.minute % 2 ^ 8)
    (hs : getUint16 W (off + 10) = t.second % 2 ^ 8)
    (hok : DateOK t) :
    getDateTime W off = if t.year ≤ 3000 then t else zeroTime := by
  rcases hok with hz | ⟨hc, h1970, h3001⟩
  · subst hz
    rw [if_pos (by norm_num [zeroTime])]
    simp only [getDateTime]
    rw [hy, hmo, hd, hh, hmi, hs]
    norm_num [zeroTime]
  · obtain ⟨y, mo, d, h, mi, s⟩ := t
    obtain ⟨c1, c2, c3, c4, c5, c6, c7⟩ := hc
    simp only at c1 c2 c3 c4 c5 c6 c7 h1970 h3001
    have hdm := daysInMonth_le y mo
    simp only [getDateTime]
    rw [hy, hmo, hd, hh, hmi, hs]
    have e1 : y % 2 ^ 16 = y := Nat.mod_eq_of_lt (by omega)
    have e2 : mo % 2 ^ 8 = mo := Nat.mod_eq_of_lt (by omega)
    have e3 : d % 2 ^ 8 = d := Nat.mod_eq_of_lt (by omega)
    have e4 : h % 2 ^ 8 = h := Nat.mod_eq_of_lt (by omega)
    have e5 : mi % 2 ^ 8 = mi := Nat.mod_eq_of_lt (by omega)
    have e6 : s % 2 ^ 8 = s := Nat.mod_eq_of_lt (by omega)
    rw [e1, e2, e3, e4, e5, e6]
    by_cases hy3 : y ≤ 3000
    · rw [if_pos hy3, if_neg (by push_neg; exact ⟨by omega, by omega, by omega,
        by omega, by omega, by omega, by omega, by omega, by omega⟩)]
      exact timeDate_fixed y mo d h mi s (by omega) c1 c2 c3 c4 c5 c6 c7
    · rw [if_neg hy3, if_pos (Or.inr (Or.inl (by omega)))]

/-! ## The master encode/decode analysis -/

set_option maxHeartbeats 1600000 in
/-- Decoding a buffer of the shape Profile.Encode produces: the header
fields, creation date, tag map (in sorted order) and profile ID read
back exactly.  The buffer is parameterised over the 16 bytes written to
the profile ID field, so the same lemma covers the version-4 digest and
the all-zero field of older versions. -/
theorem decode_of_encoded (md5 : Bytes → Bytes) (p : Profile) (dig hdr buf : Bytes)
    (hdig : dig.length = 16)
    (hhdr : hdr = encodeHeaderTags p)
    (hbuf : buf = putUint32 (putUint32 (writeBytes hdr 84 dig) 44 p.Flags) 64
      p.RenderingIntent)
    (hwf : ProfileWF p) (hsize : encodedSize p < 2 ^ 32) :
    Decode md5 buf = .ok
      { PreferredCMMType := p.PreferredCMMType
        Version := p.Version
        Class := p.Class
        ColorSpace := p.ColorSpace
        PCS := p.PCS
        CreationDate := if p.CreationDate.year ≤ 3000 then p.CreationDate else zeroTime
        PrimaryPlatform := p.PrimaryPlatform
        Flags := p.Flags
        DeviceManufacturer := p.DeviceManufacturer
        DeviceModel := p.DeviceModel
        DeviceAttributes := p.DeviceAttributes
        RenderingIntent := p.RenderingIntent
        Creator := p.Creator
        CheckSum := if isZero dig then CheckSum.Missing
          else if md5 hdr = dig then CheckSum.Valid else CheckSum.Invalid
        TagData := sortTags p.TagData } ∧
    buf.length = encodedSize p ∧
    extract buf 84 100 = dig ∧
    zeroIDFields buf = hdr ∧
    getUint32 buf 44 = p.Flags ∧
    getUint32 buf 64 = p.RenderingIntent := by
  obtain ⟨wv0, wvlt, w3, w4, w5, w6, w7, w8, w9, w10, w11, w12, w13, wdate,
    wkeys, wtags⟩ := hwf
  set ts := sortTags p.TagData with hts
  set pos0 := 128 + 4 + ts.length * 12 with hpos0def
  set R := assignTags ts pos0 none with hRdef
  set HB := headerBytes p R.2 ts.length with hHBdef
  have hperm : ts.Perm p.TagData := List.perm_insertionSort tagLe p.TagData
  have hkeys2 : (ts.map Prod.fst).Nodup := ((hperm.map Prod.fst).nodup_iff).mpr wkeys
  have htmem : ∀ e ∈ ts, e.1 < 2 ^ 32 ∧ 4 ≤ e.2.length ∧
      e.2.length ≤ 0xFFFFFFFC := fun e he => wtags e (hperm.subset he)
  have henc : encodedSize p = R.2 := rfl
  have hposle : pos0 ≤ R.2 := assignTags_pos_le ts pos0 none
  have hLlt : R.2 < 2 ^ 32 := by rw [← henc]; exact hsize
  have hhdr2 : hdr = writeTagTable HB 0 R.1 := by rw [hhdr]; rfl
  have hHBlen : HB.length = R.2 := by rw [hHBdef]; exact length_headerBytes p R.2 ts.length
  have hW := writeTagTable_spec ts HB 0 pos0 none (by omega)
    (by rw [hHBlen]) (by rw [hHBlen]; exact hLlt)
    (fun pd ps h => nomatch h)
  obtain ⟨Wfr, Wen⟩ := hW
  simp only [Nat.zero_add] at Wfr Wen
  have hhdrlen : hdr.length = R.2 := by
    rw [hhdr2, length_writeTagTable, hHBlen]
  have h132 : 132 ≤ R.2 := by omega
  have hdrF := headerBytes_fields p R.2 ts.length h132
  have hdrD := headerBytes_date p R.2 ts.length h132
  have hdrA := headerBytes_attrs p R.2 ts.length h132
  have hdrAcsp := headerBytes_acsp p R.2 ts.length h132
  have hdrZb := headerBytes_zeroBytes p R.2 ts.length
  have hlow : ∀ j, j < 132 → hdr.getD j 0 = HB.getD j 0 := by
    intro j hj
    rw [hhdr2]
    exact Wfr j (Or.inl (by omega))
  have hdr32 : ∀ off, off + 4 ≤ 132 → getUint32 hdr off = getUint32 HB off :=
    fun off ho => getUint32_congr (fun j h1 h2 => hlow j (by omega))
  have hdr16 : ∀ off, off + 2 ≤ 132 → getUint16 hdr off = getUint16 HB off :=
    fun off ho => getUint16_congr (fun j h1 h2 => hlow j (by omega))
  -- bytes of buf outside the flags, intent and ID fields agree with hdr
  have hbufD : ∀ j, j < 44 ∨ (48 ≤ j ∧ j < 64) ∨ (68 ≤ j ∧ j < 84) ∨ 100 ≤ j →
      buf.getD j 0 = hdr.getD j 0 := by
    intro j hj
    rw [hbuf, getD_putUint32_frame (by omega), getD_putUint32_frame (by omega),
      getD_writeBytes_frame (by rw [hdig]; omega)]
  have hbuflen : buf.length = R.2 := by
    rw [hbuf]
    simp only [length_putUint32, length_writeBytes]
    exact hhdrlen
  have hbuf32 : ∀ off, off + 4 ≤ 44 ∨ (48 ≤ off ∧ off + 4 ≤ 64) ∨
      (68 ≤ off ∧ off + 4 ≤ 84) ∨ 100 ≤ off →
      getUint32 buf off = getUint32 hdr off :=
    fun off ho => getUint32_congr (fun j h1 h2 => hbufD j (by omega))
  have hbuf16 : ∀ off, off + 2 ≤ 44 →
      getUint16 buf off = getUint16 hdr off :=
    fun off ho => getUint16_congr (fun j h1 h2 => hbufD j (Or.inl (by omega)))
  -- header field read-backs on buf
  have f4 : getUint32 buf 4 = p.PreferredCMMType := by
    rw [hbuf32 4 (by omega), hdr32 4 (by omega), hdrF.1]
    exact Nat.mod_eq_of_lt w3
  have f8 : getUint32 buf 8 = p.Version := by
    rw [hbuf32 8 (by omega), hdr32 8 (by omega), hdrF.2.1]
    exact Nat.mod_eq_of_lt wvlt
  have f12 : getUint32 buf 12 = p.Class := by
    rw [hbuf32 12 (by omega), hdr32 12 (by omega), hdrF.2.2.1]
    exact Nat.mod_eq_of_lt w4
  have f16 : getUint32 buf 16 = p.ColorSpace := by
    rw [hbuf32 16 (by omega), hdr32 16 (by omega), hdrF.2.2.2.1]
    exact Nat.mod_eq_of_lt w5
  have f20 : getUint32 buf 20 = p.PCS := by
    rw [hbuf32 20 (by omega), hdr32 20 (by omega), hdrF.2.2.2.2.1]
    exact Nat.mod_eq_of_lt w6
  have f40 : getUint32 buf 40 = p.PrimaryPlatform := by
    rw [hbuf32 40 (by omega), hdr32 40 (by omega), hdrF.2.2.2.2.2.1]
    exact Nat.mod_eq_of_lt w7
  have f48 : getUint32 buf 48 = p.DeviceManufacturer := by
    rw [hbuf32 48 (by omega), hdr32 48 (by omega), hdrF.2.2.2.2.2.2.1]
    exact Nat.mod_eq_of_lt w9
  have f52 : getUint32 buf 52 = p.DeviceModel := by
    rw [hbuf32 52 (by omega), hdr32 52 (by omega), hdrF.2.2.2.2.2.2.2.1]
    exact Nat.mod_eq_of_lt w10
  have f80 : getUint32 buf 80 = p.Creator := by
    rw [hbuf32 80 (by omega), hdr32 80 (by omega), hdrF.2.2.2.2.2.2.2.2.1]
    exact Nat.mod_eq_of_lt w13
  have hnlt : ts.length < 2 ^ 32 := by omega
  have hn : getUint32 buf 128 = ts.length := by
    rw [hbuf32 128 (by omega), hdr32 128 (by omega), hdrF.2.2.2.2.2.2.2.2.2]
    exact Nat.mod_eq_of_lt hnlt
  have f56 : getUint64 buf 56 = p.DeviceAttributes := by
    have h1 : getUint64 buf 56 = getUint64 hdr 56 := by
      unfold getUint64
      rw [hbuf32 56 (by omega), hbuf32 60 (by omega)]
    have h2 : getUint64 hdr 56 = getUint64 HB 56 := by
      unfold getUint64
      rw [hdr32 56 (by omega), hdr32 60 (by omega)]
    rw [h1, h2, hdrA]
    exact Nat.mod_eq_of_lt w11
  have f44 : getUint32 buf 44 = p.Flags := by
    rw [hbuf, getUint32_putUint32_frame (by omega),
      getUint32_putUint32 (by
        simp only [length_putUint32, length_writeBytes]
        omega) p.Flags]
    exact Nat.mod_eq_of_lt w8
  have f64 : getUint32 buf 64 = p.RenderingIntent := by
    rw [hbuf, getUint32_putUint32 (by
        simp only [length_putUint32, length_writeBytes]
        omega) p.RenderingIntent]
    exact Nat.mod_eq_of_lt w12
  have fdate : getDateTime buf 24 =
      if p.CreationDate.year ≤ 3000 then p.CreationDate else zeroTime := by
    refine getDateTime_of_fields ?_ ?_ ?_ ?_ ?_ ?_ wdate
    · rw [hbuf16 24 (by omega), hdr16 24 (by omega)]
      exact hdrD.1
    · rw [hbuf16 (24 + 2) (by omega), hdr16 (24 + 2) (by omega)]
      exact hdrD.2.1
    · rw [hbuf16 (24 + 4) (by omega), hdr16 (24 + 4) (by omega)]
      exact hdrD.2.2.1
    · rw [hbuf16 (24 + 6) (by omega), hdr16 (24 + 6) (by omega)]
      exact hdrD.2.2.2.1
    · rw [hbuf16 (24 + 8) (by omega), hdr16 (24 + 8) (by omega)]
      exact hdrD.2.2.2.2.1
    · rw [hbuf16 (24 + 10) (by omega), hdr16 (24 + 10) (by omega)]
      exact hdrD.2.2.2.2.2
  have facsp : extract buf 36 40 = acspSig := by
    have h1 : extract buf 36 40 = extract hdr 36 40 :=
      extract_congr (by omega) (by omega)
        (fun j h1 h2 => hbufD j (Or.inl (by omega)))
    have h2 : extract hdr 36 40 = extract HB 36 40 :=
      extract_congr (by omega) (by rw [hHBlen]; omega)
        (fun j h1 h2 => hlow j (by omega))
    rw [h1, h2, hdrAcsp]
  have hID : extract buf 84 100 = dig := by
    have h1 : extract buf 84 100 = extract (writeBytes hdr 84 dig) 84 100 := by
      rw [hbuf]
      exact extract_congr
        (by simp only [length_putUint32, length_writeBytes]; omega)
        (by simp only [length_writeBytes]; omega)
        (fun j h1 h2 => by
          rw [getD_putUint32_frame (by omega), getD_putUint32_frame (by omega)])
    have h2 := @extract_writeBytes hdr 84 dig (by rw [hdig]; omega)
    rw [hdig] at h2
    rw [h1]
    exact h2
  have hdrID : ∀ j, 44 ≤ j ∧ j < 48 ∨ 64 ≤ j ∧ j < 68 ∨ 84 ≤ j ∧ j < 100 →
      hdr.getD j 0 = 0 := by
    intro j hj
    rw [hlow j (by omega)]
    exact hdrZb j hj
  have zeroID : zeroIDFields buf = hdr := by
    unfold zeroIDFields
    apply bytes_ext (by
      simp only [length_writeBytes, length_putUint32]
      rw [hbuflen, hhdrlen])
    intro j hj
    simp only [length_writeBytes, length_putUint32] at hj
    rw [hbuflen] at hj
    by_cases h84 : 84 ≤ j ∧ j < 100
    · have hj2 : j = 84 + (j - 84) := by omega
      rw [hj2, getD_writeBytes_in (by rw [List.length_replicate]; omega)
        (by simp only [length_putUint32, List.length_replicate]; rw [hbuflen]; omega)]
      rw [getD_replicate_zero, hdrID (84 + (j - 84)) (by omega)]
    · rw [getD_writeBytes_frame (by rw [List.length_replicate]; omega)]
      by_cases h64 : 64 ≤ j ∧ j < 68
      · rcases (show j = 64 ∨ j = 64 + 1 ∨ j = 64 + 2 ∨ j = 64 + 3 from by omega)
          with hje | hje | hje | hje <;> subst hje
        · rw [getD_putUint32_byte0 (by simp only [length_putUint32]; rw [hbuflen]; omega),
            hdrID 64 (by omega)]
          decide
        · rw [getD_putUint32_byte1 (by simp only [length_putUint32]; rw [hbuflen]; omega),
            hdrID (64 + 1) (by omega)]
          decide
        · rw [getD_putUint32_byte2 (by simp only [length_putUint32]; rw [hbuflen]; omega),
            hdrID (64 + 2) (by omega)]
          decide
        · rw [getD_putUint32_byte3 (by simp only [length_putUint32]; rw [hbuflen]; omega),
            hdrID (64 + 3) (by omega)]
      · rw [getD_putUint32_frame (by omega)]
        by_cases h44 : 44 ≤ j ∧ j < 48
        · rcases (show j = 44 ∨ j = 44 + 1 ∨ j = 44 + 2 ∨ j = 44 + 3 from by omega)
            with hje | hje | hje | hje <;> subst hje
          · rw [getD_putUint32_byte0 (by rw [hbuflen]; omega), hdrID 44 (by omega)]
            decide
          · rw [getD_putUint32_byte1 (by rw [hbuflen]; omega), hdrID (44 + 1) (by omega)]
            decide
          · rw [getD_putUint32_byte2 (by rw [hbuflen]; omega), hdrID (44 + 2) (by omega)]
            decide
          · rw [getD_putUint32_byte3 (by rw [hbuflen]; omega), hdrID (44 + 3) (by omega)]
        · rw [getD_putUint32_frame (by omega)]
          exact hbufD j (by omega)
  -- tag facts, parameterised over the buffer the tag loop reads
  have hXfacts : ∀ X : Bytes, X.length = R.2 →
      (∀ j, 132 ≤ j → X.getD j 0 = hdr.getD j 0) →
      ∀ k, k < ts.length → ∃ st,
        getUint32 X (132 + k * 12) = (ts.getD k (0, [])).1 ∧
        getUint32 X (132 + k * 12 + 4) = st ∧
        getUint32 X (132 + k * 12 + 8) = (ts.getD k (0, [])).2.length ∧
        132 + ts.length * 12 ≤ st ∧
        st + (ts.getD k (0, [])).2.length ≤ X.length ∧
        extract X st (st + (ts.getD k (0, [])).2.length) = (ts.getD k (0, [])).2 ∧
        4 ≤ (ts.getD k (0, [])).2.length ∧
        (ts.getD k (0, [])).2.length ≤ 0xFFFFFFFC := by
    intro X hXlen hXagree k hk
    have hmap2 : R.1.map (fun e => (e.tagType, e.data)) = ts := by
      rw [hRdef]
      exact assignTags_map ts pos0 none
    have hpair : ((R.1.getD k ⟨0, [], 0, false⟩).tagType,
        (R.1.getD k ⟨0, [], 0, false⟩).data) = ts.getD k (0, []) := by
      conv_rhs => rw [← hmap2]
      exact (List.getD_map R.1 ⟨0, [], 0, false⟩ (fun e => (e.tagType, e.data))).symm
    have hmem : ts.getD k (0, []) ∈ ts := by
      rw [List.getD_eq_getElem?_getD, List.getElem?_eq_getElem hk]
      exact List.getElem_mem hk
    obtain ⟨hm1, hm2, hm3⟩ := htmem _ hmem
    obtain ⟨e1, e2, e3, e4, e5, e6⟩ := Wen k hk
    rw [← hRdef] at e1 e2 e3 e4 e5 e6
    rw [← hhdr2] at e1 e2 e3 e6
    have hpt : (R.1.getD k ⟨0, [], 0, false⟩).tagType = (ts.getD k (0, [])).1 :=
      congrArg Prod.fst hpair
    have hpd : (R.1.getD k ⟨0, [], 0, false⟩).data = (ts.getD k (0, [])).2 :=
      congrArg Prod.snd hpair
    rw [hpt] at e1
    rw [hpd] at e3 e5 e6
    have hX32 : ∀ off, 132 ≤ off → getUint32 X off = getUint32 hdr off :=
      fun off ho => getUint32_congr (fun j h1 h2 => hXagree j (by omega))
    have hbound : (R.1.getD k ⟨0, [], 0, false⟩).start +
        (ts.getD k (0, [])).2.length ≤ R.2 := e5
    refine ⟨(R.1.getD k ⟨0, [], 0, false⟩).start, ?_, ?_, ?_, by omega, ?_, ?_,
      hm2, hm3⟩
    · rw [hX32 _ (by omega), e1]
      exact Nat.mod_eq_of_lt hm1
    · rw [hX32 _ (by omega), e2]
    · rw [hX32 _ (by omega), e3]
      exact Nat.mod_eq_of_lt (by omega)
    · rw [hXlen]
      exact hbound
    · have hext : extract X (R.1.getD k ⟨0, [], 0, false⟩).start
          ((R.1.getD k ⟨0, [], 0, false⟩).start + (ts.getD k (0, [])).2.length) =
          extract hdr (R.1.getD k ⟨0, [], 0, false⟩).start
          ((R.1.getD k ⟨0, [], 0, false⟩).start + (ts.getD k (0, [])).2.length) :=
        extract_congr (by rw [hXlen]; exact hbound) (by rw [hhdrlen]; exact hbound)
          (fun j h1 h2 => hXagree j (by omega))
      rw [hext]
      exact e6
  have hreads : ∀ X : Bytes, X.length = R.2 →
      (∀ j, 132 ≤ j → X.getD j 0 = hdr.getD j 0) →
      readTags X (132 + ts.length * 12) ts.length 0 [] = .ok ts := by
    intro X h1 h2
    exact readTags_ok X ts hkeys2 (hXfacts X h1 h2) ts.length 0 (by omega)
  -- the main decode computation
  refine ⟨?_, by rw [hbuflen, henc], hID, zeroID, f44, f64⟩
  unfold Decode
  simp only [DecodeSt]
  rw [if_neg (by rw [hbuflen]; omega)]
  rw [if_neg (fun hne => hne facsp)]
  rw [hn]
  rw [if_neg (by rw [hbuflen]; omega)]
  rw [f4, f8, f12, f16, f20, f40, f44, f48, f52, f56, f64, f80, fdate, hID]
  rw [show (128 : Nat) + 4 = 132 from rfl]
  by_cases hz : isZero dig
  · rw [if_pos hz]
    have hr := hreads buf hbuflen (fun j hj => hbufD j (by omega))
    simp only [hr]
    rw [if_neg wv0]
    rw [if_pos hz]
  · rw [if_neg hz]
    have zeroID2 : writeBytes (putUint32 (putUint32 buf 44 0) 64 0) 84
        (List.replicate 16 0) = hdr := zeroID
    rw [zeroID2]
    have hr := hreads hdr hhdrlen (fun j hj => rfl)
    simp only [hr]
    rw [if_neg wv0]
    rw [if_neg hz]

theorem length_encodeHeaderTags (p : Profile) :
    (encodeHeaderTags p).length = encodedSize p := by
  simp only [encodeHeaderTags, length_writeTagTable, length_headerBytes]
  rfl

theorem encodeHeaderTags_ID_zero (p : Profile) (hsize : encodedSize p < 2 ^ 32) :
    ∀ j, 44 ≤ j ∧ j < 48 ∨ 64 ≤ j ∧ j < 68 ∨ 84 ≤ j ∧ j < 100 →
      (encodeHeaderTags p).getD j 0 = 0 := by
  intro j hj
  have hposle := assignTags_pos_le (sortTags p.TagData)
    (128 + 4 + (sortTags p.TagData).length * 12) none
  have henc : encodedSize p =
      (assignTags (sortTags p.TagData)
        (128 + 4 + (sortTags p.TagData).length * 12) none).2 := rfl
  have hW := writeTagTable_spec (sortTags p.TagData)
    (headerBytes p (assignTags (sortTags p.TagData)
      (128 + 4 + (sortTags p.TagData).length * 12) none).2
      (sortTags p.TagData).length)
    0 (128 + 4 + (sortTags p.TagData).length * 12) none (by omega)
    (by rw [length_headerBytes]) (by rw [length_headerBytes]; omega)
    (fun pd ps h => nomatch h)
  have h1 : (encodeHeaderTags p).getD j 0 =
      (headerBytes p (assignTags (sortTags p.TagData)
        (128 + 4 + (sortTags p.TagData).length * 12) none).2
        (sortTags p.TagData).length).getD j 0 := by
    show (writeTagTable _ 0 _).getD j 0 = _
    exact hW.1 j (Or.inl (by omega))
  rw [h1]
  exact headerBytes_zeroBytes p _ _ j hj

theorem writeBytes_zeroID_encodeHeaderTags (p : Profile)
    (hsize : encodedSize p < 2 ^ 32) :
    writeBytes (encodeHeaderTags p) 84 (List.replicate 16 0) =
      encodeHeaderTags p := by
  have hlen := length_encodeHeaderTags p
  have hposle := assignTags_pos_le (sortTags p.TagData)
    (128 + 4 + (sortTags p.TagData).length * 12) none
  have henc : encodedSize p =
      (assignTags (sortTags p.TagData)
        (128 + 4 + (sortTags p.TagData).length * 12) none).2 := rfl
  apply bytes_ext (by rw [length_writeBytes])
  intro j hj
  rw [length_writeBytes] at hj
  by_cases h84 : 84 ≤ j ∧ j < 100
  · have hj2 : j = 84 + (j - 84) := by omega
    rw [hj2, getD_writeBytes_in (by rw [List.length_replicate]; omega)
      (by rw [List.length_replicate, hlen]; omega)]
    rw [getD_replicate_zero, encodeHeaderTags_ID_zero p hsize (84 + (j - 84))
      (by omega)]
  · rw [getD_writeBytes_frame (by rw [List.length_replicate]; omega)]

theorem encode_eq_v4 (md5 : Bytes → Bytes) (p : Profile) (h0 : p.Version ≠ 0)
    (h4 : Version4_0_0 ≤ p.Version) :
    Encode md5 p = .ok (putUint32 (putUint32 (writeBytes (encodeHeaderTags p) 84
      (md5 (encodeHeaderTags p))) 44 p.Flags) 64 p.RenderingIntent) := by
  simp only [Encode, if_neg h0, if_pos h4]

theorem encode_eq_lt4 (md5 : Bytes → Bytes) (p : Profile) (h0 : p.Version ≠ 0)
    (h4 : ¬Version4_0_0 ≤ p.Version) :
    Encode md5 p = .ok (putUint32 (putUint32 (encodeHeaderTags p) 44 p.Flags) 64
      p.RenderingIntent) := by
  simp only [Encode, if_neg h0, if_neg h4]

/-! ## Every decoded profile is well formed -/

theorem getD_lt_256 {b : Bytes} (h : ∀ x ∈ b, x < 256) (j : Nat) :
    b.getD j 0 < 256 := by
  rcases Nat.lt_or_ge j b.length with hj | hj
  · rw [List.getD_eq_getElem?_getD, List.getElem?_eq_getElem hj]
    exact h _ (List.getElem_mem hj)
  · rw [List.getD_eq_getElem?_getD, List.getElem?_eq_none (by simpa using hj)]
    norm_num

theorem getUint32_lt {b : Bytes} (h : ∀ x ∈ b, x < 256) (off : Nat) :
    getUint32 b off < 2 ^ 32 := by
  unfold getUint32
  have h0 := getD_lt_256 h off
  have h1 := getD_lt_256 h (off + 1)
  have h2 := getD_lt_256 h (off + 2)
  have h3 := getD_lt_256 h (off + 3)
  omega

theorem getUint64_lt {b : Bytes} (h : ∀ x ∈ b, x < 256) (off : Nat) :
    getUint64 b off < 2 ^ 64 := by
  unfold getUint64
  have h0 := getUint32_lt h off
  have h1 := getUint32_lt h (off + 4)
  omega

theorem bytesLt_set {b : Bytes} (h : ∀ x ∈ b, x < 256) {i v : Nat} (hv : v < 256) :
    ∀ x ∈ b.set i v, x < 256 := by
  intro x hx
  rcases List.mem_or_eq_of_mem_set hx with h2 | h2
  · exact h x h2
  · omega

theorem bytesLt_putUint32 {b : Bytes} (h : ∀ x ∈ b, x < 256) (off v : Nat) :
    ∀ x ∈ putUint32 b off v, x < 256 := by
  unfold putUint32
  exact bytesLt_set (bytesLt_set (bytesLt_set (bytesLt_set h
    (Nat.mod_lt _ (by norm_num))) (Nat.mod_lt _ (by norm_num)))
    (Nat.mod_lt _ (by norm_num))) (Nat.mod_lt _ (by norm_num))

theorem bytesLt_writeBytes {s : Bytes} (hs : ∀ x ∈ s, x < 256) :
    ∀ {b : Bytes}, (∀ x ∈ b, x < 256) → ∀ (off : Nat),
      ∀ x ∈ writeBytes b off s, x < 256 := by
  induction s with
  | nil => intro b h off; exact h
  | cons v vs ih =>
    intro b h off
    rw [writeBytes]
    exact ih (fun x hx => hs x (List.mem_cons_of_mem _ hx))
      (bytesLt_set h (hs v (List.mem_cons_self _ _))) (off + 1)

theorem setTag_mem : ∀ {l : List (Nat × Bytes)} {k : Nat} {v : Bytes}
    {e : Nat × Bytes}, e ∈ setTag l k v → e ∈ l ∨ e = (k, v) := by
  intro l
  induction l with
  | nil =>
    intro k v e he
    simp [setTag] at he
    exact Or.inr he
  | cons e1 rest ih =>
    intro k v e he
    obtain ⟨k1, v1⟩ := e1
    by_cases hk : k1 = k
    · rw [setTag, if_pos hk] at he
      rcases List.mem_cons.mp he with h2 | h2
      · exact Or.inr h2
      · exact Or.inl (List.mem_cons_of_mem _ h2)
    · rw [setTag, if_neg hk] at he
      rcases List.mem_cons.mp he with h2 | h2
      · exact Or.inl (h2 ▸ List.mem_cons_self _ _)
      · rcases ih h2 with h3 | h3
        · exact Or.inl (List.mem_cons_of_mem _ h3)
        · exact Or.inr h3

theorem setTag_keys_mem {l : List (Nat × Bytes)} {k : Nat} {v : Bytes} {a : Nat}
    (h : a ∈ (setTag l k v).map Prod.fst) : a ∈ l.map Prod.fst ∨ a = k := by
  rw [List.mem_map] at h
  obtain ⟨e, he, ha⟩ := h
  rcases setTag_mem he with h2 | h2
  · exact Or.inl (ha ▸ List.mem_map_of_mem Prod.fst h2)
  · subst h2
    exact Or.inr ha.symm

theorem setTag_keys_nodup : ∀ {l : List (Nat × Bytes)} {k : Nat} {v : Bytes},
    (l.map Prod.fst).Nodup → ((setTag l k v).map Prod.fst).Nodup := by
  intro l
  induction l with
  | nil =>
    intro k v _
    simp [setTag]
  | cons e1 rest ih =>
    intro k v h
    obtain ⟨k1, v1⟩ := e1
    simp only [List.map_cons, List.nodup_cons] at h
    by_cases hk : k1 = k
    · subst hk
      rw [setTag, if_pos rfl]
      simp only [List.map_cons, List.nodup_cons]
      exact ⟨h.1, h.2⟩
    · rw [setTag, if_neg hk]
      simp only [List.map_cons, List.nodup_cons]
      refine ⟨fun hmem => ?_, ih h.2⟩
      rcases setTag_keys_mem hmem with h2 | h2
      · exact h.1 h2
      · exact hk h2

theorem length_extract {d : Bytes} {a s : Nat} (h : a + s ≤ d.length) :
    (extract d a (a + s)).length = s := by
  unfold extract
  rw [List.length_take, List.length_drop]
  omega

theorem readTags_wf (data1 : Bytes) (m : Nat) (hb : ∀ x ∈ data1, x < 256) :
    ∀ (rem i : Nat) (acc tags : List (Nat × Bytes)),
    (∀ e ∈ acc, e.1 < 2 ^ 32 ∧ 4 ≤ e.2.length ∧ e.2.length ≤ 0xFFFFFFFC) →
    (acc.map Prod.fst).Nodup →
    readTags data1 m rem i acc = .ok tags →
    (∀ e ∈ tags, e.1 < 2 ^ 32 ∧ 4 ≤ e.2.length ∧ e.2.length ≤ 0xFFFFFFFC) ∧
    (tags.map Prod.fst).Nodup := by
  intro rem
  induction rem with
  | zero =>
    intro i acc tags hP hnd hred
    rw [readTags] at hred
    injection hred with hred
    subst hred
    exact ⟨hP, hnd⟩
  | succ rem ih =>
    intro i acc tags hP hnd hred
    rw [readTags] at hred
    by_cases c1 : getUint32 data1 (128 + 4 + i * 12 + 8) < 4
    · rw [if_pos c1] at hred
      exact absurd hred (by simp)
    rw [if_neg c1] at hred
    by_cases c2 : 0xFFFFFFFC < getUint32 data1 (128 + 4 + i * 12 + 8)
    · rw [if_pos c2] at hred
      exact absurd hred (by simp)
    rw [if_neg c2] at hred
    by_cases c3 : getUint32 data1 (128 + 4 + i * 12 + 4) < m ∨
        data1.length < getUint32 data1 (128 + 4 + i * 12 + 4) +
          getUint32 data1 (128 + 4 + i * 12 + 8)
    · rw [if_pos c3] at hred
      exact absurd hred (by simp)
    rw [if_neg c3] at hred
    push_neg at c3
    refine ih (i + 1) _ tags ?_ (setTag_keys_nodup hnd) hred
    intro e he
    rcases setTag_mem he with h2 | h2
    · exact hP e h2
    · subst h2
      refine ⟨getUint32_lt hb _, ?_, ?_⟩
      · rw [length_extract (by omega)]
        omega
      · rw [length_extract (by omega)]
        omega

/-- Every profile Decode returns (from a buffer of Go bytes, so every
element is below 256) satisfies the well-formedness facts ProfileWF. -/
theorem decode_wf (md5 : Bytes → Bytes) (data : Bytes)
    (hb : ∀ x ∈ data, x < 256) (p : Profile)
    (hdec : Decode md5 data = .ok p) : ProfileWF p := by
  unfold Decode at hdec
  simp only [DecodeSt] at hdec
  by_cases c1 : data.length < 128 + 4
  · rw [if_pos c1] at hdec
    exact absurd hdec (by simp)
  rw [if_neg c1] at hdec
  by_cases c2 : extract data 36 40 ≠ acspSig
  · rw [if_pos c2] at hdec
    exact absurd hdec (by simp)
  rw [if_neg c2] at hdec
  by_cases c3 : (data.length - 128 - 4) / 12 < getUint32 data 128
  · rw [if_pos c3] at hdec
    exact absurd hdec (by simp)
  rw [if_neg c3] at hdec
  by_cases c4 : isZero (extract data 84 100)
  · rw [if_pos c4] at hdec
    dsimp only at hdec
    cases hread : readTags data (128 + 4 + getUint32 data 128 * 12)
        (getUint32 data 128) 0 [] with
    | error e =>
      rw [hread] at hdec
      exact absurd hdec (by simp)
    | ok tags =>
      rw [hread] at hdec
      dsimp only at hdec
      have htags := readTags_wf data (128 + 4 + getUint32 data 128 * 12) hb
        (getUint32 data 128) 0 [] tags (by simp) (by simp) hread
      by_cases c5 : getUint32 data 8 = 0
      · rw [if_pos c5] at hdec
        injection hdec with hdec
        subst hdec
        exact ⟨by show currentVersion ≠ 0; decide,
          by show currentVersion < 2 ^ 32; decide,
          getUint32_lt hb 4, getUint32_lt hb 12,
          getUint32_lt hb 16, getUint32_lt hb 20, getUint32_lt hb 40,
          getUint32_lt hb 44, getUint32_lt hb 48, getUint32_lt hb 52,
          getUint64_lt hb 56, getUint32_lt hb 64, getUint32_lt hb 80,
          getDateTime_DateOK data 24, htags.2, htags.1⟩
      · rw [if_neg c5] at hdec
        injection hdec with hdec
        subst hdec
        exact ⟨c5, getUint32_lt hb 8, getUint32_lt hb 4, getUint32_lt hb 12,
          getUint32_lt hb 16, getUint32_lt hb 20, getUint32_lt hb 40,
          getUint32_lt hb 44, getUint32_lt hb 48, getUint32_lt hb 52,
          getUint64_lt hb 56, getUint32_lt hb 64, getUint32_lt hb 80,
          getDateTime_DateOK data 24, htags.2, htags.1⟩
  · rw [if_neg c4] at hdec
    dsimp only at hdec
    have hb1 : ∀ x ∈ writeBytes (putUint32 (putUint32 data 44 0) 64 0) 84
        (List.replicate 16 0), x < 256 :=
      bytesLt_writeBytes
        (fun x hx => by rw [List.eq_of_mem_replicate hx]; norm_num)
        (bytesLt_putUint32 (bytesLt_putUint32 hb 44 0) 64 0) 84
    cases hread : readTags (writeBytes (putUint32 (putUint32 data 44 0) 64 0) 84
        (List.replicate 16 0)) (128 + 4 + getUint32 data 128 * 12)
        (getUint32 data 128) 0 [] with
    | error e =>
      rw [hread] at hdec
      exact absurd hdec (by simp)
    | ok tags =>
      rw [hread] at hdec
      dsimp only at hdec
      have htags := readTags_wf _ (128 + 4 + getUint32 data 128 * 12) hb1
        (getUint32 data 128) 0 [] tags (by simp) (by simp) hread
      by_cases c5 : getUint32 data 8 = 0
      · rw [if_pos c5] at hdec
        injection hdec with hdec
        subst hdec
        exact ⟨by show currentVersion ≠ 0; decide,
          by show currentVersion < 2 ^ 32; decide,
          getUint32_lt hb 4, getUint32_lt hb 12,
          getUint32_lt hb 16, getUint32_lt hb 20, getUint32_lt hb 40,
          getUint32_lt hb 44, getUint32_lt hb 48, getUint32_lt hb 52,
          getUint64_lt hb 56, getUint32_lt hb 64, getUint32_lt hb 80,
          getDateTime_DateOK data 24, htags.2, htags.1⟩
      · rw [if_neg c5] at hdec
        injection hdec with hdec
        subst hdec
        exact ⟨c5, getUint32_lt hb 8, getUint32_lt hb 4, getUint32_lt hb 12,
          getUint32_lt hb 16, getUint32_lt hb 20, getUint32_lt hb 40,
          getUint32_lt hb 44, getUint32_lt hb 48, getUint32_lt hb 52,
          getUint64_lt hb 56, getUint32_lt hb 64, getUint32_lt hb 80,
          getDateTime_DateOK data 24, htags.2, htags.1⟩

/-- C9: Profile.Encode is deterministic.  The tag entries come out of a
Go map, whose enumeration order is arbitrary, so the model quantifies
over any enumeration l of the same TagData binding list: the encoder
output is identical, because the entries are sorted with a comparison
(data bytes first, tag signature as tie break) that is a total,
transitive and antisymmetric order, under which the sorted permutation
is unique. -/
theorem encode_deterministic (md5 : Bytes → Bytes) (p : Profile)
    (l : List (Nat × Bytes)) (hperm : l.Perm p.TagData) :
    Encode md5 { p with TagData := l } = Encode md5 p := by
  have hsort : sortTags l = sortTags p.TagData := sortTags_eq_of_perm hperm
  unfold Encode encodeHeaderTags headerBytes
  simp only [hsort]

/-- C9 witness: two enumeration orders of a two-tag map encode to the
same bytes. -/
theorem encode_deterministic_witness :
    (([(2, [9, 9, 9, 9]), (1, [0, 0, 0, 0])] : List (Nat × Bytes)).Perm
      [(1, [0, 0, 0, 0]), (2, [9, 9, 9, 9])]) ∧
    Encode constDigest
        ⟨0, 0x02100000, 0, 0, 0, zeroTime, 0, 0, 0, 0, 0, 0, 0, .Missing,
          [(2, [9, 9, 9, 9]), (1, [0, 0, 0, 0])]⟩ =
      Encode constDigest
        ⟨0, 0x02100000, 0, 0, 0, zeroTime, 0, 0, 0, 0, 0, 0, 0, .Missing,
          [(1, [0, 0, 0, 0]), (2, [9, 9, 9, 9])]⟩ :=
  ⟨by decide,
    encode_deterministic constDigest
      ⟨0, 0x02100000, 0, 0, 0, zeroTime, 0, 0, 0, 0, 0, 0, 0, .Missing,
        [(1, [0, 0, 0, 0]), (2, [9, 9, 9, 9])]⟩
      [(2, [9, 9, 9, 9]), (1, [0, 0, 0, 0])] (by decide)⟩

/-! ## C1 and C2: the container round trip -/

/-- C1 (corrected): the decode–encode–decode round trip.  For every
byte-valued buffer that Decode accepts, re-encoding the resulting
profile succeeds and re-decoding the encoded bytes yields a profile
that agrees with the first one in every header field and the version,
and whose TagData binds the same data bytes to every tag signature (the
list itself is re-ordered into the encoder's sorted order), provided
the creation date's year is at most 3000 (the decoder also accepts
3000-12-31 23:59:60 and 23:59:61, which time.Date normalises into year
3001, a date that does not survive the round trip) and the encoded
size fits in 32 bits (Profile.Encode truncates larger tag offsets to
uint32).  The md5 parameter models MD5 as an arbitrary 16-byte digest
function. -/
theorem profile_round_trip (md5 : Bytes → Bytes) (data : Bytes) (p : Profile)
    (hmd5 : ∀ b, (md5 b).length = 16)
    (hbytes : ∀ x ∈ data, x < 256)
    (hdec : (Decode md5 data).toOption = some p)
    (hyear : p.CreationDate.year ≤ 3000)
    (hsize : encodedSize p < 2 ^ 32) :
    ∃ buf q, Encode md5 p = .ok buf ∧ Decode md5 buf = .ok q ∧
      q.PreferredCMMType = p.PreferredCMMType ∧ q.Version = p.Version ∧
      q.Class = p.Class ∧ q.ColorSpace = p.ColorSpace ∧ q.PCS = p.PCS ∧
      q.CreationDate = p.CreationDate ∧
      q.PrimaryPlatform = p.PrimaryPlatform ∧ q.Flags = p.Flags ∧
      q.DeviceManufacturer = p.DeviceManufacturer ∧
      q.DeviceModel = p.DeviceModel ∧
      q.DeviceAttributes = p.DeviceAttributes ∧
      q.RenderingIntent = p.RenderingIntent ∧ q.Creator = p.Creator ∧
      ∀ k, lookupTag q.TagData k = lookupTag p.TagData k := by
  have hdec2 : Decode md5 data = .ok p := by
    cases hd : Decode md5 data with
    | error e =>
      rw [hd] at hdec
      exact absurd hdec (by simp [Except.toOption])
    | ok q2 =>
      rw [hd] at hdec
      simp only [Except.toOption, Option.some.injEq] at hdec
      exact hdec ▸ rfl
  have hwf : ProfileWF p := decode_wf md5 data hbytes p hdec2
  have hparts := hwf
  obtain ⟨hv0, -, -, -, -, -, -, -, -, -, -, -, -, -, wkeys, -⟩ := hparts
  have hperm : (sortTags p.TagData).Perm p.TagData :=
    List.perm_insertionSort tagLe p.TagData
  have hnd : ((sortTags p.TagData).map Prod.fst).Nodup :=
    ((hperm.map Prod.fst).nodup_iff).mpr wkeys
  have hlk : ∀ k, lookupTag (sortTags p.TagData) k = lookupTag p.TagData k :=
    fun k => lookupTag_perm hperm hnd k
  by_cases h4 : Version4_0_0 ≤ p.Version
  · have henc := encode_eq_v4 md5 p hv0 h4
    have hD := decode_of_encoded md5 p (md5 (encodeHeaderTags p))
      (encodeHeaderTags p)
      (putUint32 (putUint32 (writeBytes (encodeHeaderTags p) 84
        (md5 (encodeHeaderTags p))) 44 p.Flags) 64 p.RenderingIntent)
      (hmd5 _) rfl rfl hwf hsize
    refine ⟨_, _, henc, hD.1, rfl, rfl, rfl, rfl, rfl, ?_, rfl, rfl, rfl, rfl,
      rfl, rfl, rfl, hlk⟩
    show (if p.CreationDate.year ≤ 3000 then p.CreationDate else zeroTime) =
      p.CreationDate
    rw [if_pos hyear]
  · have henc := encode_eq_lt4 md5 p hv0 h4
    have hD := decode_of_encoded md5 p (List.replicate 16 0)
      (encodeHeaderTags p)
      (putUint32 (putUint32 (encodeHeaderTags p) 44 p.Flags) 64
        p.RenderingIntent)
      (by simp) rfl
      (by rw [writeBytes_zeroID_encodeHeaderTags p hsize]) hwf hsize
    refine ⟨_, _, henc, hD.1, rfl, rfl, rfl, rfl, rfl, ?_, rfl, rfl, rfl, rfl,
      rfl, rfl, rfl, hlk⟩
    show (if p.CreationDate.year ≤ 3000 then p.CreationDate else zeroTime) =
      p.CreationDate
    rw [if_pos hyear]

set_option maxRecDepth 40000 in
/-- C1 witness: the 132-byte buffer mutationInput decodes to the
concrete profile c1DecodedProfile, whose creation date and size are in
range, and the round trip reproduces every field and every tag
binding. -/
theorem profile_round_trip_witness :
    (∀ b, (constDigest b).length = 16) ∧
    (∀ x ∈ mutationInput, x < 256) ∧
    (Decode constDigest mutationInput).toOption = some c1DecodedProfile ∧
    c1DecodedProfile.CreationDate.year ≤ 3000 ∧
    encodedSize c1DecodedProfile < 2 ^ 32 ∧
    (∃ buf q, Encode constDigest c1DecodedProfile = .ok buf ∧
      Decode constDigest buf = .ok q ∧
      q.PreferredCMMType = c1DecodedProfile.PreferredCMMType ∧
      q.Version = c1DecodedProfile.Version ∧
      q.Class = c1DecodedProfile.Class ∧
      q.ColorSpace = c1DecodedProfile.ColorSpace ∧
      q.PCS = c1DecodedProfile.PCS ∧
      q.CreationDate = c1DecodedProfile.CreationDate ∧
      q.PrimaryPlatform = c1DecodedProfile.PrimaryPlatform ∧
      q.Flags = c1DecodedProfile.Flags ∧
      q.DeviceManufacturer = c1DecodedProfile.DeviceManufacturer ∧
      q.DeviceModel = c1DecodedProfile.DeviceModel ∧
      q.DeviceAttributes = c1DecodedProfile.DeviceAttributes ∧
      q.RenderingIntent = c1DecodedProfile.RenderingIntent ∧
      q.Creator = c1DecodedProfile.Creator ∧
      ∀ k, lookupTag q.TagData k = lookupTag c1DecodedProfile.TagData k) :=
  ⟨fun _ => rfl, by decide, by decide, by decide, by decide,
    profile_round_trip constDigest mutationInput c1DecodedProfile
      (fun _ => rfl) (by decide) (by decide) (by decide) (by decide)⟩

theorem timeDate_3000_roll :
    timeDate 3000 12 31 23 59 60 = ⟨3001, 1, 1, 0, 0, 0⟩ := by
  simp only [timeDate]
  rcases hcq : civilFromDays (daysBeforeYear (3000 - 1) + daysBeforeMonth 3000 12 +
      (31 - 1) + (23 * 3600 + 59 * 60 + 60) / 86400) with ⟨cY, cM, cD⟩
  obtain ⟨s1, s2, s3, s4, s5, s6⟩ :=
    civilFromDays_spec (daysBeforeYear (3000 - 1) + daysBeforeMonth 3000 12 +
      (31 - 1) + (23 * 3600 + 59 * 60 + 60) / 86400) cY cM cD hcq
  have e1 : daysBeforeYear (3000 - 1) = daysBeforeYear 2999 := rfl
  have e2 := daysBeforeYear_succ 3000 (by omega)
  have e3 : daysInYear 3000 = 365 := by decide
  have e4 : daysBeforeMonth 3000 12 = 334 := by decide
  have e6 : daysBeforeYear (3001 - 1) = daysBeforeYear 3000 := rfl
  have haddc := daysBeforeMonth_add_le cY cM s2 s3
  have hy1 := daysInYear_ge 3001
  have hu := year_unique s1 (show (1 : Nat) ≤ 3001 by omega)
    (show daysBeforeMonth cY cM + (cD - 1) < daysInYear cY by omega)
    (show (0 : Nat) < daysInYear 3001 by omega)
    (by omega)
  obtain ⟨hY, hr⟩ := hu
  subst hY
  have e7 : daysBeforeMonth 3001 1 = 0 := rfl
  have hdmp := daysInMonth_pos 3001 1
  have hmu := month_unique 3001 s2 s3
    (show cD - 1 < daysInMonth 3001 cM by omega)
    (show (1 : Nat) ≤ 1 by omega) (show (1 : Nat) ≤ 12 by omega)
    (show (0 : Nat) < daysInMonth 3001 1 by omega)
    (by omega)
  obtain ⟨hM, hD2⟩ := hmu
  subst hM
  have hcD : cD = 1 := by omega
  subst hcD
  rfl

theorem getDateTime_c1Input :
    getDateTime c1Input 24 = ⟨3001, 1, 1, 0, 0, 0⟩ := by
  have h1 : getUint16 c1Input 24 = 3000 := by decide
  have h2 : getUint16 c1Input (24 + 2) = 12 := by decide
  have h3 : getUint16 c1Input (24 + 4) = 31 := by decide
  have h4 : getUint16 c1Input (24 + 6) = 23 := by decide
  have h5 : getUint16 c1Input (24 + 8) = 59 := by decide
  have h6 : getUint16 c1Input (24 + 10) = 60 := by decide
  simp only [getDateTime]
  rw [h1, h2, h3, h4, h5, h6]
  split_ifs with hcond
  · exact absurd hcond (by decide)
  · exact timeDate_3000_roll

set_option maxRecDepth 40000 in
theorem decode_c1Input :
    Decode constDigest c1Input = .ok c1RolledProfile := by
  unfold Decode DecodeSt
  rw [getDateTime_c1Input]
  rfl

set_option maxRecDepth 40000 in
/-- C1 counterexample: the unrestricted claim fails.  The buffer
c1Input carries the creation date 3000-12-31 23:59:60, which the
decoder accepts (second values up to 61 pass its validation) and
time.Date normalises to 3001-01-01 00:00:00.  Decode therefore
succeeds with a year-3001 creation date; re-encoding writes that date
to the wire and re-decoding rejects year 3001, so the round-tripped
profile carries the zero date instead of the original one. -/
theorem profile_round_trip_fails :
    (∀ x ∈ c1Input, x < 256) ∧
    Decode constDigest c1Input = .ok c1RolledProfile ∧
    c1RolledProfile.CreationDate = ⟨3001, 1, 1, 0, 0, 0⟩ ∧
    ((Encode constDigest c1RolledProfile).toOption.bind fun buf =>
        (Decode constDigest buf).toOption.map fun q => q.CreationDate) =
      some zeroTime ∧
    zeroTime ≠ (⟨3001, 1, 1, 0, 0, 0⟩ : GoTime) :=
  ⟨by decide, decode_c1Input, rfl, by decide, by decide⟩

/-- C2 (corrected): the version-4 profile ID.  For every well-formed
profile of version at least 4.0.0 whose encoded size fits in 32 bits,
Encode succeeds and the encoded buffer carries at bytes 84..100 the
digest of the buffer with the flags word at 44, the rendering-intent
word at 64 and the ID bytes themselves zeroed, while the real flags
and intent words read back at 44 and 64; when that digest is not
all-zero, re-decoding the buffer succeeds and marks the CheckSum
valid.  Well-formedness matters: Encode also accepts profiles with
tag data shorter than 4 bytes, whose output the decoder rejects. -/
theorem profile_id_checksum (md5 : Bytes → Bytes) (p : Profile)
    (hmd5 : ∀ b, (md5 b).length = 16)
    (hwf : ProfileWF p) (hsize : encodedSize p < 2 ^ 32)
    (h4 : Version4_0_0 ≤ p.Version)
    (hnz : isZero (md5 (encodeHeaderTags p)) = false) :
    ∃ buf, Encode md5 p = .ok buf ∧
      extract buf 84 100 = md5 (zeroIDFields buf) ∧
      zeroIDFields buf = encodeHeaderTags p ∧
      getUint32 buf 44 = p.Flags ∧
      getUint32 buf 64 = p.RenderingIntent ∧
      ∃ q, Decode md5 buf = .ok q ∧ q.CheckSum = .Valid := by
  have hparts := hwf
  obtain ⟨hv0, -⟩ := hparts
  have henc := encode_eq_v4 md5 p hv0 h4
  have hD := decode_of_encoded md5 p (md5 (encodeHeaderTags p))
    (encodeHeaderTags p)
    (putUint32 (putUint32 (writeBytes (encodeHeaderTags p) 84
      (md5 (encodeHeaderTags p))) 44 p.Flags) 64 p.RenderingIntent)
    (hmd5 _) rfl rfl hwf hsize
  obtain ⟨hDec, -, hExt, hZero, hF, hR⟩ := hD
  refine ⟨_, henc, ?_, hZero, hF, hR, _, hDec, ?_⟩
  · rw [hExt, hZero]
  · show (if isZero (md5 (encodeHeaderTags p)) = true then CheckSum.Missing
        else if md5 (encodeHeaderTags p) = md5 (encodeHeaderTags p) then
          CheckSum.Valid else CheckSum.Invalid) = CheckSum.Valid
    rw [if_neg (by rw [hnz]; exact Bool.false_ne_true), if_pos rfl]

set_option maxRecDepth 40000 in
/-- C2 witness: the version-4.4 profile c2GoodProfile with one
four-byte tag encodes, carries the digest of the zeroed buffer at
84..100, and re-decodes with a valid CheckSum. -/
theorem profile_id_checksum_witness :
    (∀ b, (oneDigest b).length = 16) ∧
    ProfileWF c2GoodProfile ∧
    encodedSize c2GoodProfile < 2 ^ 32 ∧
    Version4_0_0 ≤ c2GoodProfile.Version ∧
    isZero (oneDigest (encodeHeaderTags c2GoodProfile)) = false ∧
    (∃ buf, Encode oneDigest c2GoodProfile = .ok buf ∧
      extract buf 84 100 = oneDigest (zeroIDFields buf) ∧
      zeroIDFields buf = encodeHeaderTags c2GoodProfile ∧
      getUint32 buf 44 = c2GoodProfile.Flags ∧
      getUint32 buf 64 = c2GoodProfile.RenderingIntent ∧
      ∃ q, Decode oneDigest buf = .ok q ∧ q.CheckSum = .Valid) :=
  ⟨fun _ => rfl, by decide, by decide, by decide, by decide,
    profile_id_checksum oneDigest c2GoodProfile (fun _ => rfl) (by decide)
      (by decide) (by decide) (by decide)⟩

set_option maxRecDepth 40000 in
/-- C2 counterexample: without a well-formedness restriction on the tag
data the claim's consequence fails.  Encode accepts the version-4.4
profile c2BadProfile, whose single tag holds only two bytes, but the
decoder rejects every tag shorter than four bytes, so decoding the
encoded buffer returns an error rather than a profile with a valid
CheckSum. -/
theorem encode_then_decode_can_fail :
    Version4_0_0 ≤ c2BadProfile.Version ∧
    (Encode oneDigest c2BadProfile).toOption.isSome = true ∧
    ((Encode oneDigest c2BadProfile).toOption.bind fun buf =>
        (Decode oneDigest buf).toOption) = none := by
  exact ⟨by decide, by decide, by decide⟩

end ICC
